import Mathlib

/-!
# trs-headers: vectors, matrices and the rotation quaternion

A shallow embedding of `include/Vector.h` and `include/Matrix.h` (the fixed vectors and the
fixed matrices `Matrix2`, `Matrix3`, `Matrix4`), of `include/Quaternion.h` (the rotation
quaternion and its SSE helpers), and of `include/trs/VectorN.h` and `include/trs/MatrixN.h`
(the generic vector and the generic square matrix with its LU-based `Determinant` and
`Inverse`).

Element arithmetic is exact: the element type is a commutative ring or a field, and the
`float` round trips of the source (`Vector3<float>{...}`, `float inv_det`, `(T)` casts) are
the identity.

* The fixed vectors and matrices are structures of named fields and their operations are the
  field expressions of the source; the adjugate inverses divide with the division of the
  field and are stated under a non-zero determinant.
* `VectorN` is a list of elements and `MatrixN` a list of rows. Their loops are folds over
  index lists in the order of the source, cell writes are `set`, cell reads are `get`. A loop
  body that may execute `return` or a division is a `forLoop` over `Loop`, and a division by
  zero ends the run with `Loop.divByZero`: `Determinant`, `Inverse` and `Normalise` return
  `none` in that case.
* A register `__m128` is a structure of four lanes and each intrinsic is its lane-wise
  definition. The library function `sqrtf` is a parameter of the functions that call it; the
  theorems about real arithmetic instantiate it with `Real.sqrt`. `MatrixToQuaternion`
  divides by a computed divisor and returns `none` when that divisor is zero.
* `MatrixIterator` of `include/Iterators.h` is a structure of its members: the cursor is an
  address counted in elements, the `size_t` members are natural numbers with arithmetic
  modulo `2 ^ 64`, and `operator++` returns `none` when it divides by a matrix size of zero.
  `BeginColumnMajor` and `EndColumnMajor` take the address of `row1.first`.
* `Point3D` and `Point4D` of `include/trs/Points.h` are structures of their fields.
* An in-place operator (`+=`, `-=`, `*=`) is the function from the old object to the new one;
  `mulAssignAt` is `operator*=` on objects in a store, where the operand may be the object
  itself.
  Where a statement of the source needs a constructor or an operator that the headers do not
  define, it is a parameter of the definition (`Vector2.div`, `Vector4.add`, `Matrix2.ne`).
* The comparison operators return `Bool` and compare elements with the decidable equality of
  the element type.
* The memory of a fixed matrix is the list of its fields in declaration order (`cellsAt`);
  `MatrixIterator.traverse` is the loop `for (it = first; it != last; it++)` that reads `*it`,
  bounded by a number of passes.
-/

set_option linter.unusedVariables false

/-! ## Definitions -/

namespace Libdas

/-- `struct Vector2`: two named fields. -/
structure Vector2 (T : Type) where
  first : T
  second : T
deriving DecidableEq, Repr

/-- `struct Vector3`: three named fields. -/
structure Vector3 (T : Type) where
  first : T
  second : T
  third : T
deriving DecidableEq, Repr

/-- `struct Vector4`: four named fields. -/
structure Vector4 (T : Type) where
  first : T
  second : T
  third : T
  fourth : T
deriving DecidableEq, Repr

/-- `struct Matrix2`: `Vector2<T> row1, row2`. -/
structure Matrix2 (T : Type) where
  row1 : Vector2 T
  row2 : Vector2 T
deriving DecidableEq, Repr

/-- `struct Matrix3`: `Vector3<T> row1, row2, row3`. -/
structure Matrix3 (T : Type) where
  row1 : Vector3 T
  row2 : Vector3 T
  row3 : Vector3 T
deriving DecidableEq, Repr

/-- `struct Matrix4`: `Vector4<T> row1, row2, row3, row4`. -/
structure Matrix4 (T : Type) where
  row1 : Vector4 T
  row2 : Vector4 T
  row3 : Vector4 T
  row4 : Vector4 T
deriving DecidableEq, Repr

section Fixed

variable {T : Type}

/-! ### Matrix2 -/

/-- The default constructor `Matrix2<T>::Matrix2()` for a numeric `T`: rows `(1, 0)` and `(0, 1)`. -/
def Matrix2.new [Zero T] [One T] : Matrix2 T :=
  { row1 := ⟨1, 0⟩, row2 := ⟨0, 1⟩ }

/-- `Matrix2<T>::operator*(const Matrix2<T>&)`. -/
def Matrix2.mul [Add T] [Mul T] (self _mat : Matrix2 T) : Matrix2 T :=
  { row1 := ⟨(self.row1.first * _mat.row1.first) + (self.row1.second * _mat.row2.first),
             (self.row1.first * _mat.row1.second) + (self.row1.second * _mat.row2.second)⟩
    row2 := ⟨(self.row2.first * _mat.row1.first) + (self.row2.second * _mat.row2.first),
             (self.row2.first * _mat.row1.second) + (self.row2.second * _mat.row2.second)⟩ }

/-- `Matrix2<T>::Determinant`. -/
def Matrix2.Determinant [Sub T] [Mul T] (_mat : Matrix2 T) : T :=
  _mat.row1.first * _mat.row2.second - _mat.row1.second * _mat.row2.first

/-- One pass of the body of the `for` loop of `Matrix2<T>::Inverse` at index `i`, on the
two local arrays `new_row1`, `new_row2`:
`new_row2[i] += new_row1[i]; new_row1[i] = -(new_row1[i] - 3 * new_row2[i]); new_row2[i] *= 2`. -/
def Matrix2.InverseStep [Ring T] (st : List T × List T) (i : Nat) : List T × List T :=
  let new_row1 := st.1
  let new_row2 := st.2
  let new_row2 := new_row2.set i (new_row2.getD i 0 + new_row1.getD i 0)
  let new_row1 := new_row1.set i (-(new_row1.getD i 0 - 3 * new_row2.getD i 0))
  let new_row2 := new_row2.set i (new_row2.getD i 0 * 2)
  (new_row1, new_row2)

/-- `Matrix2<T>::Inverse`: the two augmented rows, the loop `for (i = 0; i < 4; i++)`, and
the output read from positions 2 and 3 of both rows. -/
def Matrix2.Inverse [Ring T] (self : Matrix2 T) : Matrix2 T :=
  let new_row1 : List T := [self.row1.first, self.row1.second, 1, 0]
  let new_row2 : List T := [self.row2.first, self.row2.second, 0, 1]
  let st := (List.range 4).foldl Matrix2.InverseStep (new_row1, new_row2)
  { row1 := ⟨st.1.getD 2 0, st.1.getD 3 0⟩
    row2 := ⟨st.2.getD 2 0, st.2.getD 3 0⟩ }

/-- `Matrix2<T>::Transpose`. -/
def Matrix2.Transpose (self : Matrix2 T) : Matrix2 T :=
  { row1 := ⟨self.row1.first, self.row2.first⟩
    row2 := ⟨self.row1.second, self.row2.second⟩ }

/-- The 2x2 matrix of the fields of a `Matrix2`, row by row. -/
def Matrix2.toMatrix (self : Matrix2 T) : Matrix (Fin 2) (Fin 2) T :=
  !![self.row1.first, self.row1.second;
     self.row2.first, self.row2.second]

/-! ### Matrix3 -/

/-- The default constructor `Matrix3<T>::Matrix3()` for a numeric `T`: the rows of the identity. -/
def Matrix3.new [Zero T] [One T] : Matrix3 T :=
  { row1 := ⟨1, 0, 0⟩, row2 := ⟨0, 1, 0⟩, row3 := ⟨0, 0, 1⟩ }

/-- `Matrix3<T>::operator*(const Matrix3<T>&)`. -/
def Matrix3.mul [Add T] [Mul T] (self matrix : Matrix3 T) : Matrix3 T :=
  { row1 := ⟨(self.row1.first * matrix.row1.first) + (self.row1.second * matrix.row2.first) + (self.row1.third * matrix.row3.first),
             (self.row1.first * matrix.row1.second) + (self.row1.second * matrix.row2.second) + (self.row1.third * matrix.row3.second),
             (self.row1.first * matrix.row1.third) + (self.row1.second * matrix.row2.third) + (self.row1.third * matrix.row3.third)⟩
    row2 := ⟨(self.row2.first * matrix.row1.first) + (self.row2.second * matrix.row2.first) + (self.row2.third * matrix.row3.first),
             (self.row2.first * matrix.row1.second) + (self.row2.second * matrix.row2.second) + (self.row2.third * matrix.row3.second),
             (self.row2.first * matrix.row1.third) + (self.row2.second * matrix.row2.third) + (self.row2.third * matrix.row3.third)⟩
    row3 := ⟨(self.row3.first * matrix.row1.first) + (self.row3.second * matrix.row2.first) + (self.row3.third * matrix.row3.first),
             (self.row3.first * matrix.row1.second) + (self.row3.second * matrix.row2.second) + (self.row3.third * matrix.row3.second),
             (self.row3.first * matrix.row1.third) + (self.row3.second * matrix.row2.third) + (self.row3.third * matrix.row3.third)⟩ }

/-- `Matrix3<T>::Determinant`: the six-term expansion. -/
def Matrix3.Determinant [Add T] [Sub T] [Mul T] (_mat : Matrix3 T) : T :=
  (_mat.row1.first * _mat.row2.second * _mat.row3.third) +
  (_mat.row1.second * _mat.row2.third * _mat.row3.first) +
  (_mat.row1.third * _mat.row2.first * _mat.row3.second) -
  (_mat.row1.third * _mat.row2.second * _mat.row3.first) -
  (_mat.row1.first * _mat.row2.third * _mat.row3.second) -
  (_mat.row1.second * _mat.row2.first * _mat.row3.third)

/-- `Matrix3<T>::Inverse`: `inv_det = 1 / Determinant(*this)` times the signed 2x2 minors. -/
def Matrix3.Inverse [Field T] (self : Matrix3 T) : Matrix3 T :=
  let inv_det : T := 1 / Matrix3.Determinant self
  { row1 := ⟨inv_det * (self.row2.second * self.row3.third - self.row2.third * self.row3.second),
             inv_det * -(self.row1.second * self.row3.third - self.row1.third * self.row3.second),
             inv_det * (self.row1.second * self.row2.third - self.row1.third * self.row2.second)⟩
    row2 := ⟨inv_det * -(self.row2.first * self.row3.third - self.row2.third * self.row3.first),
             inv_det * (self.row1.first * self.row3.third - self.row1.third * self.row3.first),
             inv_det * -(self.row1.first * self.row2.third - self.row1.third * self.row2.first)⟩
    row3 := ⟨inv_det * (self.row2.first * self.row3.second - self.row2.second * self.row3.first),
             inv_det * -(self.row1.first * self.row3.second - self.row1.second * self.row3.first),
             inv_det * (self.row1.first * self.row2.second - self.row1.second * self.row2.first)⟩ }

/-- `Matrix3<T>::Transpose`. -/
def Matrix3.Transpose (self : Matrix3 T) : Matrix3 T :=
  { row1 := ⟨self.row1.first, self.row2.first, self.row3.first⟩
    row2 := ⟨self.row1.second, self.row2.second, self.row3.second⟩
    row3 := ⟨self.row1.third, self.row2.third, self.row3.third⟩ }

/-- The 3x3 matrix of the fields of a `Matrix3`, row by row. -/
def Matrix3.toMatrix (self : Matrix3 T) : Matrix (Fin 3) (Fin 3) T :=
  !![self.row1.first, self.row1.second, self.row1.third;
     self.row2.first, self.row2.second, self.row2.third;
     self.row3.first, self.row3.second, self.row3.third]

/-! ### Matrix4 -/

/-- The default constructor `Matrix4<T>::Matrix4()` for a numeric `T`: the rows of the identity. -/
def Matrix4.new [Zero T] [One T] : Matrix4 T :=
  { row1 := ⟨1, 0, 0, 0⟩, row2 := ⟨0, 1, 0, 0⟩, row3 := ⟨0, 0, 1, 0⟩, row4 := ⟨0, 0, 0, 1⟩ }

/-- `Matrix4<T>::operator*(const Matrix4<T>&)`. -/
def Matrix4.mul [Add T] [Mul T] (self _mat : Matrix4 T) : Matrix4 T :=
  { row1 := ⟨(self.row1.first * _mat.row1.first) + (self.row1.second * _mat.row2.first) + (self.row1.third * _mat.row3.first) + (self.row1.fourth * _mat.row4.first),
             (self.row1.first * _mat.row1.second) + (self.row1.second * _mat.row2.second) + (self.row1.third * _mat.row3.second) + (self.row1.fourth * _mat.row4.second),
             (self.row1.first * _mat.row1.third) + (self.row1.second * _mat.row2.third) + (self.row1.third * _mat.row3.third) + (self.row1.fourth * _mat.row4.third),
             (self.row1.first * _mat.row1.fourth) + (self.row1.second * _mat.row2.fourth) + (self.row1.third * _mat.row3.fourth) + (self.row1.fourth * _mat.row4.fourth)⟩
    row2 := ⟨(self.row2.first * _mat.row1.first) + (self.row2.second * _mat.row2.first) + (self.row2.third * _mat.row3.first) + (self.row2.fourth * _mat.row4.first),
             (self.row2.first * _mat.row1.second) + (self.row2.second * _mat.row2.second) + (self.row2.third * _mat.row3.second) + (self.row2.fourth * _mat.row4.second),
             (self.row2.first * _mat.row1.third) + (self.row2.second * _mat.row2.third) + (self.row2.third * _mat.row3.third) + (self.row2.fourth * _mat.row4.third),
             (self.row2.first * _mat.row1.fourth) + (self.row2.second * _mat.row2.fourth) + (self.row2.third * _mat.row3.fourth) + (self.row2.fourth * _mat.row4.fourth)⟩
    row3 := ⟨(self.row3.first * _mat.row1.first) + (self.row3.second * _mat.row2.first) + (self.row3.third * _mat.row3.first) + (self.row3.fourth * _mat.row4.first),
             (self.row3.first * _mat.row1.second) + (self.row3.second * _mat.row2.second) + (self.row3.third * _mat.row3.second) + (self.row3.fourth * _mat.row4.second),
             (self.row3.first * _mat.row1.third) + (self.row3.second * _mat.row2.third) + (self.row3.third * _mat.row3.third) + (self.row3.fourth * _mat.row4.third),
             (self.row3.first * _mat.row1.fourth) + (self.row3.second * _mat.row2.fourth) + (self.row3.third * _mat.row3.fourth) + (self.row3.fourth * _mat.row4.fourth)⟩
    row4 := ⟨(self.row4.first * _mat.row1.first) + (self.row4.second * _mat.row2.first) + (self.row4.third * _mat.row3.first) + (self.row4.fourth * _mat.row4.first),
             (self.row4.first * _mat.row1.second) + (self.row4.second * _mat.row2.second) + (self.row4.third * _mat.row3.second) + (self.row4.fourth * _mat.row4.second),
             (self.row4.first * _mat.row1.third) + (self.row4.second * _mat.row2.third) + (self.row4.third * _mat.row3.third) + (self.row4.fourth * _mat.row4.third),
             (self.row4.first * _mat.row1.fourth) + (self.row4.second * _mat.row2.fourth) + (self.row4.third * _mat.row3.fourth) + (self.row4.fourth * _mat.row4.fourth)⟩ }

/-- `Matrix4<T>::Determinant`: the four 3x3 matrices `adj_mat[0..3]` built from rows 2 to 4,
the products with the first row kept in `out`, and the alternating sum. -/
def Matrix4.Determinant [Add T] [Sub T] [Mul T] (_mat : Matrix4 T) : T :=
  let adj_mat0 : Matrix3 T :=
    { row1 := ⟨_mat.row2.second, _mat.row2.third, _mat.row2.fourth⟩
      row2 := ⟨_mat.row3.second, _mat.row3.third, _mat.row3.fourth⟩
      row3 := ⟨_mat.row4.second, _mat.row4.third, _mat.row4.fourth⟩ }
  let adj_mat1 : Matrix3 T :=
    { row1 := ⟨_mat.row2.first, _mat.row2.third, _mat.row2.fourth⟩
      row2 := ⟨_mat.row3.first, _mat.row3.third, _mat.row3.fourth⟩
      row3 := ⟨_mat.row4.first, _mat.row4.third, _mat.row4.fourth⟩ }
  let adj_mat2 : Matrix3 T :=
    { row1 := ⟨_mat.row2.first, _mat.row2.second, _mat.row2.fourth⟩
      row2 := ⟨_mat.row3.first, _mat.row3.second, _mat.row3.fourth⟩
      row3 := ⟨_mat.row4.first, _mat.row4.second, _mat.row4.fourth⟩ }
  let adj_mat3 : Matrix3 T :=
    { row1 := ⟨_mat.row2.first, _mat.row2.second, _mat.row2.third⟩
      row2 := ⟨_mat.row3.first, _mat.row3.second, _mat.row3.third⟩
      row3 := ⟨_mat.row4.first, _mat.row4.second, _mat.row4.third⟩ }
  let out : Vector4 T :=
    ⟨_mat.row1.first * Matrix3.Determinant adj_mat0,
     _mat.row1.second * Matrix3.Determinant adj_mat1,
     _mat.row1.third * Matrix3.Determinant adj_mat2,
     _mat.row1.fourth * Matrix3.Determinant adj_mat3⟩
  out.first - out.second + out.third - out.fourth

/-- `Matrix4<T>::Inverse`: sixteen assignments, each `± inv_det` times the determinant of the
3x3 matrix `adj_mat` listed just before it in the source. -/
def Matrix4.Inverse [Field T] (self : Matrix4 T) : Matrix4 T :=
  let inv_det : T := 1 / Matrix4.Determinant self
  let r1 := self.row1
  let r2 := self.row2
  let r3 := self.row3
  let r4 := self.row4
  { row1 :=
      ⟨inv_det * Matrix3.Determinant ⟨⟨r2.second, r2.third, r2.fourth⟩, ⟨r3.second, r3.third, r3.fourth⟩, ⟨r4.second, r4.third, r4.fourth⟩⟩,
       -inv_det * Matrix3.Determinant ⟨⟨r1.second, r1.third, r1.fourth⟩, ⟨r3.second, r3.third, r3.fourth⟩, ⟨r4.second, r4.third, r4.fourth⟩⟩,
       inv_det * Matrix3.Determinant ⟨⟨r1.second, r1.third, r1.fourth⟩, ⟨r2.second, r2.third, r2.fourth⟩, ⟨r4.second, r4.third, r4.fourth⟩⟩,
       -inv_det * Matrix3.Determinant ⟨⟨r1.second, r1.third, r1.fourth⟩, ⟨r2.second, r2.third, r2.fourth⟩, ⟨r3.second, r3.third, r3.fourth⟩⟩⟩
    row2 :=
      ⟨-inv_det * Matrix3.Determinant ⟨⟨r2.first, r2.third, r2.fourth⟩, ⟨r3.first, r3.third, r3.fourth⟩, ⟨r4.first, r4.third, r4.fourth⟩⟩,
       inv_det * Matrix3.Determinant ⟨⟨r1.first, r1.third, r1.fourth⟩, ⟨r3.first, r3.third, r3.fourth⟩, ⟨r4.first, r4.third, r4.fourth⟩⟩,
       -inv_det * Matrix3.Determinant ⟨⟨r1.first, r1.third, r1.fourth⟩, ⟨r2.first, r2.third, r2.fourth⟩, ⟨r4.first, r4.third, r4.fourth⟩⟩,
       inv_det * Matrix3.Determinant ⟨⟨r1.first, r1.third, r1.fourth⟩, ⟨r2.first, r2.third, r2.fourth⟩, ⟨r3.first, r3.third, r3.fourth⟩⟩⟩
    row3 :=
      ⟨inv_det * Matrix3.Determinant ⟨⟨r2.first, r2.second, r2.fourth⟩, ⟨r3.first, r3.second, r3.fourth⟩, ⟨r4.first, r4.second, r4.fourth⟩⟩,
       -inv_det * Matrix3.Determinant ⟨⟨r1.first, r1.second, r1.fourth⟩, ⟨r3.first, r3.second, r3.fourth⟩, ⟨r4.first, r4.second, r4.fourth⟩⟩,
       inv_det * Matrix3.Determinant ⟨⟨r1.first, r1.second, r1.fourth⟩, ⟨r2.first, r2.second, r2.fourth⟩, ⟨r4.first, r4.second, r4.fourth⟩⟩,
       -inv_det * Matrix3.Determinant ⟨⟨r1.first, r1.second, r1.fourth⟩, ⟨r2.first, r2.second, r2.fourth⟩, ⟨r3.first, r3.second, r3.fourth⟩⟩⟩
    row4 :=
      ⟨-inv_det * Matrix3.Determinant ⟨⟨r2.first, r2.second, r2.third⟩, ⟨r3.first, r3.second, r3.third⟩, ⟨r4.first, r4.second, r4.third⟩⟩,
       inv_det * Matrix3.Determinant ⟨⟨r1.first, r1.second, r1.third⟩, ⟨r3.first, r3.second, r3.third⟩, ⟨r4.first, r4.second, r4.third⟩⟩,
       -inv_det * Matrix3.Determinant ⟨⟨r1.first, r1.second, r1.third⟩, ⟨r2.first, r2.second, r2.third⟩, ⟨r4.first, r4.second, r4.third⟩⟩,
       inv_det * Matrix3.Determinant ⟨⟨r1.first, r1.second, r1.third⟩, ⟨r2.first, r2.second, r2.third⟩, ⟨r3.first, r3.second, r3.third⟩⟩⟩ }

/-- `Matrix4<T>::Transpose`. -/
def Matrix4.Transpose (self : Matrix4 T) : Matrix4 T :=
  { row1 := ⟨self.row1.first, self.row2.first, self.row3.first, self.row4.first⟩
    row2 := ⟨self.row1.second, self.row2.second, self.row3.second, self.row4.second⟩
    row3 := ⟨self.row1.third, self.row2.third, self.row3.third, self.row4.third⟩
    row4 := ⟨self.row1.fourth, self.row2.fourth, self.row3.fourth, self.row4.fourth⟩ }

/-- The 4x4 matrix of the fields of a `Matrix4`, row by row. -/
def Matrix4.toMatrix (self : Matrix4 T) : Matrix (Fin 4) (Fin 4) T :=
  !![self.row1.first, self.row1.second, self.row1.third, self.row1.fourth;
     self.row2.first, self.row2.second, self.row2.third, self.row2.fourth;
     self.row3.first, self.row3.second, self.row3.third, self.row3.fourth;
     self.row4.first, self.row4.second, self.row4.third, self.row4.fourth]

end Fixed

end Libdas

namespace TRS

/-- `class MatrixN : public std::vector<std::vector<T>>`: the rows, outermost first. -/
structure MatrixN (T : Type) where
  rows : List (List T)
deriving DecidableEq, Repr

/-- How the body of a `for` loop ends: it falls through to the next iteration with a new
state, it executes `return v`, or it divides by zero. -/
inductive Loop (T σ : Type) where
  | next (s : σ)
  | ret (v : T)
  | divByZero

section Generic

variable {T σ : Type}

/-- A `for` loop over the index list `js` whose body may leave the function: the iterations
run in order until one of them does not fall through. -/
def forLoop (body : σ → Nat → Loop T σ) : List Nat → σ → Loop T σ
  | [], s => Loop.next s
  | j :: js, s =>
    match body s j with
    | Loop.next s' => forLoop body js s'
    | Loop.ret v => Loop.ret v
    | Loop.divByZero => Loop.divByZero

/-- The quotient `a / b` of arithmetic element type, defined when the divisor is not zero. -/
def checkedDiv [Field T] [DecidableEq T] (a b : T) : Option T :=
  if b = 0 then none else some (a / b)

/-- `size()`: the number of rows. -/
def MatrixN.size (m : MatrixN T) : Nat := m.rows.length

/-- `(*this)[i].size()`: the length of row `i`. -/
def MatrixN.rowSize (m : MatrixN T) (i : Nat) : Nat := (m.rows.getD i []).length

/-- A read of `m[i][j]`. -/
def MatrixN.get [Zero T] (m : MatrixN T) (i j : Nat) : T := (m.rows.getD i []).getD j 0

/-- The assignment `m[i][j] = v`. -/
def MatrixN.set (m : MatrixN T) (i j : Nat) (v : T) : MatrixN T :=
  ⟨m.rows.set i ((m.rows.getD i []).set j v)⟩

/-- `explicit MatrixN(size_t _count, const T& _value = T())` with the default `_value`:
`_count` rows, each resized to `_count` zeros. -/
def MatrixN.new [Zero T] (_count : Nat) : MatrixN T :=
  ⟨List.replicate _count (List.replicate _count 0)⟩

/-- `MatrixN<T>::MakeIdentity(n)`. -/
def MatrixN.MakeIdentity [Zero T] [One T] (n : Nat) : MatrixN T :=
  (List.range n).foldl (fun matrix i => matrix.set i i 1) (MatrixN.new n)

/-- `MatrixN<T>::operator*(const MatrixN<T>&)`: for every cell of `result(size())`, the cell is
zeroed and the products `(*this)[i][k] * m2[k][j]` are added to it for `k < size()`. -/
def MatrixN.mul [Zero T] [Add T] [Mul T] (self m2 : MatrixN T) : MatrixN T :=
  let result : MatrixN T := MatrixN.new self.size
  (List.range result.size).foldl (fun result i =>
    (List.range (result.rowSize i)).foldl (fun result j =>
      let result := result.set i j 0
      (List.range self.size).foldl (fun result k =>
        result.set i j (result.get i j + self.get i k * m2.get k j)) result) result) result

/-- The loop `for (k = 0; k < i; k++) sum += a[r][k] * b[k][c]` started from `sum = T()`. -/
def rowColSum [Zero T] [Add T] [Mul T] (a b : MatrixN T) (r c i : Nat) : T :=
  (List.range i).foldl (fun sum k => sum + a.get r k * b.get k c) 0

/-- `Determinant()`, the loop commented `upper triangular` at row `i`:
`for (j = i; j < size(); j++) upper[i][j] = (*this)[i][j] - sum` with
`sum` the sum of `lower[i][k] * upper[k][j]` over `k < i`. -/
def MatrixN.detUpper [Field T] (self : MatrixN T) (i : Nat) (upper lower : MatrixN T) :
    MatrixN T :=
  (List.range' i (self.size - i)).foldl (fun upper j =>
    let sum := rowColSum lower upper i j i
    upper.set i j (self.get i j - sum)) upper

/-- `Determinant()`, the loop commented `lower triangular` at column `i`:
for `j` from `i` to `size() - 1`, `lower[i][i] = 1` when `i == j`; otherwise `sum` is
computed, the function returns 0 when `!upper[i][i]`, and else
`lower[j][i] = ((*this)[j][i] - sum) / upper[i][i]`. -/
def MatrixN.detLower [Field T] [DecidableEq T] (self : MatrixN T) (i : Nat)
    (upper lower : MatrixN T) : Loop T (MatrixN T) :=
  forLoop (fun lower j =>
    if i = j then
      Loop.next (lower.set i i 1)
    else
      let sum := rowColSum lower upper j i i
      if upper.get i i = 0 then
        Loop.ret 0
      else
        match checkedDiv (self.get j i - sum) (upper.get i i) with
        | some q => Loop.next (lower.set j i q)
        | none => Loop.divByZero) (List.range' i (self.size - i)) lower

/-- `Determinant()`, the outer loop `for (i = 0; i < size(); i++)` over the pair
`(upper, lower)`, both started as `MatrixN(size())`. -/
def MatrixN.detFactor [Field T] [DecidableEq T] (self : MatrixN T) :
    Loop T (MatrixN T × MatrixN T) :=
  forLoop (fun st i =>
    let upper := self.detUpper i st.1 st.2
    match self.detLower i upper st.2 with
    | Loop.next lower => Loop.next (upper, lower)
    | Loop.ret v => Loop.ret v
    | Loop.divByZero => Loop.divByZero) (List.range self.size)
    (MatrixN.new self.size, MatrixN.new self.size)

/-- `MatrixN<T>::Determinant()` for an arithmetic `T`: the value returned, or `none` when a
division by zero is executed. After the factorisation `det = 1` is multiplied by every
`upper[i][i]`. -/
def MatrixN.Determinant [Field T] [DecidableEq T] (self : MatrixN T) : Option T :=
  match self.detFactor with
  | Loop.next st => some ((List.range st.1.size).foldl (fun det i => det * st.1.get i i) 1)
  | Loop.ret v => some v
  | Loop.divByZero => none

/-- `Inverse()`, the loop commented `upper triangular` at row `i`: as in `Determinant()` but
with `j` from 0. -/
def MatrixN.invUpper [Field T] (self : MatrixN T) (i : Nat) (upper lower : MatrixN T) :
    MatrixN T :=
  (List.range self.size).foldl (fun upper j =>
    let sum := rowColSum lower upper i j i
    upper.set i j (self.get i j - sum)) upper

/-- `Inverse()`, the loop commented `lower triangular` at column `i`: for every `j` below
`size()`, `lower[i][j] = 1` when `i == j`, and else
`lower[j][i] = ((*this)[j][i] - sum) / upper[i][i]`, with no test of the divisor. -/
def MatrixN.invLower [Field T] [DecidableEq T] (self : MatrixN T) (i : Nat)
    (upper lower : MatrixN T) : Loop T (MatrixN T) :=
  forLoop (fun lower j =>
    if i = j then
      Loop.next (lower.set i j 1)
    else
      let sum := rowColSum lower upper j i i
      match checkedDiv (self.get j i - sum) (upper.get i i) with
      | some q => Loop.next (lower.set j i q)
      | none => Loop.divByZero) (List.range self.size) lower

/-- `Inverse()`, the loop commented `find LU matrices`. -/
def MatrixN.invFactor [Field T] [DecidableEq T] (self : MatrixN T) :
    Loop T (MatrixN T × MatrixN T) :=
  forLoop (fun st i =>
    let upper := self.invUpper i st.1 st.2
    match self.invLower i upper st.2 with
    | Loop.next lower => Loop.next (upper, lower)
    | Loop.ret v => Loop.ret v
    | Loop.divByZero => Loop.divByZero) (List.range self.size)
    (MatrixN.new self.size, MatrixN.new self.size)

/-- `Inverse()`, the first loop after `calculate inverse of these matrices`: for `i` upwards
and `j <= i`, `inverseLower[i][j] = (b - sum) / lower[i][i]` with `b` 1 on the diagonal and 0
elsewhere and `sum` the sum of `lower[i][k] * inverseLower[k][j]` over `k < i`. -/
def MatrixN.inverseLower [Field T] [DecidableEq T] (n : Nat) (lower : MatrixN T) :
    Loop T (MatrixN T) :=
  forLoop (fun inverseLower i =>
    forLoop (fun inverseLower j =>
      let sum := rowColSum lower inverseLower i j i
      let b : T := if i = j then 1 else 0
      match checkedDiv (b - sum) (lower.get i i) with
      | some q => Loop.next (inverseLower.set i j q)
      | none => Loop.divByZero) (List.range (i + 1)) inverseLower) (List.range n)
    (MatrixN.new n)

/-- `Inverse()`, the second loop: for `i` from `size() - 1` down to 0 and `j` from
`size() - 1` down to `i`, `inverseUpper[i][j] = (b - sum) / upper[i][i]` with `sum` the sum of
`upper[i][k] * inverseUpper[k][j]` over `k` from `size() - 1` down to `i + 1`. -/
def MatrixN.inverseUpper [Field T] [DecidableEq T] (n : Nat) (upper : MatrixN T) :
    Loop T (MatrixN T) :=
  forLoop (fun inverseUpper i =>
    forLoop (fun inverseUpper j =>
      let sum := (List.range' (i + 1) (n - (i + 1))).reverse.foldl
        (fun sum k => sum + upper.get i k * inverseUpper.get k j) 0
      let b : T := if i = j then 1 else 0
      match checkedDiv (b - sum) (upper.get i i) with
      | some q => Loop.next (inverseUpper.set i j q)
      | none => Loop.divByZero) (List.range' i (n - i)).reverse inverseUpper)
    (List.range n).reverse (MatrixN.new n)

/-- `MatrixN<T>::Inverse()` for an arithmetic `T`: the matrix returned,
`inverseUpper * inverseLower`, or `none` when a division by zero is executed. -/
def MatrixN.Inverse [Field T] [DecidableEq T] (self : MatrixN T) : Option (MatrixN T) :=
  match self.invFactor with
  | Loop.next st =>
    match MatrixN.inverseLower self.size st.2 with
    | Loop.next inverseLower =>
      match MatrixN.inverseUpper self.size st.1 with
      | Loop.next inverseUpper => some (inverseUpper.mul inverseLower)
      | _ => none
    | _ => none
  | _ => none

/-- An `n x n` matrix: `n` rows of length `n`. -/
def MatrixN.Square (n : Nat) (m : MatrixN T) : Prop :=
  m.size = n ∧ ∀ i, i < n → m.rowSize i = n

/-- Whether a matrix is `n x n` can be computed. -/
instance MatrixN.decidableSquare (n : Nat) (m : MatrixN T) : Decidable (m.Square n) := by
  unfold MatrixN.Square
  exact inferInstance

/-- The entries of a `MatrixN` below size `n` as a matrix over `Fin n`. -/
def MatrixN.toMatrix [Zero T] (n : Nat) (m : MatrixN T) : Matrix (Fin n) (Fin n) T :=
  Matrix.of fun i j => m.get i j

/-- The leading principal minor of order `k`: the Leibniz determinant of the upper-left
`k x k` block. -/
def MatrixN.leadingMinor [CommRing T] (m : MatrixN T) (k : Nat) : T :=
  Matrix.det (MatrixN.toMatrix k m)

end Generic

section Invariants

variable {T : Type}

/-- The state of `Determinant()` before the iteration `i = p` of its outer loop, for a matrix
`self` of size `n`: rows below `p` of `upper` (from the diagonal on) and columns below `p` of
`lower` (from the diagonal down) hold the Doolittle recurrences, and every other cell is
still zero. -/
def MatrixN.DetInv [Field T] (self : MatrixN T) (n p : Nat) (upper lower : MatrixN T) : Prop :=
  upper.Square n ∧ lower.Square n ∧
  (∀ i j, i < p → i ≤ j → j < n →
    upper.get i j = self.get i j - ∑ k in Finset.range i, lower.get i k * upper.get k j) ∧
  (∀ i j, j < i ∨ p ≤ i → upper.get i j = 0) ∧
  (∀ i j, i < p → i < j → j < n →
    lower.get j i * upper.get i i
      = self.get j i - ∑ k in Finset.range i, lower.get j k * upper.get k i) ∧
  (∀ i, i < p → lower.get i i = 1) ∧
  (∀ i j, i < j ∨ p ≤ j → lower.get i j = 0)

end Invariants

section Invariants2

variable {T : Type}

/-- The state of the loop `find LU matrices` of `Inverse()` before its iteration `i = p`, for
a matrix `self` of size `n`: the rows below `p` of `upper` and the columns below `p` of
`lower` hold the recurrences by which they were computed, and the pivots met so far are not
zero. -/
def MatrixN.FactorInv [Field T] (self : MatrixN T) (n p : Nat) (upper lower : MatrixN T) :
    Prop :=
  upper.Square n ∧ lower.Square n ∧
  (∀ i j, i < p → j < n →
    upper.get i j = self.get i j - ∑ k in Finset.range i, lower.get i k * upper.get k j) ∧
  (∀ i j, i < p → j < n → j ≠ i →
    lower.get j i
      = (self.get j i - ∑ k in Finset.range i, lower.get j k * upper.get k i)
          / upper.get i i) ∧
  (∀ i, i < p → lower.get i i = 1) ∧
  (∀ i, i < p → upper.get i i ≠ 0)

end Invariants2

end TRS

namespace TRS

/-- `class VectorN : public std::vector<T>`: the elements in order. -/
structure VectorN (T : Type) where
  elems : List T
deriving DecidableEq, Repr

section GenericVector

variable {T : Type}

/-- `size()`: the number of elements. -/
def VectorN.size (v : VectorN T) : Nat := v.elems.length

/-- A read of `v[i]`. -/
def VectorN.get [Zero T] (v : VectorN T) (i : Nat) : T := v.elems.getD i 0

/-- The assignment `v[i] = x`. -/
def VectorN.set (v : VectorN T) (i : Nat) (x : T) : VectorN T := ⟨v.elems.set i x⟩

/-- `explicit VectorN(size_t _count, const T& _value = T())` with the default `_value`:
`_count` zeros. -/
def VectorN.new [Zero T] (_count : Nat) : VectorN T := ⟨List.replicate _count 0⟩

/-- `VectorN<T>::operator+(const VectorN<T>&)`: `result` has `min(size(), v2.size())` zeros
and `result[i] = (*this)[i] + v2[i]` for `i` below that minimum. -/
def VectorN.add [Zero T] [Add T] (self v2 : VectorN T) : VectorN T :=
  let result : VectorN T := VectorN.new (min self.size v2.size)
  (List.range (min self.size v2.size)).foldl
    (fun result i => result.set i (self.get i + v2.get i)) result

/-- `VectorN<T>::operator-(const VectorN<T>&)`: as `operator+` with
`result[i] = (*this)[i] - v2[i]`. -/
def VectorN.sub [Zero T] [Sub T] (self v2 : VectorN T) : VectorN T :=
  let result : VectorN T := VectorN.new (min self.size v2.size)
  (List.range (min self.size v2.size)).foldl
    (fun result i => result.set i (self.get i - v2.get i)) result

/-- `VectorN<T>::operator*(const VectorN<T>&)`, the dot product: `dotProduct` starts as
`T()` and, only when the sizes are equal, `(*this)[i] * v2[i]` is added for every `i`. -/
def VectorN.dot [Zero T] [Add T] [Mul T] (self v2 : VectorN T) : T :=
  let dotProduct : T := 0
  if self.size = v2.size then
    (List.range self.size).foldl
      (fun dotProduct i => dotProduct + self.get i * v2.get i) dotProduct
  else
    dotProduct

/-- `VectorN<T>::Length()`: `sig += (*this)[i] * (*this)[i]` over the elements, then
`std::sqrtf(sig)`, with the library function `sqrtf` as a parameter. -/
def VectorN.Length [Zero T] [Add T] [Mul T] (sqrtf : T → T) (self : VectorN T) : T :=
  let sig := (List.range self.size).foldl (fun sig i => sig + self.get i * self.get i) 0
  sqrtf sig

/-- `VectorN<T>::Normalise()`: the vector afterwards, or `none` when a division by zero is
executed. With `len = Length()`, only when `len > 0` every element is divided by `len` in
place. -/
def VectorN.Normalise [LinearOrderedField T] (sqrtf : T → T) (self : VectorN T) :
    Option (VectorN T) :=
  let len := self.Length sqrtf
  if len > 0 then
    match forLoop (fun (v : VectorN T) i =>
        match checkedDiv (v.get i) len with
        | some q => (Loop.next (v.set i q) : Loop T (VectorN T))
        | none => Loop.divByZero) (List.range self.size) self with
    | Loop.next v => some v
    | _ => none
  else
    some self

/-- `MatrixN<T>::operator*(const VectorN<T>&)`: `result` has `size()` zeros and
`result[i] += (*this)[i][j] * v1[j]` for all `i`, `j` below `size()`. -/
def MatrixN.mulVec [Zero T] [Add T] [Mul T] (self : MatrixN T) (v1 : VectorN T) : VectorN T :=
  let result : VectorN T := VectorN.new self.size
  (List.range self.size).foldl (fun result i =>
    (List.range self.size).foldl (fun result j =>
      result.set i (result.get i + self.get i j * v1.get j)) result) result

end GenericVector

end TRS

namespace Libdas

/-- The SSE register type `__m128` of `xmmintrin.h`: four lanes, `e0` the lowest. -/
structure M128 (T : Type) where
  e0 : T
  e1 : T
  e2 : T
  e3 : T
deriving DecidableEq, Repr

/-- `struct Quaternion`: the four fields `x, y, z, w`, contiguous in this order. -/
structure Quaternion (T : Type) where
  x : T
  y : T
  z : T
  w : T
deriving DecidableEq, Repr

section Quaternions

variable {T : Type}

/-! ### Vector3 products -/

/-- `Vector3<T>::operator*(const Vector3<T>&)`: the dot product. -/
def Vector3.dot [Add T] [Mul T] (self _vec : Vector3 T) : T :=
  self.first * _vec.first +
  self.second * _vec.second +
  self.third * _vec.third

/-- `Vector3<T>::Cross`. -/
def Vector3.Cross [Sub T] [Mul T] (Vector1 Vector2 : Vector3 T) : Vector3 T :=
  ⟨Vector1.second * Vector2.third -
   Vector1.third * Vector2.second,
   Vector1.third * Vector2.first -
   Vector1.first * Vector2.third,
   Vector1.first * Vector2.second -
   Vector1.second * Vector2.first⟩

/-! ### The SSE intrinsics used by `Quaternion.h`, lane by lane as Intel documents them -/

/-- Lane `i` of a register, `i` taken below 4. -/
def M128.lane (v : M128 T) (i : Nat) : T :=
  match i with
  | 0 => v.e0
  | 1 => v.e1
  | 2 => v.e2
  | _ => v.e3

/-- The macro `_MM_SHUFFLE(fp3, fp2, fp1, fp0)`:
`(fp3 << 6) | (fp2 << 4) | (fp1 << 2) | fp0`. -/
def _MM_SHUFFLE (fp3 fp2 fp1 fp0 : Nat) : Nat :=
  (fp3 <<< 6) ||| (fp2 <<< 4) ||| (fp1 <<< 2) ||| fp0

/-- `_mm_shuffle_ps(a, b, imm8)`: lanes 0 and 1 are picked from `a` by bits 1:0 and 3:2 of
`imm8`, lanes 2 and 3 from `b` by bits 5:4 and 7:6. -/
def _mm_shuffle_ps (a b : M128 T) (imm8 : Nat) : M128 T :=
  ⟨a.lane (imm8 &&& 3), a.lane ((imm8 >>> 2) &&& 3),
   b.lane ((imm8 >>> 4) &&& 3), b.lane ((imm8 >>> 6) &&& 3)⟩

/-- `_mm_set_ps(e3, e2, e1, e0)`: the last argument is the lowest lane. -/
def _mm_set_ps (e3 e2 e1 e0 : T) : M128 T := ⟨e0, e1, e2, e3⟩

/-- `_mm_set_ps1(a)`: `a` in every lane. -/
def _mm_set_ps1 (a : T) : M128 T := ⟨a, a, a, a⟩

/-- `_mm_mul_ps(a, b)`: lane-wise product. -/
def _mm_mul_ps [Mul T] (a b : M128 T) : M128 T :=
  ⟨a.e0 * b.e0, a.e1 * b.e1, a.e2 * b.e2, a.e3 * b.e3⟩

/-- `_mm_add_ps(a, b)`: lane-wise sum. -/
def _mm_add_ps [Add T] (a b : M128 T) : M128 T :=
  ⟨a.e0 + b.e0, a.e1 + b.e1, a.e2 + b.e2, a.e3 + b.e3⟩

/-- `_mm_sub_ps(a, b)`: lane-wise difference. -/
def _mm_sub_ps [Sub T] (a b : M128 T) : M128 T :=
  ⟨a.e0 - b.e0, a.e1 - b.e1, a.e2 - b.e2, a.e3 - b.e3⟩

/-- `_mm_movehdup_ps(a)`: the odd lanes duplicated, `(a1, a1, a3, a3)`. -/
def _mm_movehdup_ps (a : M128 T) : M128 T := ⟨a.e1, a.e1, a.e3, a.e3⟩

/-- `_mm_movehl_ps(a, b)`: the upper half of `b` in the lower lanes, the upper half of `a`
kept, `(b2, b3, a2, a3)`. -/
def _mm_movehl_ps (a b : M128 T) : M128 T := ⟨b.e2, b.e3, a.e2, a.e3⟩

/-- `_mm_add_ss(a, b)`: the lowest lanes added, the other lanes of `a` kept. -/
def _mm_add_ss [Add T] (a b : M128 T) : M128 T := ⟨a.e0 + b.e0, a.e1, a.e2, a.e3⟩

/-- `_mm_cvtss_f32(a)`: the lowest lane. -/
def _mm_cvtss_f32 (a : M128 T) : T := a.e0

/-- `_mm_storeu_ps(&out.x, v)`: the four lanes stored from the address of `out.x`, that is
into `x, y, z, w`. -/
def _mm_storeu_ps (v : M128 T) : Quaternion T := ⟨v.e0, v.e1, v.e2, v.e3⟩

/-! ### Quaternion -/

/-- `FastCross` of `Quaternion.h`. -/
def FastCross [Sub T] [Mul T] (_vec1 _vec2 : M128 T) : M128 T :=
  let tmp0 := _mm_shuffle_ps _vec1 _vec1 (_MM_SHUFFLE 3 0 2 1)
  let tmp1 := _mm_shuffle_ps _vec2 _vec2 (_MM_SHUFFLE 3 1 0 2)
  let tmp2 := _mm_mul_ps tmp0 _vec2
  let tmp3 := _mm_mul_ps tmp0 tmp1
  let tmp4 := _mm_shuffle_ps tmp2 tmp2 (_MM_SHUFFLE 3 0 2 1)
  _mm_sub_ps tmp3 tmp4

/-- `FastDot` of `Quaternion.h`. -/
def FastDot [Add T] [Mul T] (_vec1 _vec2 : M128 T) : T :=
  let mul_res := _mm_mul_ps _vec1 _vec2
  let shuf_reg := _mm_movehdup_ps mul_res
  let sums_reg := _mm_add_ps mul_res shuf_reg
  let shuf_reg := _mm_movehl_ps shuf_reg sums_reg
  let sums_reg := _mm_add_ss sums_reg shuf_reg
  _mm_cvtss_f32 sums_reg

/-- `Quaternion::operator*(const Quaternion&)`: the vector part is stored from the register
`vec3`, then `out.w` is overwritten with `scalar`. -/
def Quaternion.mul [Ring T] (self _q : Quaternion T) : Quaternion T :=
  let pw_vec := _mm_set_ps1 self.w
  let qw_vec := _mm_set_ps1 _q.w
  let p_vec := _mm_set_ps 0 self.z self.y self.x
  let q_vec := _mm_set_ps 0 _q.z _q.y _q.x
  let vec3 := _mm_add_ps (_mm_add_ps (_mm_mul_ps pw_vec q_vec) (_mm_mul_ps qw_vec p_vec))
    (FastCross p_vec q_vec)
  let scalar := self.w * _q.w - FastDot p_vec q_vec
  let out := _mm_storeu_ps vec3
  { out with w := scalar }

/-- `Quaternion::operator/(const float _c)`: every field multiplied by `1 / _c`. -/
def Quaternion.div [Field T] (self : Quaternion T) (_c : T) : Quaternion T :=
  let c := _mm_set_ps1 (1 / _c)
  let vec := _mm_set_ps self.w self.z self.y self.x
  _mm_storeu_ps (_mm_mul_ps vec c)

/-- `Quaternion::Magnitude()`: `sum += ptr[i] * ptr[i]` over the four fields read through
`ptr = &x`, then `sqrtf(sum)`, with the library function `sqrtf` as a parameter. -/
def Quaternion.Magnitude [Zero T] [Add T] [Mul T] (sqrtf : T → T) (self : Quaternion T) : T :=
  let ptr : List T := [self.x, self.y, self.z, self.w]
  let sum := (List.range 4).foldl (fun sum i => sum + ptr.getD i 0 * ptr.getD i 0) 0
  sqrtf sum

/-- `Quaternion::Conjugate()`. -/
def Quaternion.Conjugate [Neg T] (self : Quaternion T) : Quaternion T :=
  ⟨-self.x, -self.y, -self.z, self.w⟩

/-- `Quaternion::Inverse()`: `Conjugate() / Magnitude()`. -/
def Quaternion.Inverse [Field T] (sqrtf : T → T) (self : Quaternion T) : Quaternion T :=
  self.Conjugate.div (self.Magnitude sqrtf)

/-- `Quaternion::ExpandToMatrix3()`. -/
def Quaternion.ExpandToMatrix3 [Ring T] (self : Quaternion T) : Matrix3 T :=
  let dxx := 2 * self.x * self.x
  let dyy := 2 * self.y * self.y
  let dzz := 2 * self.z * self.z
  let dxy := 2 * self.x * self.y
  let dxz := 2 * self.x * self.z
  let dxw := 2 * self.x * self.w
  let dyz := 2 * self.y * self.z
  let dyw := 2 * self.y * self.w
  let dzw := 2 * self.z * self.w
  { row1 := ⟨1 - dyy - dzz, dxy - dzw, dxz + dyw⟩
    row2 := ⟨dxy + dzw, 1 - dxx - dzz, dyz - dxw⟩
    row3 := ⟨dxz - dyz, dyz + dxw, 1 - dxx - dyy⟩ }

/-- `Quaternion::ExpandToMatrix4()`. -/
def Quaternion.ExpandToMatrix4 [Ring T] (self : Quaternion T) : Matrix4 T :=
  let dxx := 2 * self.x * self.x
  let dyy := 2 * self.y * self.y
  let dzz := 2 * self.z * self.z
  let dxy := 2 * self.x * self.y
  let dxz := 2 * self.x * self.z
  let dxw := 2 * self.x * self.w
  let dyz := 2 * self.y * self.z
  let dyw := 2 * self.y * self.w
  let dzw := 2 * self.z * self.w
  { row1 := ⟨1 - dyy - dzz, dxy - dzw, dxz + dyw, 0⟩
    row2 := ⟨dxy + dzw, 1 - dxx - dzz, dyz - dxw, 0⟩
    row3 := ⟨dxz - dyw, dyz + dxw, 1 - dxx - dyy, 0⟩
    row4 := ⟨0, 0, 0, 1⟩ }

/-- `Quaternion::MatrixToQuaternion`: the four branches on the diagonal of `_mat`; the
quaternion returned, or `none` when the divisor `w4` or `s` of the branch taken is zero. -/
def Quaternion.MatrixToQuaternion [LinearOrderedField T] (sqrtf : T → T) (_mat : Matrix4 T) :
    Option (Quaternion T) :=
  let diag_sum := _mat.row1.first + _mat.row2.second + _mat.row3.third
  if diag_sum > 0 then
    let qw := sqrtf (1 + diag_sum) / 2
    let w4 := 4 * qw
    match TRS.checkedDiv (_mat.row3.second - _mat.row2.third) w4,
      TRS.checkedDiv (_mat.row1.third - _mat.row3.first) w4,
      TRS.checkedDiv (_mat.row2.first - _mat.row1.second) w4 with
    | some qx, some qy, some qz => some ⟨qx, qy, qz, qw⟩
    | _, _, _ => none
  else if _mat.row1.first > _mat.row2.second ∧ _mat.row1.first > _mat.row3.third then
    let s := sqrtf (1 + _mat.row1.first - _mat.row2.second - _mat.row3.third) * 2
    match TRS.checkedDiv (_mat.row3.second - _mat.row2.third) s,
      TRS.checkedDiv (_mat.row1.second + _mat.row2.first) s,
      TRS.checkedDiv (_mat.row1.third + _mat.row3.first) s with
    | some qw, some qy, some qz => some ⟨s / 4, qy, qz, qw⟩
    | _, _, _ => none
  else if _mat.row2.second > _mat.row3.third then
    let s := sqrtf (1 + _mat.row2.second - _mat.row1.first - _mat.row3.third) * 2
    match TRS.checkedDiv (_mat.row1.third - _mat.row3.first) s,
      TRS.checkedDiv (_mat.row1.second + _mat.row2.first) s,
      TRS.checkedDiv (_mat.row2.third + _mat.row3.second) s with
    | some qw, some qx, some qz => some ⟨qx, s / 4, qz, qw⟩
    | _, _, _ => none
  else
    let s := sqrtf (1 + _mat.row3.third - _mat.row1.first - _mat.row2.second) * 2
    match TRS.checkedDiv (_mat.row2.first - _mat.row1.second) s,
      TRS.checkedDiv (_mat.row1.third + _mat.row3.first) s,
      TRS.checkedDiv (_mat.row2.third + _mat.row3.second) s with
    | some qw, some qx, some qy => some ⟨qx, qy, s / 4, qw⟩
    | _, _, _ => none

/-- The scalar Hamilton product in the spec's words: vector part
`p.w * q_vec + q.w * p_vec + cross(p_vec, q_vec)`, scalar part `p.w * q.w - dot(p_vec, q_vec)`,
with `cross(a, b) = (a.y*b.z - a.z*b.y, a.z*b.x - a.x*b.z, a.x*b.y - a.y*b.x)`. -/
def Quaternion.hamiltonSpec [Ring T] (p q : Quaternion T) : Quaternion T :=
  ⟨p.w * q.x + q.w * p.x + (p.y * q.z - p.z * q.y),
   p.w * q.y + q.w * p.y + (p.z * q.x - p.x * q.z),
   p.w * q.z + q.w * p.z + (p.x * q.y - p.y * q.x),
   p.w * q.w - (p.x * q.x + p.y * q.y + p.z * q.z)⟩

end Quaternions

end Libdas

namespace Libdas

section FixedArithmetic

variable {T : Type}

/-! ### Vector2, Vector3, Vector4 arithmetic -/

/-- `Vector2<T>::operator+(const Vector2<T>&)`. -/
def Vector2.add [Add T] (self _vec : Vector2 T) : Vector2 T :=
  ⟨self.first + _vec.first, self.second + _vec.second⟩

/-- `Vector2<T>::operator*(const Vector2<T>&)`: the dot product. -/
def Vector2.dot [Add T] [Mul T] (self _vec : Vector2 T) : T :=
  _vec.first * self.first + _vec.second * self.second

/-- `Vector2<T>::operator*(const T)`. -/
def Vector2.mulScalar [Mul T] (self : Vector2 T) (_c : T) : Vector2 T :=
  ⟨_c * self.first,
   _c * self.second⟩

/-- `Vector2<T>::operator/(const T)`. The body builds `out = {first / _c, second / _c}` and
then executes `return _c;`, so what is returned is the scalar converted to a `Vector2<T>`.
`Vector.h` declares no constructor of `Vector2<T>` from one `T`; that conversion is the
parameter `conv`. -/
def Vector2.div [Div T] (conv : T → Vector2 T) (self : Vector2 T) (_c : T) : Vector2 T :=
  let out : Vector2 T :=
    ⟨self.first / _c,
     self.second / _c⟩
  conv _c

/-- `Vector3<T>::operator+(const Vector3<T>&)`. -/
def Vector3.add [Add T] (self _vec : Vector3 T) : Vector3 T :=
  ⟨self.first + _vec.first,
   self.second + _vec.second,
   self.third + _vec.third⟩

/-- `Vector3<T>::operator*(const T)`. -/
def Vector3.mulScalar [Mul T] (self : Vector3 T) (_c : T) : Vector3 T :=
  ⟨_c * self.first,
   _c * self.second,
   _c * self.third⟩

/-- `Vector3<T>::operator/(const T)`. -/
def Vector3.div [Div T] (self : Vector3 T) (_c : T) : Vector3 T :=
  ⟨self.first / _c,
   self.second / _c,
   self.third / _c⟩

/-- `Vector4<T>::operator+(const Vector4<T>&)`. The brace list of `out` has three
initialisers, the sums of the fields `first`, `second` and `third`, and none for `fourth`.
`Vector.h` declares no constructor of `Vector4<T>` from three values; the way three values
make a `Vector4<T>` is the parameter `init3`. -/
def Vector4.add [Add T] (init3 : T → T → T → Vector4 T) (self _vec : Vector4 T) : Vector4 T :=
  init3 (self.first + _vec.first)
    (self.second + _vec.second)
    (self.third + _vec.third)

/-- `Vector4<T>::operator/(const T)`. -/
def Vector4.div [Div T] (self : Vector4 T) (_c : T) : Vector4 T :=
  ⟨self.first / _c,
   self.second / _c,
   self.third / _c,
   self.fourth / _c⟩

/-- `Vector4<T>::Cross`; the literal `0.0f` of the fourth field is the zero of `T`. -/
def Vector4.Cross [Zero T] [Sub T] [Mul T] (_vec1 _vec2 : Vector4 T) : Vector4 T :=
  ⟨_vec1.second * _vec2.third -
   _vec1.third * _vec2.second,
   _vec1.third * _vec2.first -
   _vec1.first * _vec2.third,
   _vec1.first * _vec2.second -
   _vec1.second * _vec2.first,
   0⟩

/-! ### Matrix2 arithmetic -/

/-- `Matrix2<T>::operator+(const Matrix2<T>&)`. -/
def Matrix2.add [Zero T] [One T] [Add T] (self _mat : Matrix2 T) : Matrix2 T :=
  let out : Matrix2 T := Matrix2.new
  let out := { out with row1 :=
    ⟨self.row1.first + _mat.row1.first, self.row1.second + _mat.row1.second⟩ }
  let out := { out with row2 :=
    ⟨self.row2.first + _mat.row2.first, self.row1.second + _mat.row2.second⟩ }
  out

/-- `Matrix2<T>::operator+(const T&)`; `out{}` is the default-constructed matrix and both
assignments of the body go to `out.row1`. -/
def Matrix2.addConst [Zero T] [One T] [Add T] (self : Matrix2 T) (_c : T) : Matrix2 T :=
  let out : Matrix2 T := Matrix2.new
  let out := { out with row1 := ⟨self.row1.first + _c, self.row1.second + _c⟩ }
  let out := { out with row1 := ⟨self.row2.first + _c, self.row2.second + _c⟩ }
  out

/-- `Matrix2<T>::operator*(const Vector2<T>&)`. -/
def Matrix2.mulVec [Add T] [Mul T] (self : Matrix2 T) (_vec : Vector2 T) : Vector2 T :=
  ⟨(self.row1.first * _vec.first + self.row1.second * _vec.second),
   (self.row2.first * _vec.first + self.row2.second * _vec.second)⟩

/-- `Matrix2<T>::operator+=(const Matrix2<T>&)`; the result is the matrix afterwards. -/
def Matrix2.addAssign [Add T] (self _mat : Matrix2 T) : Matrix2 T :=
  let self := { self with row1 := { self.row1 with first := self.row1.first + _mat.row1.first } }
  let self := { self with row1 := { self.row1 with second := self.row1.second + _mat.row1.second } }
  let self := { self with row2 := { self.row2 with first := self.row2.first + _mat.row2.first } }
  let self := { self with row2 := { self.row2 with second := self.row2.second + _mat.row2.second } }
  self

/-- `Matrix2<T>::operator-=(const Matrix2<T>&)`; the result is the matrix afterwards. -/
def Matrix2.subAssign [Sub T] (self _mat : Matrix2 T) : Matrix2 T :=
  let self := { self with row1 := { self.row1 with first := self.row1.first - _mat.row1.first } }
  let self := { self with row1 := { self.row1 with second := self.row1.second - _mat.row1.second } }
  let self := { self with row2 := { self.row2 with first := self.row2.first - _mat.row2.first } }
  let self := { self with row2 := { self.row2 with second := self.row2.second - _mat.row2.second } }
  self

/-! ### Matrix3 arithmetic -/

/-- `Matrix3<T>::operator+(const Matrix3<T>&)`. -/
def Matrix3.add [Zero T] [One T] [Add T] (self _mat : Matrix3 T) : Matrix3 T :=
  let out : Matrix3 T := Matrix3.new
  let out := { out with row1 :=
    ⟨self.row1.first + _mat.row1.first, self.row1.second + _mat.row1.second,
     self.row1.third + _mat.row1.third⟩ }
  let out := { out with row2 :=
    ⟨self.row2.first + _mat.row2.first, self.row2.second + _mat.row2.second,
     self.row2.third + _mat.row2.third⟩ }
  let out := { out with row3 :=
    ⟨self.row3.first + _mat.row3.first, self.row3.second + _mat.row3.second,
     self.row3.third + _mat.row3.third⟩ }
  out

/-- `Matrix3<T>::operator+(const T&)`. -/
def Matrix3.addConst [Zero T] [One T] [Add T] (self : Matrix3 T) (_c : T) : Matrix3 T :=
  let out : Matrix3 T := Matrix3.new
  let out := { out with row1 :=
    ⟨self.row1.first + _c, self.row1.second + _c,
     self.row1.third + _c⟩ }
  let out := { out with row2 :=
    ⟨self.row2.first + _c, self.row2.second + _c,
     self.row2.third + _c⟩ }
  let out := { out with row3 :=
    ⟨self.row3.first + _c, self.row3.second + _c,
     self.row3.third + _c⟩ }
  out

/-- `Matrix3<T>::operator*(const Vector3<T>&)`. -/
def Matrix3.mulVec [Add T] [Mul T] (self : Matrix3 T) (_vec : Vector3 T) : Vector3 T :=
  ⟨(self.row1.first * _vec.first + self.row1.second * _vec.second + self.row1.third * _vec.third),
   (self.row2.first * _vec.first + self.row2.second * _vec.second + self.row2.third * _vec.third),
   (self.row3.first * _vec.first + self.row3.second * _vec.second + self.row3.third * _vec.third)⟩

/-- `Matrix3<T>::operator+=(const Matrix3<T>&)`; the result is the matrix afterwards. The body
has eight statements: three for `row1`, two for `row2` and three for `row3`. -/
def Matrix3.addAssign [Add T] (self _mat : Matrix3 T) : Matrix3 T :=
  let self := { self with row1 := { self.row1 with first := self.row1.first + _mat.row1.first } }
  let self := { self with row1 := { self.row1 with second := self.row1.second + _mat.row1.second } }
  let self := { self with row1 := { self.row1 with third := self.row1.third + _mat.row1.third } }
  let self := { self with row2 := { self.row2 with first := self.row2.first + _mat.row2.first } }
  let self := { self with row2 := { self.row2 with second := self.row2.second + _mat.row2.second } }
  let self := { self with row3 := { self.row3 with first := self.row3.first + _mat.row3.first } }
  let self := { self with row3 := { self.row3 with second := self.row3.second + _mat.row3.second } }
  let self := { self with row3 := { self.row3 with third := self.row3.third + _mat.row3.third } }
  self

/-- `Matrix3<T>::operator-=(const Matrix3<T>&)`; the result is the matrix afterwards. -/
def Matrix3.subAssign [Sub T] (self _mat : Matrix3 T) : Matrix3 T :=
  let self := { self with row1 := { self.row1 with first := self.row1.first - _mat.row1.first } }
  let self := { self with row1 := { self.row1 with second := self.row1.second - _mat.row1.second } }
  let self := { self with row1 := { self.row1 with third := self.row1.third - _mat.row1.third } }
  let self := { self with row2 := { self.row2 with first := self.row2.first - _mat.row2.first } }
  let self := { self with row2 := { self.row2 with second := self.row2.second - _mat.row2.second } }
  let self := { self with row2 := { self.row2 with third := self.row2.third - _mat.row2.third } }
  let self := { self with row3 := { self.row3 with first := self.row3.first - _mat.row3.first } }
  let self := { self with row3 := { self.row3 with second := self.row3.second - _mat.row3.second } }
  let self := { self with row3 := { self.row3 with third := self.row3.third - _mat.row3.third } }
  self

/-! ### Matrix4 arithmetic -/

/-- `Matrix4<T>::operator+(const Matrix4<T>&)`. -/
def Matrix4.add [Zero T] [One T] [Add T] (self _mat : Matrix4 T) : Matrix4 T :=
  let out : Matrix4 T := Matrix4.new
  let out := { out with row1 :=
    ⟨self.row1.first + _mat.row1.first, self.row1.second + _mat.row1.second,
     self.row1.third + _mat.row1.third, self.row1.fourth + _mat.row1.fourth⟩ }
  let out := { out with row2 :=
    ⟨self.row2.first + _mat.row2.first, self.row2.second + _mat.row2.second,
     self.row2.third + _mat.row2.third, self.row2.fourth + _mat.row2.fourth⟩ }
  let out := { out with row3 :=
    ⟨self.row3.first + _mat.row3.first, self.row3.second + _mat.row3.second,
     self.row3.third + _mat.row3.third, self.row3.fourth + _mat.row3.fourth⟩ }
  let out := { out with row4 :=
    ⟨self.row4.first + _mat.row4.first, self.row4.second + _mat.row4.second,
     self.row4.third + _mat.row4.third, self.row4.fourth + _mat.row4.fourth⟩ }
  out

/-- `Matrix4<T>::operator+(const T&)`. -/
def Matrix4.addConst [Zero T] [One T] [Add T] (self : Matrix4 T) (_c : T) : Matrix4 T :=
  let out : Matrix4 T := Matrix4.new
  let out := { out with row1 :=
    ⟨self.row1.first + _c, self.row1.second + _c,
     self.row1.third + _c, self.row1.fourth + _c⟩ }
  let out := { out with row2 :=
    ⟨self.row2.first + _c, self.row2.second + _c,
     self.row2.third + _c, self.row2.fourth + _c⟩ }
  let out := { out with row3 :=
    ⟨self.row3.first + _c, self.row3.second + _c,
     self.row3.third + _c, self.row3.fourth + _c⟩ }
  let out := { out with row4 :=
    ⟨self.row4.first + _c, self.row4.second + _c,
     self.row4.third + _c, self.row4.fourth + _c⟩ }
  out

/-- `Matrix4<T>::operator+=(const Matrix4<T>&)`; the result is the matrix afterwards. -/
def Matrix4.addAssign [Add T] (self _mat : Matrix4 T) : Matrix4 T :=
  let self := { self with row1 := { self.row1 with first := self.row1.first + _mat.row1.first } }
  let self := { self with row1 := { self.row1 with second := self.row1.second + _mat.row1.second } }
  let self := { self with row1 := { self.row1 with third := self.row1.third + _mat.row1.third } }
  let self := { self with row1 := { self.row1 with fourth := self.row1.fourth + _mat.row1.fourth } }
  let self := { self with row2 := { self.row2 with first := self.row2.first + _mat.row2.first } }
  let self := { self with row2 := { self.row2 with second := self.row2.second + _mat.row2.second } }
  let self := { self with row2 := { self.row2 with third := self.row2.third + _mat.row2.third } }
  let self := { self with row2 := { self.row2 with fourth := self.row2.fourth + _mat.row2.fourth } }
  let self := { self with row3 := { self.row3 with first := self.row3.first + _mat.row3.first } }
  let self := { self with row3 := { self.row3 with second := self.row3.second + _mat.row3.second } }
  let self := { self with row3 := { self.row3 with third := self.row3.third + _mat.row3.third } }
  let self := { self with row3 := { self.row3 with fourth := self.row3.fourth + _mat.row3.fourth } }
  let self := { self with row4 := { self.row4 with first := self.row4.first + _mat.row4.first } }
  let self := { self with row4 := { self.row4 with second := self.row4.second + _mat.row4.second } }
  let self := { self with row4 := { self.row4 with third := self.row4.third + _mat.row4.third } }
  let self := { self with row4 := { self.row4 with fourth := self.row4.fourth + _mat.row4.fourth } }
  self

/-- `Matrix4<T>::operator-=(const Matrix4<T>&)`; the result is the matrix afterwards. -/
def Matrix4.subAssign [Sub T] (self _mat : Matrix4 T) : Matrix4 T :=
  let self := { self with row1 := { self.row1 with first := self.row1.first - _mat.row1.first } }
  let self := { self with row1 := { self.row1 with second := self.row1.second - _mat.row1.second } }
  let self := { self with row1 := { self.row1 with third := self.row1.third - _mat.row1.third } }
  let self := { self with row1 := { self.row1 with fourth := self.row1.fourth - _mat.row1.fourth } }
  let self := { self with row2 := { self.row2 with first := self.row2.first - _mat.row2.first } }
  let self := { self with row2 := { self.row2 with second := self.row2.second - _mat.row2.second } }
  let self := { self with row2 := { self.row2 with third := self.row2.third - _mat.row2.third } }
  let self := { self with row2 := { self.row2 with fourth := self.row2.fourth - _mat.row2.fourth } }
  let self := { self with row3 := { self.row3 with first := self.row3.first - _mat.row3.first } }
  let self := { self with row3 := { self.row3 with second := self.row3.second - _mat.row3.second } }
  let self := { self with row3 := { self.row3 with third := self.row3.third - _mat.row3.third } }
  let self := { self with row3 := { self.row3 with fourth := self.row3.fourth - _mat.row3.fourth } }
  let self := { self with row4 := { self.row4 with first := self.row4.first - _mat.row4.first } }
  let self := { self with row4 := { self.row4 with second := self.row4.second - _mat.row4.second } }
  let self := { self with row4 := { self.row4 with third := self.row4.third - _mat.row4.third } }
  let self := { self with row4 := { self.row4 with fourth := self.row4.fourth - _mat.row4.fourth } }
  self

end FixedArithmetic

/-! ### MatrixIterator -/

/-- The number of values of `size_t`, 64 bits wide. -/
def SIZE_RANGE : Nat := 2 ^ 64

/-- Addition of two `size_t` values. -/
def sizeAdd (a b : Nat) : Nat := (a + b) % SIZE_RANGE

/-- Subtraction of two `size_t` values. -/
def sizeSub (a b : Nat) : Nat := (a + (SIZE_RANGE - b % SIZE_RANGE)) % SIZE_RANGE

/-- Product of two `size_t` values. -/
def sizeMul (a b : Nat) : Nat := (a * b) % SIZE_RANGE

/-- `class MatrixIterator`: the members `m_mat_size`, `m_is_row_major`, `m_index` and the
cursor `m_data`, an address counted in elements of `Val_t`. -/
structure MatrixIterator where
  m_mat_size : Nat
  m_is_row_major : Bool
  m_index : Nat
  m_data : Int
deriving DecidableEq, Repr

/-- The constructor `MatrixIterator(pointer _data, size_t _mat_size, bool _is_row_major)`;
`m_index` starts at 0. -/
def MatrixIterator.new (_data : Int) (_mat_size : Nat) (_is_row_major : Bool) : MatrixIterator :=
  { m_mat_size := _mat_size, m_is_row_major := _is_row_major, m_index := 0, m_data := _data }

/-- `MatrixIterator::operator++(int)`. The result is `none` when the column-major branch
divides by a matrix size of zero. -/
def MatrixIterator.inc (self : MatrixIterator) : Option MatrixIterator :=
  if self.m_is_row_major then
    some { self with m_data := self.m_data + 1 }
  else
    let m_index := sizeAdd self.m_index self.m_mat_size
    if self.m_mat_size = 0 then none
    else if m_index / self.m_mat_size ≥ self.m_mat_size then
      let m_index := sizeSub m_index self.m_mat_size
      let m_data := self.m_data - (m_index : Int) + ((m_index % self.m_mat_size : Nat) : Int) + 1
      let m_index := m_index % self.m_mat_size
      let m_index := sizeAdd m_index 1
      if m_index ≥ self.m_mat_size then
        some { self with
          m_index := m_index
          m_data := m_data - (m_index : Int)
            + ((sizeMul self.m_mat_size self.m_mat_size : Nat) : Int) }
      else
        some { self with m_index := m_index, m_data := m_data }
    else
      some { self with m_index := m_index, m_data := self.m_data + (self.m_mat_size : Int) }

/-- The iterator after `k` applications of `operator++`. -/
def MatrixIterator.incTimes : Nat → MatrixIterator → Option MatrixIterator
  | 0, it => some it
  | k + 1, it => (MatrixIterator.incTimes k it).bind MatrixIterator.inc

/-- `MatrixIterator::operator==`: the cursors are compared. -/
def MatrixIterator.eq (self _it : MatrixIterator) : Bool :=
  self.m_data == _it.m_data

/-- `MatrixIterator::operator!=`. -/
def MatrixIterator.ne (self _it : MatrixIterator) : Bool :=
  self.m_data != _it.m_data

/-- `Matrix2<T>::BeginColumnMajor`; `p` is the address `&row1.first`. -/
def Matrix2.BeginColumnMajor (p : Int) : MatrixIterator :=
  MatrixIterator.new p 2 false

/-- `Matrix2<T>::EndColumnMajor`; the four fields are contiguous from `p = &row1.first`, so
`&row2.second` is `p + 3`. -/
def Matrix2.EndColumnMajor (p : Int) : MatrixIterator :=
  MatrixIterator.new (p + 3 + 1) 2 false

/-- `Matrix3<T>::BeginColumnMajor`; `p` is the address `&row1.first`. -/
def Matrix3.BeginColumnMajor (p : Int) : MatrixIterator :=
  MatrixIterator.new p 3 false

/-- `Matrix3<T>::EndColumnMajor`; the nine fields are contiguous from `p = &row1.first`, so
`&row3.third` is `p + 8`. -/
def Matrix3.EndColumnMajor (p : Int) : MatrixIterator :=
  MatrixIterator.new (p + 8 + 1) 3 false

/-- `Matrix4<T>::BeginColumnMajor`; `p` is the address `&row1.first`. -/
def Matrix4.BeginColumnMajor (p : Int) : MatrixIterator :=
  MatrixIterator.new p 4 false

/-- `Matrix4<T>::EndColumnMajor`; the sixteen fields are contiguous from `p = &row1.first`, so
`&row4.fourth` is `p + 15`. -/
def Matrix4.EndColumnMajor (p : Int) : MatrixIterator :=
  MatrixIterator.new (p + 15 + 1) 4 false

end Libdas

namespace TRS

section PointTypes

variable {T : Type}

/-- `struct Point3D`: the fields `x, y, z`. -/
structure Point3D (T : Type) where
  x : T
  y : T
  z : T
deriving DecidableEq, Repr

/-- `struct Point4D`: the fields `x, y, z, w`. -/
structure Point4D (T : Type) where
  x : T
  y : T
  z : T
  w : T
deriving DecidableEq, Repr

/-- The default constructor `Point4D<T>()` for a numeric `T`. -/
def Point4D.new [Zero T] [One T] : Point4D T :=
  { x := 0, y := 0, z := 0, w := 1 }

/-- `Point4D<T>::GetNormalizedValue` for a numeric `T`. -/
def Point4D.GetNormalizedValue [One T] : T := 1

/-- The casting operator `Point3D<T>::operator Point4D<T>()`. -/
def Point3D.toPoint4D [One T] (self : Point3D T) : Point4D T :=
  ⟨self.x, self.y, self.z, Point4D.GetNormalizedValue⟩

/-- The constructor `Point4D<T>(const Point3D<T>&)` for a numeric `T`. -/
def Point4D.ofPoint3D [One T] (_pt : Point3D T) : Point4D T :=
  { x := _pt.x, y := _pt.y, z := _pt.z, w := 1 }

end PointTypes

end TRS

namespace Libdas

section FixedComparison

variable {T : Type}

/-! ### Equality of fixed vectors and matrices -/

/-- `Vector2<T>::operator==`. -/
def Vector2.eq [DecidableEq T] (self _vec : Vector2 T) : Bool :=
  self.first == _vec.first && self.second == _vec.second

/-- `Vector3<T>::operator==(const Vector3<T>&)`. -/
def Vector3.eq [DecidableEq T] (self _vec : Vector3 T) : Bool :=
  self.first == _vec.first && self.second == _vec.second && self.third == _vec.third

/-- `Vector3<T>::operator!=(const Vector3<T>&)`. -/
def Vector3.ne [DecidableEq T] (self _vec : Vector3 T) : Bool :=
  self.first != _vec.first || self.second != _vec.second || self.third != _vec.third

/-- `Vector4<T>::operator==(const Vector4<T>&)`. -/
def Vector4.eq [DecidableEq T] (self _vec : Vector4 T) : Bool :=
  self.first == _vec.first && self.second == _vec.second && self.third == _vec.third &&
    self.fourth == _vec.fourth

/-- `Vector4<T>::operator!=(const Vector4<T>&)`. -/
def Vector4.ne [DecidableEq T] (self _vec : Vector4 T) : Bool :=
  self.first != _vec.first || self.second != _vec.second || self.third != _vec.third ||
    self.fourth != _vec.fourth

/-- `Matrix2<T>::operator==`. -/
def Matrix2.eq [DecidableEq T] (self _mat : Matrix2 T) : Bool :=
  self.row1.eq _mat.row1 && self.row2.eq _mat.row2

/-- `Matrix2<T>::operator!=`: `row1 != _mat.row1 || row2 != _mat.row1`. The operator `!=` of
two `Vector2<T>` is declared in `Vector.h` and defined nowhere; it is the parameter `vne`. -/
def Matrix2.ne (vne : Vector2 T → Vector2 T → Bool) (self _mat : Matrix2 T) : Bool :=
  vne self.row1 _mat.row1 || vne self.row2 _mat.row1

/-- `Matrix3<T>::operator==`. -/
def Matrix3.eq [DecidableEq T] (self _mat : Matrix3 T) : Bool :=
  self.row1.eq _mat.row1 && self.row2.eq _mat.row2 && self.row3.eq _mat.row3

/-- `Matrix3<T>::operator!=`. -/
def Matrix3.ne [DecidableEq T] (self _mat : Matrix3 T) : Bool :=
  self.row1.ne _mat.row1 || self.row2.ne _mat.row2 || self.row3.ne _mat.row3

/-- `Matrix4<T>::operator==`. -/
def Matrix4.eq [DecidableEq T] (self _mat : Matrix4 T) : Bool :=
  self.row1.eq _mat.row1 && self.row2.eq _mat.row2 && self.row3.eq _mat.row3 &&
    self.row4.eq _mat.row4

/-- `Matrix4<T>::operator!=`. -/
def Matrix4.ne [DecidableEq T] (self _mat : Matrix4 T) : Bool :=
  self.row1.ne _mat.row1 || self.row2.ne _mat.row2 || self.row3.ne _mat.row3 ||
    self.row4.ne _mat.row4

/-! ### Vector3 magnitude -/

/-- `Vector3<T>::Magnitude()`, with the library function `sqrt` as a parameter. -/
def Vector3.Magnitude [Add T] [Mul T] (sqrt : T → T) (self : Vector3 T) : T :=
  sqrt (self.first * self.first + self.second * self.second + self.third * self.third)

/-- `Vector3<T>::Normalise()`: the vector afterwards, or `none` when `len = Magnitude()` is
zero and the divisions are by zero. -/
def Vector3.Normalise [Field T] [DecidableEq T] (sqrt : T → T) (self : Vector3 T) :
    Option (Vector3 T) :=
  let len := self.Magnitude sqrt
  match TRS.checkedDiv self.first len, TRS.checkedDiv self.second len,
    TRS.checkedDiv self.third len with
  | some first, some second, some third => some ⟨first, second, third⟩
  | _, _, _ => none

/-! ### In-place products -/

/-- `Matrix2<T>::operator*=(const Matrix2<T>&)`; the result is the matrix afterwards, the
local `new_mat` assigned to `*this`. The rows are built as `Vector2<float>`, a round trip
that is the identity. -/
def Matrix2.mulAssign [Zero T] [One T] [Add T] [Mul T] (self _mat : Matrix2 T) : Matrix2 T :=
  let new_mat : Matrix2 T := Matrix2.new
  let new_mat := { new_mat with row1 :=
    ⟨((self.row1.first * _mat.row1.first) +
      (self.row1.second * _mat.row2.first)),
     ((self.row1.first * _mat.row1.second) +
      (self.row1.second * _mat.row2.second))⟩ }
  let new_mat := { new_mat with row2 :=
    ⟨((self.row2.first * _mat.row1.first) +
      (self.row2.second * _mat.row2.first)),
     ((self.row2.first * _mat.row1.second) +
      (self.row2.second * _mat.row2.second))⟩ }
  new_mat

/-- `Matrix3<T>::operator*=(const Matrix3<T>&)`; the result is the matrix afterwards. -/
def Matrix3.mulAssign [Zero T] [One T] [Add T] [Mul T] (self _mat : Matrix3 T) : Matrix3 T :=
  let new_mat : Matrix3 T := Matrix3.new
  let new_mat := { new_mat with row1 :=
    ⟨((self.row1.first * _mat.row1.first) + (self.row1.second * _mat.row2.first)
        + (self.row1.third * _mat.row3.first)),
     ((self.row1.first * _mat.row1.second) + (self.row1.second * _mat.row2.second)
        + (self.row1.third * _mat.row3.second)),
     ((self.row1.first * _mat.row1.third) + (self.row1.second * _mat.row2.third)
        + (self.row1.third * _mat.row3.third))⟩ }
  let new_mat := { new_mat with row2 :=
    ⟨((self.row2.first * _mat.row1.first) + (self.row2.second * _mat.row2.first)
        + (self.row2.third * _mat.row3.first)),
     ((self.row2.first * _mat.row1.second) + (self.row2.second * _mat.row2.second)
        + (self.row2.third * _mat.row3.second)),
     ((self.row2.first * _mat.row1.third) + (self.row2.second * _mat.row2.third)
        + (self.row2.third * _mat.row3.third))⟩ }
  let new_mat := { new_mat with row3 :=
    ⟨((self.row3.first * _mat.row1.first) + (self.row3.second * _mat.row2.first)
        + (self.row3.third * _mat.row3.first)),
     ((self.row3.first * _mat.row1.second) + (self.row3.second * _mat.row2.second)
        + (self.row3.third * _mat.row3.second)),
     ((self.row3.first * _mat.row1.third) + (self.row3.second * _mat.row2.third)
        + (self.row3.third * _mat.row3.third))⟩ }
  new_mat

/-- `Matrix4<T>::operator*=(const Matrix4<T>&)`; the result is the matrix afterwards. -/
def Matrix4.mulAssign [Zero T] [One T] [Add T] [Mul T] (self _mat : Matrix4 T) : Matrix4 T :=
  let new_mat : Matrix4 T := Matrix4.new
  let new_mat := { new_mat with row1 :=
    ⟨((self.row1.first * _mat.row1.first) + (self.row1.second * _mat.row2.first)
        + (self.row1.third * _mat.row3.first) + (self.row1.fourth * _mat.row4.first)),
     ((self.row1.first * _mat.row1.second) + (self.row1.second * _mat.row2.second)
        + (self.row1.third * _mat.row3.second) + (self.row1.fourth * _mat.row4.second)),
     ((self.row1.first * _mat.row1.third) + (self.row1.second * _mat.row2.third)
        + (self.row1.third * _mat.row3.third) + (self.row1.fourth * _mat.row4.third)),
     ((self.row1.first * _mat.row1.fourth) + (self.row1.second * _mat.row2.fourth)
        + (self.row1.third * _mat.row3.fourth) + (self.row1.fourth * _mat.row4.fourth))⟩ }
  let new_mat := { new_mat with row2 :=
    ⟨((self.row2.first * _mat.row1.first) + (self.row2.second * _mat.row2.first)
        + (self.row2.third * _mat.row3.first) + (self.row2.fourth * _mat.row4.first)),
     ((self.row2.first * _mat.row1.second) + (self.row2.second * _mat.row2.second)
        + (self.row2.third * _mat.row3.second) + (self.row2.fourth * _mat.row4.second)),
     ((self.row2.first * _mat.row1.third) + (self.row2.second * _mat.row2.third)
        + (self.row2.third * _mat.row3.third) + (self.row2.fourth * _mat.row4.third)),
     ((self.row2.first * _mat.row1.fourth) + (self.row2.second * _mat.row2.fourth)
        + (self.row2.third * _mat.row3.fourth) + (self.row2.fourth * _mat.row4.fourth))⟩ }
  let new_mat := { new_mat with row3 :=
    ⟨((self.row3.first * _mat.row1.first) + (self.row3.second * _mat.row2.first)
        + (self.row3.third * _mat.row3.first) + (self.row3.fourth * _mat.row4.first)),
     ((self.row3.first * _mat.row1.second) + (self.row3.second * _mat.row2.second)
        + (self.row3.third * _mat.row3.second) + (self.row3.fourth * _mat.row4.second)),
     ((self.row3.first * _mat.row1.third) + (self.row3.second * _mat.row2.third)
        + (self.row3.third * _mat.row3.third) + (self.row3.fourth * _mat.row4.third)),
     ((self.row3.first * _mat.row1.fourth) + (self.row3.second * _mat.row2.fourth)
        + (self.row3.third * _mat.row3.fourth) + (self.row3.fourth * _mat.row4.fourth))⟩ }
  let new_mat := { new_mat with row4 :=
    ⟨((self.row4.first * _mat.row1.first) + (self.row4.second * _mat.row2.first)
        + (self.row4.third * _mat.row3.first) + (self.row4.fourth * _mat.row4.first)),
     ((self.row4.first * _mat.row1.second) + (self.row4.second * _mat.row2.second)
        + (self.row4.third * _mat.row3.second) + (self.row4.fourth * _mat.row4.second)),
     ((self.row4.first * _mat.row1.third) + (self.row4.second * _mat.row2.third)
        + (self.row4.third * _mat.row3.third) + (self.row4.fourth * _mat.row4.third)),
     ((self.row4.first * _mat.row1.fourth) + (self.row4.second * _mat.row2.fourth)
        + (self.row4.third * _mat.row3.fourth) + (self.row4.fourth * _mat.row4.fourth))⟩ }
  new_mat

/-- `Matrix4<T>::operator*(const Vector4<T>&)`. -/
def Matrix4.mulVec [Add T] [Mul T] (self : Matrix4 T) (_vec : Vector4 T) : Vector4 T :=
  { first := _vec.first * self.row1.first + _vec.second * self.row1.second
      + _vec.third * self.row1.third + _vec.fourth * self.row1.fourth
    second := _vec.first * self.row2.first + _vec.second * self.row2.second
      + _vec.third * self.row2.third + _vec.fourth * self.row2.fourth
    third := _vec.first * self.row3.first + _vec.second * self.row3.second
      + _vec.third * self.row3.third + _vec.fourth * self.row3.fourth
    fourth := _vec.first * self.row4.first + _vec.second * self.row4.second
      + _vec.third * self.row4.third + _vec.fourth * self.row4.fourth }

/-- `Quaternion::operator*(const Vector4<float>&)`: `vq` is read from the four fields of
`_vec`, its `w` is set to 0, and the fields of `*this * vq * this->Inverse()` are returned. -/
def Quaternion.mulVec [Field T] (sqrtf : T → T) (self : Quaternion T) (_vec : Vector4 T) :
    Vector4 T :=
  let vq : Quaternion T := ⟨_vec.first, _vec.second, _vec.third, _vec.fourth⟩
  let vq := { vq with w := 0 }
  let q := (self.mul vq).mul (self.Inverse sqrtf)
  ⟨q.x, q.y, q.z, q.w⟩

end FixedComparison

/-! ### Iterating over the cells of a fixed matrix -/

section Traversal

variable {T : Type}

/-- The memory of an object whose fields `cells` lie one after the other from address `p`:
the value at address `addr`, or `none` outside the object. -/
def cellsAt (cells : List T) (p addr : Int) : Option T :=
  if p ≤ addr then cells[(addr - p).toNat]? else none

/-- The fields of a `Matrix2` in declaration order: `row1`, `row2`. -/
def Matrix2.cells (self : Matrix2 T) : List T :=
  [self.row1.first, self.row1.second, self.row2.first, self.row2.second]

/-- The fields of a `Matrix3` in declaration order: `row1`, `row2`, `row3`. -/
def Matrix3.cells (self : Matrix3 T) : List T :=
  [self.row1.first, self.row1.second, self.row1.third,
   self.row2.first, self.row2.second, self.row2.third,
   self.row3.first, self.row3.second, self.row3.third]

/-- The fields of a `Matrix4` in declaration order: `row1`, `row2`, `row3`, `row4`. -/
def Matrix4.cells (self : Matrix4 T) : List T :=
  [self.row1.first, self.row1.second, self.row1.third, self.row1.fourth,
   self.row2.first, self.row2.second, self.row2.third, self.row2.fourth,
   self.row3.first, self.row3.second, self.row3.third, self.row3.fourth,
   self.row4.first, self.row4.second, self.row4.third, self.row4.fourth]

/-- `MatrixIterator::operator*`: the value `*m_data` in the memory `mem`. -/
def MatrixIterator.deref (mem : Int → Option T) (self : MatrixIterator) : Option T :=
  mem self.m_data

/-- The loop `for (it = first; it != last; it++)` that reads `*it` at every pass: the values
read, or `none` when a read is outside the memory, `operator++` fails, or the `fuel` passes
do not reach `last`. -/
def MatrixIterator.traverse (mem : Int → Option T) :
    Nat → MatrixIterator → MatrixIterator → Option (List T)
  | 0, _, _ => none
  | fuel + 1, it, last =>
    if it.ne last then
      match it.deref mem, it.inc with
      | some v, some next => (MatrixIterator.traverse mem fuel next last).map (fun vs => v :: vs)
      | _, _ => none
    else some []

/-- `Matrix2<T>::BeginRowMajor`; `p` is the address `&row1.first`. -/
def Matrix2.BeginRowMajor (p : Int) : MatrixIterator :=
  MatrixIterator.new p 2 true

/-- `Matrix2<T>::EndRowMajor`; `&row2.second` is `p + 3`. -/
def Matrix2.EndRowMajor (p : Int) : MatrixIterator :=
  MatrixIterator.new (p + 3 + 1) 2 true

/-- `Matrix3<T>::BeginRowMajor`; `p` is the address `&row1.first`. -/
def Matrix3.BeginRowMajor (p : Int) : MatrixIterator :=
  MatrixIterator.new p 3 true

/-- `Matrix3<T>::EndRowMajor`; `&row3.third` is `p + 8`. -/
def Matrix3.EndRowMajor (p : Int) : MatrixIterator :=
  MatrixIterator.new (p + 8 + 1) 3 true

/-- `Matrix4<T>::BeginRowMajor`; `p` is the address `&row1.first`. -/
def Matrix4.BeginRowMajor (p : Int) : MatrixIterator :=
  MatrixIterator.new p 4 true

/-- `Matrix4<T>::EndRowMajor`; `&row4.fourth` is `p + 15`. -/
def Matrix4.EndRowMajor (p : Int) : MatrixIterator :=
  MatrixIterator.new (p + 15 + 1) 4 true

end Traversal

/-! ### In-place products on objects in a store -/

section StoredProducts

variable {T : Type}

/-- `Matrix2<T>::operator*=(const Matrix2<T>&)` as a call on objects. The store `s` gives the
value of the object at each address, `self` is the address of `*this` and `_mat` the address
the reference `_mat` is bound to, which may be `self`. The body reads both objects into
`new_mat`, and `*this = new_mat` writes the object at `self`; no other object is written. -/
def Matrix2.mulAssignAt [Zero T] [One T] [Add T] [Mul T] (s : Int → Matrix2 T)
    (self _mat : Int) : Int → Matrix2 T :=
  let new_mat := Matrix2.mulAssign (s self) (s _mat)
  Function.update s self new_mat

/-- `Matrix3<T>::operator*=(const Matrix3<T>&)` as a call on objects in the store `s`:
`new_mat` is built from the objects at `self` and `_mat` and written at `self`. -/
def Matrix3.mulAssignAt [Zero T] [One T] [Add T] [Mul T] (s : Int → Matrix3 T)
    (self _mat : Int) : Int → Matrix3 T :=
  let new_mat := Matrix3.mulAssign (s self) (s _mat)
  Function.update s self new_mat

/-- `Matrix4<T>::operator*=(const Matrix4<T>&)` as a call on objects in the store `s`:
`new_mat` is built from the objects at `self` and `_mat` and written at `self`. -/
def Matrix4.mulAssignAt [Zero T] [One T] [Add T] [Mul T] (s : Int → Matrix4 T)
    (self _mat : Int) : Int → Matrix4 T :=
  let new_mat := Matrix4.mulAssign (s self) (s _mat)
  Function.update s self new_mat

end StoredProducts

end Libdas

namespace TRS

section PointComparison

variable {T : Type}

/-- `Point3D<T>::operator==`. -/
def Point3D.eq [DecidableEq T] (self _pt : Point3D T) : Bool :=
  self.x == _pt.x && self.y == _pt.y && self.z == _pt.z

/-- `Point3D<T>::operator!=`. -/
def Point3D.ne [DecidableEq T] (self _pt : Point3D T) : Bool :=
  self.x != _pt.x || self.y != _pt.y || self.z != _pt.z

/-- `Point4D<T>::operator==`. -/
def Point4D.eq [DecidableEq T] (self _pt : Point4D T) : Bool :=
  self.x == _pt.x && self.y == _pt.y && self.z == _pt.z && self.w == _pt.w

/-- `Point4D<T>::operator!=`: `x != _pt.x || y != _pt.y || z != _pt.z`. -/
def Point4D.ne [DecidableEq T] (self _pt : Point4D T) : Bool :=
  self.x != _pt.x || self.y != _pt.y || self.z != _pt.z

end PointComparison

end TRS

/-! ## Theorems -/


namespace Libdas

section FixedTheorems

variable {T : Type}

/-- Right inverse for the 3x3 adjugate formula, entry by entry. -/
theorem Matrix3_right_inverse [Field T] (M : Matrix3 T) (h : Matrix3.Determinant M ≠ 0) :
    Matrix3.mul M (Matrix3.Inverse M) = Matrix3.new := by
  have hk : (1 / Matrix3.Determinant M) * Matrix3.Determinant M = 1 := by field_simp
  simp only [Matrix3.Inverse]
  generalize (1 / Matrix3.Determinant M) = k at hk ⊢
  obtain ⟨⟨a1, a2, a3⟩, ⟨b1, b2, b3⟩, ⟨c1, c2, c3⟩⟩ := M
  simp only [Matrix3.Determinant] at hk
  simp only [Matrix3.mul, Matrix3.new, Matrix3.mk.injEq, Vector3.mk.injEq]
  refine ⟨⟨?_, ?_, ?_⟩, ⟨?_, ?_, ?_⟩, ⟨?_, ?_, ?_⟩⟩
  · linear_combination hk
  · ring1
  · ring1
  · ring1
  · linear_combination hk
  · ring1
  · ring1
  · ring1
  · linear_combination hk

/-- Left inverse for the 3x3 adjugate formula, entry by entry. -/
theorem Matrix3_left_inverse [Field T] (M : Matrix3 T) (h : Matrix3.Determinant M ≠ 0) :
    Matrix3.mul (Matrix3.Inverse M) M = Matrix3.new := by
  have hk : (1 / Matrix3.Determinant M) * Matrix3.Determinant M = 1 := by field_simp
  simp only [Matrix3.Inverse]
  generalize (1 / Matrix3.Determinant M) = k at hk ⊢
  obtain ⟨⟨a1, a2, a3⟩, ⟨b1, b2, b3⟩, ⟨c1, c2, c3⟩⟩ := M
  simp only [Matrix3.Determinant] at hk
  simp only [Matrix3.mul, Matrix3.new, Matrix3.mk.injEq, Vector3.mk.injEq]
  refine ⟨⟨?_, ?_, ?_⟩, ⟨?_, ?_, ?_⟩, ⟨?_, ?_, ?_⟩⟩
  · linear_combination hk
  · ring1
  · ring1
  · ring1
  · linear_combination hk
  · ring1
  · ring1
  · ring1
  · linear_combination hk

/-- C1. For a 3x3 matrix over a field with non-zero `Determinant`, `M * M.Inverse()` and
`M.Inverse() * M` are both the identity matrix (the default-constructed `Matrix3`). -/
theorem Matrix3_mul_Inverse [Field T] (M : Matrix3 T) (h : Matrix3.Determinant M ≠ 0) :
    Matrix3.mul M (Matrix3.Inverse M) = Matrix3.new ∧
      Matrix3.mul (Matrix3.Inverse M) M = Matrix3.new :=
  ⟨Matrix3_right_inverse M h, Matrix3_left_inverse M h⟩

/-- Witness for C1: `[[2,0,0],[0,2,0],[0,0,2]]` over the rationals has determinant 8, its
`Inverse()` is `[[1/2,0,0],[0,1/2,0],[0,0,1/2]]`, and both products are the identity. -/
theorem Matrix3_mul_Inverse_witness :
    Matrix3.Determinant (⟨⟨2, 0, 0⟩, ⟨0, 2, 0⟩, ⟨0, 0, 2⟩⟩ : Matrix3 ℚ) = 8 ∧
    Matrix3.Inverse (⟨⟨2, 0, 0⟩, ⟨0, 2, 0⟩, ⟨0, 0, 2⟩⟩ : Matrix3 ℚ)
      = ⟨⟨1 / 2, 0, 0⟩, ⟨0, 1 / 2, 0⟩, ⟨0, 0, 1 / 2⟩⟩ ∧
    (Matrix3.mul (⟨⟨2, 0, 0⟩, ⟨0, 2, 0⟩, ⟨0, 0, 2⟩⟩ : Matrix3 ℚ)
        (Matrix3.Inverse ⟨⟨2, 0, 0⟩, ⟨0, 2, 0⟩, ⟨0, 0, 2⟩⟩) = Matrix3.new ∧
      Matrix3.mul (Matrix3.Inverse (⟨⟨2, 0, 0⟩, ⟨0, 2, 0⟩, ⟨0, 0, 2⟩⟩ : Matrix3 ℚ))
        ⟨⟨2, 0, 0⟩, ⟨0, 2, 0⟩, ⟨0, 0, 2⟩⟩ = Matrix3.new) :=
  ⟨by norm_num [Matrix3.Determinant], by norm_num [Matrix3.Inverse, Matrix3.Determinant],
    Matrix3_mul_Inverse _ (by norm_num [Matrix3.Determinant])⟩

set_option maxHeartbeats 1600000 in
/-- Right inverse for the 4x4 adjugate formula, entry by entry. -/
theorem Matrix4_right_inverse [Field T] (M : Matrix4 T) (h : Matrix4.Determinant M ≠ 0) :
    Matrix4.mul M (Matrix4.Inverse M) = Matrix4.new := by
  have hk : (1 / Matrix4.Determinant M) * Matrix4.Determinant M = 1 := by field_simp
  simp only [Matrix4.Inverse]
  generalize (1 / Matrix4.Determinant M) = k at hk ⊢
  obtain ⟨⟨a1, a2, a3, a4⟩, ⟨b1, b2, b3, b4⟩, ⟨c1, c2, c3, c4⟩, ⟨d1, d2, d3, d4⟩⟩ := M
  simp only [Matrix4.Determinant, Matrix3.Determinant] at hk
  simp only [Matrix4.mul, Matrix4.new, Matrix3.Determinant,
    Matrix4.mk.injEq, Vector4.mk.injEq]
  refine ⟨⟨?_, ?_, ?_, ?_⟩, ⟨?_, ?_, ?_, ?_⟩, ⟨?_, ?_, ?_, ?_⟩, ⟨?_, ?_, ?_, ?_⟩⟩
  · linear_combination hk
  · ring1
  · ring1
  · ring1
  · ring1
  · linear_combination hk
  · ring1
  · ring1
  · ring1
  · ring1
  · linear_combination hk
  · ring1
  · ring1
  · ring1
  · ring1
  · linear_combination hk

set_option maxHeartbeats 1600000 in
/-- Left inverse for the 4x4 adjugate formula, entry by entry. -/
theorem Matrix4_left_inverse [Field T] (M : Matrix4 T) (h : Matrix4.Determinant M ≠ 0) :
    Matrix4.mul (Matrix4.Inverse M) M = Matrix4.new := by
  have hk : (1 / Matrix4.Determinant M) * Matrix4.Determinant M = 1 := by field_simp
  simp only [Matrix4.Inverse]
  generalize (1 / Matrix4.Determinant M) = k at hk ⊢
  obtain ⟨⟨a1, a2, a3, a4⟩, ⟨b1, b2, b3, b4⟩, ⟨c1, c2, c3, c4⟩, ⟨d1, d2, d3, d4⟩⟩ := M
  simp only [Matrix4.Determinant, Matrix3.Determinant] at hk
  simp only [Matrix4.mul, Matrix4.new, Matrix3.Determinant,
    Matrix4.mk.injEq, Vector4.mk.injEq]
  refine ⟨⟨?_, ?_, ?_, ?_⟩, ⟨?_, ?_, ?_, ?_⟩, ⟨?_, ?_, ?_, ?_⟩, ⟨?_, ?_, ?_, ?_⟩⟩
  · linear_combination hk
  · ring1
  · ring1
  · ring1
  · ring1
  · linear_combination hk
  · ring1
  · ring1
  · ring1
  · ring1
  · linear_combination hk
  · ring1
  · ring1
  · ring1
  · ring1
  · linear_combination hk
/-- C2. For a 4x4 matrix over a field with non-zero `Determinant`, `M * M.Inverse()` and
`M.Inverse() * M` are both the identity matrix (the default-constructed `Matrix4`). -/
theorem Matrix4_mul_Inverse [Field T] (M : Matrix4 T) (h : Matrix4.Determinant M ≠ 0) :
    Matrix4.mul M (Matrix4.Inverse M) = Matrix4.new ∧
      Matrix4.mul (Matrix4.Inverse M) M = Matrix4.new :=
  ⟨Matrix4_right_inverse M h, Matrix4_left_inverse M h⟩

/-- Witness for C2: a 4x4 matrix over the rationals with determinant -1 that is not
diagonal (an upper shear composed with a row swap), multiplied with its `Inverse()` on both
sides. -/
theorem Matrix4_mul_Inverse_witness :
    Matrix4.mul (⟨⟨0, 1, 0, 2⟩, ⟨1, 0, 3, 0⟩, ⟨0, 0, 0, 1⟩, ⟨0, 0, -1, 0⟩⟩ : Matrix4 ℚ)
        (Matrix4.Inverse ⟨⟨0, 1, 0, 2⟩, ⟨1, 0, 3, 0⟩, ⟨0, 0, 0, 1⟩, ⟨0, 0, -1, 0⟩⟩) = Matrix4.new ∧
      Matrix4.mul (Matrix4.Inverse (⟨⟨0, 1, 0, 2⟩, ⟨1, 0, 3, 0⟩, ⟨0, 0, 0, 1⟩, ⟨0, 0, -1, 0⟩⟩ : Matrix4 ℚ))
        ⟨⟨0, 1, 0, 2⟩, ⟨1, 0, 3, 0⟩, ⟨0, 0, 0, 1⟩, ⟨0, 0, -1, 0⟩⟩ = Matrix4.new :=
  Matrix4_mul_Inverse _ (by norm_num [Matrix4.Determinant, Matrix3.Determinant])

/-- C3 (the code at the claim's own example). `Matrix2::Inverse()` of the identity matrix
`[[1,0],[0,1]]`, whose determinant is 1, is `[[2,3],[2,2]]`, so `M * M.Inverse()` is
`[[2,3],[2,2]]` and not the identity: the identity is not its own inverse. -/
theorem Matrix2_mul_Inverse_identity :
    Matrix2.Determinant (Matrix2.new : Matrix2 ℚ) = 1 ∧
    Matrix2.Inverse (Matrix2.new : Matrix2 ℚ) = ⟨⟨2, 3⟩, ⟨2, 2⟩⟩ ∧
    Matrix2.mul (Matrix2.new : Matrix2 ℚ) (Matrix2.Inverse Matrix2.new) = ⟨⟨2, 3⟩, ⟨2, 2⟩⟩ ∧
    Matrix2.mul (Matrix2.new : Matrix2 ℚ) (Matrix2.Inverse Matrix2.new) ≠ Matrix2.new := by
  refine ⟨?_, ?_, ?_, ?_⟩ <;>
    norm_num [Matrix2.Determinant, Matrix2.mul, Matrix2.Inverse, Matrix2.new, Matrix2.InverseStep,
      List.range, List.range.loop]

/-- First-row Laplace expansion of `Matrix4::Determinant` against the Leibniz determinant. -/
theorem Matrix4_Determinant_eq_det [CommRing T] (M : Matrix4 T) :
    Matrix4.Determinant M = Matrix.det M.toMatrix := by
  obtain ⟨⟨a1, a2, a3, a4⟩, ⟨b1, b2, b3, b4⟩, ⟨c1, c2, c3, c4⟩, ⟨d1, d2, d3, d4⟩⟩ := M
  have h3 : ((3 : Fin 4) : ℕ) = 3 := rfl
  have hs : (Fin.succ 2 : Fin 4) = 3 := rfl
  have hc : (Fin.castSucc 2 : Fin 4) = 2 := rfl
  rw [Matrix.det_succ_row_zero]
  simp only [Matrix4.toMatrix, Matrix4.Determinant, Matrix3.Determinant, Fin.sum_univ_four,
    Matrix.det_fin_three, Matrix.submatrix_apply, Matrix.of_apply]
  simp [Fin.succAbove, Fin.lt_def, h3, hs, hc]
  ring

/-- C9. The closed-form `Determinant` of `Matrix2`, `Matrix3` and `Matrix4` over a commutative
ring is the Leibniz determinant of the matrix of its fields; the identity `Matrix2` has
determinant 1 and `diag(2,2,2)` has determinant 8. -/
theorem fixed_Determinant_eq_det [CommRing T] :
    (∀ M : Matrix2 T, Matrix2.Determinant M = Matrix.det M.toMatrix) ∧
    (∀ M : Matrix3 T, Matrix3.Determinant M = Matrix.det M.toMatrix) ∧
    (∀ M : Matrix4 T, Matrix4.Determinant M = Matrix.det M.toMatrix) ∧
    Matrix2.Determinant (⟨⟨1, 0⟩, ⟨0, 1⟩⟩ : Matrix2 T) = 1 ∧
    Matrix3.Determinant (⟨⟨2, 0, 0⟩, ⟨0, 2, 0⟩, ⟨0, 0, 2⟩⟩ : Matrix3 T) = 8 := by
  refine ⟨fun M => ?_, fun M => ?_, Matrix4_Determinant_eq_det, ?_, ?_⟩
  · simp [Matrix.det_fin_two, Matrix2.Determinant, Matrix2.toMatrix]
  · simp only [Matrix.det_fin_three, Matrix3.Determinant, Matrix3.toMatrix]
    simp
    ring
  · simp [Matrix2.Determinant]
  · simp [Matrix3.Determinant]
    norm_num

/-- Entries of the transposed `Matrix2`. -/
theorem Matrix2_toMatrix_Transpose (M : Matrix2 T) (i j : Fin 2) :
    M.Transpose.toMatrix i j = M.toMatrix j i := by
  fin_cases i <;> fin_cases j <;> simp [Matrix2.toMatrix, Matrix2.Transpose]

/-- Entries of the transposed `Matrix3`. -/
theorem Matrix3_toMatrix_Transpose (M : Matrix3 T) (i j : Fin 3) :
    M.Transpose.toMatrix i j = M.toMatrix j i := by
  fin_cases i <;> fin_cases j <;> simp [Matrix3.toMatrix, Matrix3.Transpose]

/-- Entries of the transposed `Matrix4`. -/
theorem Matrix4_toMatrix_Transpose (M : Matrix4 T) (i j : Fin 4) :
    M.Transpose.toMatrix i j = M.toMatrix j i := by
  fin_cases i <;> fin_cases j <;> simp [Matrix4.toMatrix, Matrix4.Transpose]

/-- C10. For `Matrix2`, `Matrix3` and `Matrix4`, transposing twice gives the matrix back, and
entry `(i, j)` of `M.Transpose()` is entry `(j, i)` of `M`. -/
theorem Transpose_Transpose :
    (∀ M : Matrix2 T, M.Transpose.Transpose = M ∧
        ∀ i j, M.Transpose.toMatrix i j = M.toMatrix j i) ∧
    (∀ M : Matrix3 T, M.Transpose.Transpose = M ∧
        ∀ i j, M.Transpose.toMatrix i j = M.toMatrix j i) ∧
    (∀ M : Matrix4 T, M.Transpose.Transpose = M ∧
        ∀ i j, M.Transpose.toMatrix i j = M.toMatrix j i) :=
  ⟨fun M => ⟨rfl, Matrix2_toMatrix_Transpose M⟩, fun M => ⟨rfl, Matrix3_toMatrix_Transpose M⟩,
    fun M => ⟨rfl, Matrix4_toMatrix_Transpose M⟩⟩

end FixedTheorems

end Libdas

namespace TRS

section Basics

variable {T σ : Type}

theorem MatrixN_size_set (m : MatrixN T) (i j : Nat) (v : T) : (m.set i j v).size = m.size := by
  simp [MatrixN.set, MatrixN.size]

theorem MatrixN_rowSize_set (m : MatrixN T) (i j a : Nat) (v : T) :
    (m.set i j v).rowSize a = m.rowSize a := by
  simp only [MatrixN.set, MatrixN.rowSize, List.getD_eq_getElem?_getD, List.getElem?_set]
  by_cases h : i = a
  · subst h
    by_cases hi : i < m.rows.length
    · simp [hi]
    · simp [hi, List.getElem?_eq_none (not_lt.mp hi)]
  · simp [h]

theorem MatrixN_Square_set {n : Nat} {m : MatrixN T} (h : m.Square n) (i j : Nat) (v : T) :
    (m.set i j v).Square n :=
  ⟨by rw [MatrixN_size_set]; exact h.1, fun a ha => by rw [MatrixN_rowSize_set]; exact h.2 a ha⟩

theorem MatrixN_get_set [Zero T] {n : Nat} {m : MatrixN T} (h : m.Square n) {i j : Nat}
    (hi : i < n) (hj : j < n) (v : T) (a b : Nat) :
    (m.set i j v).get a b = if a = i ∧ b = j then v else m.get a b := by
  have hlen : i < m.rows.length := by have := h.1; simp only [MatrixN.size] at this; omega
  have hrow : j < (m.rows.getD i []).length := by
    have := h.2 i hi; simp only [MatrixN.rowSize] at this; omega
  simp only [MatrixN.set, MatrixN.get, List.getD_eq_getElem?_getD, List.getElem?_set] at hrow ⊢
  have e : m.rows[i]? = some (m.rows[i]) := List.getElem?_eq_getElem hlen
  rw [e] at hrow
  simp only [Option.getD_some] at hrow
  by_cases hai : i = a
  · subst hai
    by_cases hbj : j = b
    · subst hbj
      simp [hlen, hrow, e]
    · have hbj' : ¬ b = j := fun e => hbj e.symm
      simp [hlen, hbj, hbj', e]
  · have hai' : ¬ a = i := fun e => hai e.symm
    simp [hai, hai']

theorem MatrixN_Square_new [Zero T] (n : Nat) : (MatrixN.new n : MatrixN T).Square n := by
  refine ⟨by simp [MatrixN.new, MatrixN.size], fun i hi => ?_⟩
  simp [MatrixN.new, MatrixN.rowSize, List.getD_eq_getElem?_getD, List.getElem?_replicate, hi]

theorem MatrixN_get_new [Zero T] (n a b : Nat) : (MatrixN.new n : MatrixN T).get a b = 0 := by
  simp only [MatrixN.new, MatrixN.get, List.getD_eq_getElem?_getD, List.getElem?_replicate]
  by_cases ha : a < n
  · by_cases hb : b < n <;> simp [ha, hb]
  · simp [ha]

theorem MatrixN_ext_of_get [Zero T] {n : Nat} {a b : MatrixN T} (ha : a.Square n)
    (hb : b.Square n) (h : ∀ i j, i < n → j < n → a.get i j = b.get i j) : a = b := by
  obtain ⟨ra⟩ := a
  obtain ⟨rb⟩ := b
  simp only [MatrixN.Square, MatrixN.size, MatrixN.rowSize, MatrixN.get] at ha hb h
  congr 1
  apply List.ext_getElem (by omega)
  intro i h1 h2
  have hi : i < n := by omega
  have ea : ra.getD i [] = ra[i] := by simp [List.getD_eq_getElem?_getD, h1]
  have eb : rb.getD i [] = rb[i] := by simp [List.getD_eq_getElem?_getD, h2]
  have la := ha.2 i hi
  have lb := hb.2 i hi
  rw [ea] at la
  rw [eb] at lb
  apply List.ext_getElem (by omega)
  intro j h3 h4
  have hj : j < n := by omega
  have := h i j hi hj
  rw [ea, eb] at this
  simpa [List.getD_eq_getElem?_getD, h3, h4] using this

/-- Invariant rule for a `foldl` loop: `Inv p` holds before the iteration at position `p`. -/
theorem foldl_inv (Inv : Nat → σ → Prop) (f : σ → Nat → σ) (js : List Nat) (s : σ)
    (h0 : Inv 0 s)
    (hstep : ∀ (p : Nat) (hp : p < js.length) (s : σ), Inv p s → Inv (p + 1) (f s js[p])) :
    Inv js.length (js.foldl f s) := by
  induction js generalizing Inv s with
  | nil => simpa using h0
  | cons j js ih =>
    simp only [List.foldl_cons, List.length_cons]
    apply ih (fun p s => Inv (p + 1) s)
    · exact hstep 0 (by simp) s h0
    · intro p hp s hs
      exact hstep (p + 1) (by simp; omega) s hs

/-- Invariant rule for a `for` loop whose body falls through at every iteration. -/
theorem forLoop_inv (Inv : Nat → σ → Prop) (body : σ → Nat → Loop T σ) (js : List Nat) (s : σ)
    (h0 : Inv 0 s)
    (hstep : ∀ (p : Nat) (hp : p < js.length) (s : σ), Inv p s →
      ∃ s', body s js[p] = Loop.next s' ∧ Inv (p + 1) s') :
    ∃ s', forLoop body js s = Loop.next s' ∧ Inv js.length s' := by
  induction js generalizing Inv s with
  | nil => exact ⟨s, rfl, by simpa using h0⟩
  | cons j js ih =>
    obtain ⟨s1, hb, h1⟩ := hstep 0 (by simp) s h0
    simp only [List.getElem_cons_zero] at hb
    simp only [forLoop, hb, List.length_cons]
    apply ih (fun p s => Inv (p + 1) s) s1 h1
    intro p hp s hs
    exact hstep (p + 1) (by simp; omega) s hs

end Basics

section Sums

variable {T σ : Type}

theorem foldl_add_eq_sum_map [AddCommMonoid T] (f : Nat → T) (l : List Nat) (init : T) :
    l.foldl (fun sum k => sum + f k) init = init + (l.map f).sum := by
  induction l generalizing init with
  | nil => simp
  | cons k l ih => simp [ih, add_assoc]

theorem foldl_range_eq_sum [AddCommMonoid T] (f : Nat → T) (n : Nat) :
    (List.range n).foldl (fun sum k => sum + f k) 0 = ∑ k in Finset.range n, f k := by
  rw [foldl_add_eq_sum_map, zero_add]
  induction n with
  | zero => simp
  | succ n ih => simp [List.range_succ, Finset.sum_range_succ, ih]

theorem foldl_range'_reverse_eq_sum [AddCommMonoid T] (f : Nat → T) (a len : Nat) :
    (List.range' a len).reverse.foldl (fun sum k => sum + f k) 0
      = ∑ k in Finset.range len, f (a + k) := by
  rw [foldl_add_eq_sum_map, zero_add, List.map_reverse, List.sum_reverse]
  induction len with
  | zero => simp
  | succ n ih => simp [List.range'_concat, Finset.sum_range_succ, ih]

theorem rowColSum_eq_sum [Semiring T] (a b : MatrixN T) (r c i : Nat) :
    rowColSum a b r c i = ∑ k in Finset.range i, a.get r k * b.get k c := by
  simp only [rowColSum]
  exact foldl_range_eq_sum (fun k => a.get r k * b.get k c) i

/-- `operator*` on a `self` of size `n`: the result is `n x n` and its cell `(i, j)` is the sum
of `self[i][k] * m2[k][j]` over `k < n`. -/
theorem MatrixN_mul_spec [Semiring T] {n : Nat} (A B : MatrixN T) (hA : A.size = n) :
    (A.mul B).Square n ∧
      ∀ i j, i < n → j < n → (A.mul B).get i j = ∑ k in Finset.range n, A.get i k * B.get k j := by
  simp only [MatrixN.mul, hA]
  have hnew : (MatrixN.new n : MatrixN T).Square n := MatrixN_Square_new n
  rw [hnew.1]
  have key := foldl_inv
    (fun p (R : MatrixN T) => R.Square n ∧ ∀ i j, i < p → j < n →
      R.get i j = ∑ k in Finset.range n, A.get i k * B.get k j)
    (fun result i =>
      (List.range (result.rowSize i)).foldl (fun result j =>
        let result := result.set i j 0
        (List.range n).foldl (fun result k =>
          result.set i j (result.get i j + A.get i k * B.get k j)) result) result)
    (List.range n) (MatrixN.new n) ⟨hnew, fun i j hi => absurd hi (Nat.not_lt_zero _)⟩ ?_
  · simp only [List.length_range] at key
    exact key
  · intro p hp R ⟨hR, hdone⟩
    simp only [List.length_range] at hp
    simp only [List.getElem_range]
    rw [hR.2 p hp]
    have key2 := foldl_inv
      (fun q (R : MatrixN T) => R.Square n ∧
        (∀ i j, i < p → j < n → R.get i j = ∑ k in Finset.range n, A.get i k * B.get k j) ∧
        (∀ j, j < q → R.get p j = ∑ k in Finset.range n, A.get p k * B.get k j))
      (fun result j =>
        let result := result.set p j 0
        (List.range n).foldl (fun result k =>
          result.set p j (result.get p j + A.get p k * B.get k j)) result)
      (List.range n) R ⟨hR, hdone, fun j hj => absurd hj (Nat.not_lt_zero _)⟩ ?_
    · simp only [List.length_range] at key2
      obtain ⟨h1, h2, h3⟩ := key2
      refine ⟨h1, fun i j hi hj => ?_⟩
      rcases Nat.lt_succ_iff_lt_or_eq.mp hi with h | h
      · exact h2 i j h hj
      · subst h; exact h3 j hj
    · intro q hq R2 ⟨hR2, hrows, hcols⟩
      simp only [List.length_range] at hq
      simp only [List.getElem_range]
      have key3 := foldl_inv
        (fun r (R : MatrixN T) => R.Square n ∧
          (∀ a b, a < n → b < n → ¬ (a = p ∧ b = q) → R.get a b = R2.get a b) ∧
          R.get p q = ∑ k in Finset.range r, A.get p k * B.get k q)
        (fun result k => result.set p q (result.get p q + A.get p k * B.get k q))
        (List.range n) (R2.set p q 0) ⟨(MatrixN_Square_set hR2 _ _ _), ?_, ?_⟩ ?_
      · simp only [List.length_range] at key3
        obtain ⟨h1, h2, h3⟩ := key3
        refine ⟨h1, fun i j hi hj => ?_, fun j hj => ?_⟩
        · rw [h2 i j (by omega) hj (by omega)]
          exact hrows i j hi hj
        · rcases Nat.lt_succ_iff_lt_or_eq.mp hj with h | h
          · rw [h2 p j hp (by omega) (by omega)]
            exact hcols j h
          · subst h; exact h3
      · intro a b ha hb hne
        rw [MatrixN_get_set hR2 hp hq, if_neg hne]
      · rw [MatrixN_get_set hR2 hp hq]
        simp
      · intro r hr R3 ⟨hR3, hother, hcell⟩
        simp only [List.length_range] at hr
        simp only [List.getElem_range]
        refine ⟨(MatrixN_Square_set hR3 _ _ _), fun a b ha hb hne => ?_, ?_⟩
        · rw [MatrixN_get_set hR3 hp hq, if_neg hne]
          exact hother a b ha hb hne
        · rw [MatrixN_get_set hR3 hp hq, if_pos ⟨rfl, rfl⟩, hcell, Finset.sum_range_succ]

/-- `MakeIdentity(n)` is `n x n` with 1 on the diagonal and 0 elsewhere. -/
theorem MatrixN_MakeIdentity_spec [Zero T] [One T] (n : Nat) :
    (MatrixN.MakeIdentity n : MatrixN T).Square n ∧
      ∀ i j, i < n → j < n →
        (MatrixN.MakeIdentity n : MatrixN T).get i j = if i = j then 1 else 0 := by
  simp only [MatrixN.MakeIdentity]
  have key := foldl_inv
    (fun p (R : MatrixN T) => R.Square n ∧ ∀ i j, i < n → j < n →
      R.get i j = if i = j ∧ i < p then 1 else 0)
    (fun matrix i => matrix.set i i 1) (List.range n) (MatrixN.new n)
    ⟨MatrixN_Square_new n, fun i j hi hj => by simp [MatrixN_get_new]⟩ ?_
  · simp only [List.length_range] at key
    refine ⟨key.1, fun i j hi hj => ?_⟩
    rw [key.2 i j hi hj]
    simp [hi]
  · intro p hp R ⟨hR, h⟩
    simp only [List.length_range] at hp
    simp only [List.getElem_range]
    refine ⟨(MatrixN_Square_set hR _ _ _), fun i j hi hj => ?_⟩
    rw [MatrixN_get_set hR hp hp, h i j hi hj]
    by_cases h1 : i = p
    · by_cases h2 : j = p
      · simp [h1, h2]
      · have : ¬ p = j := fun e => h2 e.symm
        simp [h1, h2, this]
    · by_cases h2 : i = j
      · have h3 : ¬ j = p := fun e => h1 (h2.trans e)
        have : (i < p + 1) = (i < p) := by
          apply propext; constructor <;> intro h <;> omega
        simp [h1, h2, h3, this]
        subst h2
        simp [this]
      · simp [h1, h2]

end Sums

section LUMath

variable {K : Type}

/-- A sum over `k < m` whose terms vanish beyond `c` stops at `c`. -/
theorem sum_range_cut [AddCommMonoid K] (f : Nat → K) {c m : Nat} (hc : c < m)
    (hz : ∀ k, c < k → k < m → f k = 0) :
    ∑ k in Finset.range m, f k = ∑ k in Finset.range c, f k + f c := by
  rw [← Finset.sum_range_succ]
  symm
  apply Finset.sum_subset
  · intro k hk
    simp only [Finset.mem_range] at hk ⊢
    omega
  · intro k hk hk'
    simp only [Finset.mem_range] at hk hk'
    exact hz k (by omega) hk

/-- A sum over `k < m` whose terms vanish below `c` starts at `c`. -/
theorem sum_range_cut_low [AddCommMonoid K] (f : Nat → K) {c m : Nat} (hc : c < m)
    (hz : ∀ k, k < c → f k = 0) :
    ∑ k in Finset.range m, f k = f c + ∑ k in Finset.range (m - (c + 1)), f (c + 1 + k) := by
  have h1 : Finset.range m = Finset.range (c + 1) ∪ Finset.Ico (c + 1) m := by
    ext k
    simp only [Finset.mem_range, Finset.mem_union, Finset.mem_Ico]
    omega
  have hd : Disjoint (Finset.range (c + 1)) (Finset.Ico (c + 1) m) := by
    rw [Finset.disjoint_left]
    intro k h1 h2
    simp only [Finset.mem_range, Finset.mem_Ico] at h1 h2
    omega
  rw [h1, Finset.sum_union hd, Finset.sum_range_succ, Finset.sum_Ico_eq_sum_range]
  rw [Finset.sum_eq_zero (fun k hk => hz k (Finset.mem_range.mp hk)), zero_add]

/-- The leading block of order `m` of `A` factors as a unit lower triangular matrix (the part
of `L` below the diagonal) times the upper triangular `U`, so its determinant is the product
of the first `m` pivots. -/
theorem lu_minor [CommRing K] (A L U : Nat → Nat → K) (m : Nat)
    (eU : ∀ i j, i ≤ j → j < m → U i j = A i j - ∑ k in Finset.range i, L i k * U k j)
    (eL : ∀ i j, i < j → j < m → L j i * U i i = A j i - ∑ k in Finset.range i, L j k * U k i)
    (zU : ∀ i j, j < i → i < m → U i j = 0) :
    Matrix.det (Matrix.of fun (i j : Fin m) => A i j) = ∏ i in Finset.range m, U i i := by
  let L' : Nat → Nat → K := fun a b => if b < a then L a b else if a = b then 1 else 0
  have hA : (Matrix.of fun (i j : Fin m) => A i j)
      = (Matrix.of fun (i j : Fin m) => L' i j) * (Matrix.of fun (i j : Fin m) => U i j) := by
    ext i j
    obtain ⟨i, hi⟩ := i
    obtain ⟨j, hj⟩ := j
    simp only [Matrix.mul_apply, Matrix.of_apply]
    rw [Fin.sum_univ_eq_sum_range (fun k => L' i k * U k j) m]
    rcases Nat.lt_or_ge j i with hji | hij
    · -- below the diagonal: the sum stops at `j`
      rw [sum_range_cut (fun k => L' i k * U k j) hj (fun k h1 h2 => by
        simp only []
        rw [zU k j h1 h2, mul_zero])]
      have hterm : L' i j * U j j = L i j * U j j := by simp [L', hji]
      have hsum : ∑ k in Finset.range j, L' i k * U k j
          = ∑ k in Finset.range j, L i k * U k j := by
        apply Finset.sum_congr rfl
        intro k hk
        have : k < i := by have := Finset.mem_range.mp hk; omega
        simp [L', this]
      rw [hterm, hsum, eL j i hji hi]
      ring
    · -- on or above the diagonal: the sum stops at `i`
      rw [sum_range_cut (fun k => L' i k * U k j) hi (fun k h1 h2 => by
        have h3 : ¬ k < i := by omega
        have h4 : ¬ i = k := by omega
        simp [L', h3, h4])]
      have hterm : L' i i * U i j = U i j := by simp [L']
      have hsum : ∑ k in Finset.range i, L' i k * U k j
          = ∑ k in Finset.range i, L i k * U k j := by
        apply Finset.sum_congr rfl
        intro k hk
        have : k < i := Finset.mem_range.mp hk
        simp [L', this]
      rw [hterm, hsum, eU i j hij hj]
      ring
  have hLdet : Matrix.det (Matrix.of fun (i j : Fin m) => L' i j) = 1 := by
    rw [Matrix.det_of_lowerTriangular]
    · apply Finset.prod_eq_one
      intro i _
      simp [L']
    · intro i j hij
      have hlt : (i : Nat) < (j : Nat) := hij
      have h3 : ¬ (j : Nat) < (i : Nat) := by omega
      have h4 : ¬ (i : Nat) = (j : Nat) := by omega
      simp only [Matrix.of_apply, L']
      rw [if_neg h3, if_neg h4]
  have hUdet : Matrix.det (Matrix.of fun (i j : Fin m) => U i j)
      = ∏ i in Finset.range m, U i i := by
    rw [Matrix.det_of_upperTriangular]
    · rw [← Fin.prod_univ_eq_prod_range (fun i => U i i) m]
      rfl
    · intro i j hij
      have hlt : (j : Nat) < (i : Nat) := hij
      simp only [Matrix.of_apply]
      exact zU i j hlt i.2
  rw [hA, Matrix.det_mul, hLdet, hUdet, one_mul]

/-- In the factorisation of `Inverse()`, where every cell of `upper` is computed, the cells
below the diagonal come out as zero. -/
theorem lu_upper_zero [CommRing K] (A L U : Nat → Nat → K) (m : Nat)
    (eU : ∀ i j, i < m → j < m → U i j = A i j - ∑ k in Finset.range i, L i k * U k j)
    (eL : ∀ i j, i < j → j < m → L j i * U i i = A j i - ∑ k in Finset.range i, L j k * U k i) :
    ∀ i j, j < i → i < m → U i j = 0 := by
  intro i
  induction i using Nat.strong_induction_on with
  | _ i ih =>
    intro j hji hi
    rw [eU i j hi (by omega)]
    rw [sum_range_cut (fun k => L i k * U k j) hji (fun k h1 h2 => by
      simp only []
      rw [ih k h2 j h1 (by omega), mul_zero])]
    rw [eL j i hji hi]
    ring

/-- In the factorisation of `Inverse()`, where every cell of `lower` is computed, the cells
above the diagonal come out as zero. -/
theorem lu_lower_zero [Field K] (A L U : Nat → Nat → K) (m : Nat)
    (eU : ∀ i j, i ≤ j → j < m → U i j = A i j - ∑ k in Finset.range i, L i k * U k j)
    (eL : ∀ i j, j < i → i < m →
      L j i = (A j i - ∑ k in Finset.range i, L j k * U k i) / U i i)
    (hL1 : ∀ i, i < m → L i i = 1) :
    ∀ i j, j < i → i < m → L j i = 0 := by
  intro i
  induction i using Nat.strong_induction_on with
  | _ i ih =>
    intro j hji hi
    rw [eL i j hji hi]
    rw [sum_range_cut (fun k => L j k * U k i) hji (fun k h1 h2 => by
      simp only []
      rw [ih k h2 j h1 (by omega), zero_mul])]
    rw [hL1 j (by omega), one_mul, eU j i (by omega) hi]
    simp

end LUMath

section DeterminantProofs

variable {T : Type}

/-- The `upper triangular` loop of `Determinant()` at row `p` writes the cells `(p, j)`,
`p <= j < n`, and nothing else. -/
theorem MatrixN_detUpper_spec [Field T] {n p : Nat} (self upper lower : MatrixN T)
    (hn : self.size = n) (hp : p < n) (hU : upper.Square n) :
    (self.detUpper p upper lower).Square n ∧
    (∀ a b, a ≠ p ∨ b < p → (self.detUpper p upper lower).get a b = upper.get a b) ∧
    (∀ j, p ≤ j → j < n → (self.detUpper p upper lower).get p j
      = self.get p j - ∑ k in Finset.range p, lower.get p k * upper.get k j) := by
  simp only [MatrixN.detUpper, hn]
  have key := foldl_inv
    (fun q (R : MatrixN T) => R.Square n ∧
      (∀ a b, a ≠ p ∨ b < p ∨ p + q ≤ b → R.get a b = upper.get a b) ∧
      (∀ j, p ≤ j → j < p + q → R.get p j
        = self.get p j - ∑ k in Finset.range p, lower.get p k * upper.get k j))
    (fun upper j =>
      let sum := rowColSum lower upper p j p
      upper.set p j (self.get p j - sum))
    (List.range' p (n - p)) upper ⟨hU, fun a b _ => rfl, fun j h1 h2 => by omega⟩ ?_
  · simp only [List.length_range'] at key
    obtain ⟨h1, h2, h3⟩ := key
    refine ⟨h1, fun a b hab => h2 a b (by omega), fun j hj1 hj2 => h3 j hj1 (by omega)⟩
  · intro q hq R ⟨hR, hsame, hdone⟩
    simp only [List.length_range'] at hq
    simp only [List.getElem_range', one_mul]
    have hq' : p + q < n := by omega
    refine ⟨(MatrixN_Square_set hR _ _ _), fun a b hab => ?_, fun j hj1 hj2 => ?_⟩
    · rw [MatrixN_get_set hR hp hq', if_neg (by omega)]
      exact hsame a b (by omega)
    · rw [MatrixN_get_set hR hp hq']
      by_cases hj : j = p + q
      · rw [if_pos ⟨rfl, hj⟩, rowColSum_eq_sum]
        congr 1
        · rw [hj]
        · apply Finset.sum_congr rfl
          intro k hk
          have hk' : k < p := Finset.mem_range.mp hk
          rw [hsame k (p + q) (Or.inl (by omega)), hj]
      · rw [if_neg (by omega)]
        exact hdone j hj1 (by omega)

/-- The `lower triangular` loop of `Determinant()` at column `p` falls through when the pivot
`upper[p][p]` is not zero or no row lies below `p`; it writes the cells `(j, p)`,
`p <= j < n`, and nothing else. -/
theorem MatrixN_detLower_spec [Field T] [DecidableEq T] {n p : Nat}
    (self upper lower : MatrixN T) (hn : self.size = n) (hp : p < n) (hL : lower.Square n)
    (hpiv : p + 1 < n → upper.get p p ≠ 0) :
    ∃ L', self.detLower p upper lower = Loop.next L' ∧ L'.Square n ∧
      (∀ a b, b ≠ p ∨ a < p → L'.get a b = lower.get a b) ∧
      L'.get p p = 1 ∧
      (∀ j, p < j → j < n → L'.get j p
        = (self.get j p - ∑ k in Finset.range p, lower.get j k * upper.get k p)
            / upper.get p p) := by
  simp only [MatrixN.detLower, hn]
  have key := forLoop_inv
    (fun q (R : MatrixN T) => R.Square n ∧
      (∀ a b, b ≠ p ∨ a < p ∨ p + q ≤ a → R.get a b = lower.get a b) ∧
      (0 < q → R.get p p = 1) ∧
      (∀ j, p < j → j < p + q → R.get j p
        = (self.get j p - ∑ k in Finset.range p, lower.get j k * upper.get k p)
            / upper.get p p))
    (fun lower j =>
      if p = j then
        (Loop.next (lower.set p p 1) : Loop T (MatrixN T))
      else
        let sum := rowColSum lower upper j p p
        if upper.get p p = 0 then
          Loop.ret 0
        else
          match checkedDiv (self.get j p - sum) (upper.get p p) with
          | some q => Loop.next (lower.set j p q)
          | none => Loop.divByZero)
    (List.range' p (n - p)) lower
    ⟨hL, fun a b _ => rfl, fun h => absurd h (Nat.lt_irrefl 0), fun j h1 h2 => by omega⟩ ?_
  · simp only [List.length_range'] at key
    obtain ⟨L', h0, h1, h2, h3, h4⟩ := key
    refine ⟨L', h0, h1, fun a b hab => h2 a b (by omega), h3 (by omega),
      fun j hj1 hj2 => h4 j hj1 (by omega)⟩
  · intro q hq R ⟨hR, hsame, hdiag, hdone⟩
    simp only [List.length_range'] at hq
    simp only [List.getElem_range', one_mul]
    have hq' : p + q < n := by omega
    by_cases hq0 : q = 0
    · subst hq0
      simp only [Nat.add_zero, if_true]
      refine ⟨_, rfl, (MatrixN_Square_set hR _ _ _), fun a b hab => ?_, fun _ => ?_, fun j hj1 hj2 => by omega⟩
      · rw [MatrixN_get_set hR hp hp, if_neg (by omega)]
        exact hsame a b (by omega)
      · rw [MatrixN_get_set hR hp hp, if_pos ⟨rfl, rfl⟩]
    · have hne : ¬ p = p + q := by omega
      have hpiv' : upper.get p p ≠ 0 := hpiv (by omega)
      simp only [if_neg hne, if_neg hpiv', checkedDiv]
      refine ⟨_, rfl, (MatrixN_Square_set hR _ _ _), fun a b hab => ?_, fun _ => ?_, fun j hj1 hj2 => ?_⟩
      · rw [MatrixN_get_set hR hq' hp, if_neg (by omega)]
        exact hsame a b (by omega)
      · rw [MatrixN_get_set hR hq' hp, if_neg (by omega)]
        exact hdiag (by omega)
      · rw [MatrixN_get_set hR hq' hp]
        by_cases hj : j = p + q
        · rw [if_pos ⟨hj, rfl⟩, rowColSum_eq_sum]
          congr 2
          · rw [hj]
          · apply Finset.sum_congr rfl
            intro k hk
            have hk' : k < p := Finset.mem_range.mp hk
            rw [hsame (p + q) k (Or.inl (by omega)), hj]
        · rw [if_neg (by omega)]
          exact hdone j hj1 (by omega)

end DeterminantProofs

section DeterminantSteps

variable {T σ : Type}

theorem foldl_mul_range_eq_prod [CommMonoid T] (f : Nat → T) (n : Nat) :
    (List.range n).foldl (fun det i => det * f i) 1 = ∏ i in Finset.range n, f i := by
  induction n with
  | zero => simp
  | succ n ih => simp [List.range_succ, List.foldl_append, Finset.prod_range_succ, ih]

/-- A `for` loop none of whose iterations divides by zero does not divide by zero. -/
theorem forLoop_ne_divByZero (body : σ → Nat → Loop T σ)
    (h : ∀ s j, body s j ≠ Loop.divByZero) (js : List Nat) (s : σ) :
    forLoop body js s ≠ Loop.divByZero := by
  induction js generalizing s with
  | nil => simp [forLoop]
  | cons j js ih =>
    simp only [forLoop]
    cases hb : body s j with
    | next s' => exact ih s'
    | ret v => simp
    | divByZero => exact absurd hb (h s j)

/-- A value returned from inside a `for` loop is returned by one of its iterations. -/
theorem forLoop_ret (P : T → Prop) (body : σ → Nat → Loop T σ)
    (h : ∀ s j v, body s j = Loop.ret v → P v) (js : List Nat) (s : σ) (v : T)
    (hv : forLoop body js s = Loop.ret v) : P v := by
  induction js generalizing s with
  | nil => simp [forLoop] at hv
  | cons j js ih =>
    simp only [forLoop] at hv
    cases hb : body s j with
    | next s' => rw [hb] at hv; exact ih s' hv
    | ret w =>
      rw [hb] at hv
      simp only [Loop.ret.injEq] at hv
      subst hv
      exact h s j w hb
    | divByZero => rw [hb] at hv; simp at hv

/-- After the `upper triangular` loop at row `p` the rows up to `p` of `upper` hold their
recurrence. -/
theorem MatrixN_DetInv_upper_rows [Field T] {n p : Nat} {self upper lower : MatrixN T}
    (hn : self.size = n) (hp : p < n) (hinv : self.DetInv n p upper lower) :
    (∀ i j, i < p + 1 → i ≤ j → j < n → (self.detUpper p upper lower).get i j
      = self.get i j
        - ∑ k in Finset.range i, lower.get i k * (self.detUpper p upper lower).get k j) ∧
    (∀ i j, j < i ∨ p + 1 ≤ i → (self.detUpper p upper lower).get i j = 0) := by
  obtain ⟨hU, hL, eU, zU, eL, hL1, zL⟩ := hinv
  obtain ⟨hU', hsame, hrow⟩ := MatrixN_detUpper_spec self upper lower hn hp hU
  constructor
  · intro i j hi hij hj
    have hsum : ∑ k in Finset.range i, lower.get i k * (self.detUpper p upper lower).get k j
        = ∑ k in Finset.range i, lower.get i k * upper.get k j := by
      apply Finset.sum_congr rfl
      intro k hk
      have hk' : k < i := Finset.mem_range.mp hk
      rw [hsame k j (Or.inl (by omega))]
    rw [hsum]
    rcases Nat.lt_succ_iff_lt_or_eq.mp hi with h | h
    · rw [hsame i j (Or.inl (by omega))]
      exact eU i j h hij hj
    · subst h
      exact hrow j hij hj
  · intro i j h
    by_cases hip : i = p
    · subst hip
      rw [hsame i j (Or.inr (by omega))]
      exact zU i j (Or.inr (Nat.le_refl _))
    · rw [hsame i j (Or.inl hip)]
      exact zU i j (by omega)

/-- After the `upper triangular` loop at row `p`, the leading principal minor of order `p + 1`
is the product of the pivots `upper[0][0]` to `upper[p][p]`. -/
theorem MatrixN_DetInv_minor_succ [Field T] {n p : Nat} {self upper lower : MatrixN T}
    (hn : self.size = n) (hp : p < n) (hinv : self.DetInv n p upper lower) :
    self.leadingMinor (p + 1)
      = ∏ i in Finset.range (p + 1), (self.detUpper p upper lower).get i i := by
  obtain ⟨eU', zU'⟩ := MatrixN_DetInv_upper_rows hn hp hinv
  obtain ⟨hU, hL, eU, zU, eL, hL1, zL⟩ := hinv
  obtain ⟨hU', hsame, hrow⟩ := MatrixN_detUpper_spec self upper lower hn hp hU
  apply lu_minor (fun i j => self.get i j) (fun i j => lower.get i j)
    (fun i j => (self.detUpper p upper lower).get i j) (p + 1)
  · intro i j hij hj
    exact eU' i j (by omega) hij (by omega)
  · intro i j hij hj
    have hi : i < p := by omega
    have hsum : ∑ k in Finset.range i, lower.get j k * (self.detUpper p upper lower).get k i
        = ∑ k in Finset.range i, lower.get j k * upper.get k i := by
      apply Finset.sum_congr rfl
      intro k hk
      have hk' : k < i := Finset.mem_range.mp hk
      rw [hsame k i (Or.inl (by omega))]
    show lower.get j i * (self.detUpper p upper lower).get i i
      = self.get j i
        - ∑ k in Finset.range i, lower.get j k * (self.detUpper p upper lower).get k i
    rw [hsum, hsame i i (Or.inl (by omega))]
    exact eL i j hi hij (by omega)
  · intro i j hji hi
    exact zU' i j (Or.inl hji)

/-- One iteration of the outer loop of `Determinant()` keeps the invariant, provided the new
pivot is not zero when a row lies below it. -/
theorem MatrixN_DetInv_step [Field T] [DecidableEq T] {n p : Nat}
    {self upper lower : MatrixN T} (hn : self.size = n) (hp : p < n)
    (hinv : self.DetInv n p upper lower)
    (hpiv : p + 1 < n → (self.detUpper p upper lower).get p p ≠ 0) :
    ∃ L', self.detLower p (self.detUpper p upper lower) lower = Loop.next L' ∧
      self.DetInv n (p + 1) (self.detUpper p upper lower) L' := by
  obtain ⟨eU', zU'⟩ := MatrixN_DetInv_upper_rows hn hp hinv
  obtain ⟨hU, hL, eU, zU, eL, hL1, zL⟩ := hinv
  obtain ⟨hU', hsame, hrow⟩ := MatrixN_detUpper_spec self upper lower hn hp hU
  obtain ⟨L', hrun, hL', hsameL, hdiag, hcol⟩ :=
    MatrixN_detLower_spec self (self.detUpper p upper lower) lower hn hp hL hpiv
  refine ⟨L', hrun, hU', hL', ?_, zU', ?_, ?_, ?_⟩
  · intro i j hi hij hj
    rw [eU' i j hi hij hj]
    congr 1
    apply Finset.sum_congr rfl
    intro k hk
    have hk' : k < i := Finset.mem_range.mp hk
    rw [hsameL i k (Or.inl (by omega))]
  · intro i j hi hij hj
    have hsum : ∑ k in Finset.range i, L'.get j k * (self.detUpper p upper lower).get k i
        = ∑ k in Finset.range i, lower.get j k * (self.detUpper p upper lower).get k i := by
      apply Finset.sum_congr rfl
      intro k hk
      have hk' : k < i := Finset.mem_range.mp hk
      rw [hsameL j k (Or.inl (by omega))]
    rw [hsum]
    rcases Nat.lt_succ_iff_lt_or_eq.mp hi with h | h
    · have hsum2 : ∑ k in Finset.range i, lower.get j k * (self.detUpper p upper lower).get k i
          = ∑ k in Finset.range i, lower.get j k * upper.get k i := by
        apply Finset.sum_congr rfl
        intro k hk
        have hk' : k < i := Finset.mem_range.mp hk
        rw [hsame k i (Or.inl (by omega))]
      rw [hsum2, hsameL j i (Or.inl (by omega)), hsame i i (Or.inl (by omega))]
      exact eL i j h hij hj
    · subst h
      rw [hcol j hij hj]
      exact div_mul_cancel₀ _ (hpiv (by omega))
  · intro i hi
    rcases Nat.lt_succ_iff_lt_or_eq.mp hi with h | h
    · rw [hsameL i i (Or.inl (by omega))]
      exact hL1 i h
    · subst h
      exact hdiag
  · intro i j h
    by_cases hjp : j = p
    · subst hjp
      rw [hsameL i j (Or.inr (by omega))]
      exact zL i j (Or.inr (Nat.le_refl _))
    · rw [hsameL i j (Or.inl hjp)]
      exact zL i j (by omega)

/-- `Determinant()` on an `n x n` matrix whose leading principal minors of order below `n`
are not zero: the factorisation loop runs to its end, and the product of the diagonal of
`upper` is the Leibniz determinant. -/
theorem MatrixN_Determinant_of_minors [Field T] [DecidableEq T] (n : Nat) (M : MatrixN T)
    (hM : M.Square n) (hminor : ∀ k, 1 ≤ k → k < n → M.leadingMinor k ≠ 0) :
    ∃ upper lower, M.detFactor = Loop.next (upper, lower) ∧
      M.Determinant = some (∏ i in Finset.range n, upper.get i i) ∧
      ∏ i in Finset.range n, upper.get i i = Matrix.det (M.toMatrix n) := by
  have hn : M.size = n := hM.1
  have key := forLoop_inv
    (fun p (st : MatrixN T × MatrixN T) => M.DetInv n p st.1 st.2)
    (fun st i =>
      let upper := M.detUpper i st.1 st.2
      match M.detLower i upper st.2 with
      | Loop.next lower => (Loop.next (upper, lower) : Loop T (MatrixN T × MatrixN T))
      | Loop.ret v => Loop.ret v
      | Loop.divByZero => Loop.divByZero)
    (List.range n) (MatrixN.new n, MatrixN.new n)
    ⟨MatrixN_Square_new n, MatrixN_Square_new n, fun i j hi => absurd hi (Nat.not_lt_zero _),
      fun i j _ => MatrixN_get_new n i j, fun i j hi => absurd hi (Nat.not_lt_zero _),
      fun i hi => absurd hi (Nat.not_lt_zero _), fun i j _ => MatrixN_get_new n i j⟩ ?_
  · simp only [List.length_range] at key
    obtain ⟨⟨U, L⟩, hrun, hinv⟩ := key
    have hfac : M.detFactor = Loop.next (U, L) := by
      simp only [MatrixN.detFactor, hn]
      exact hrun
    obtain ⟨hU, hL, eU, zU, eL, hL1, zL⟩ := hinv
    refine ⟨U, L, hfac, ?_, ?_⟩
    · simp only [MatrixN.Determinant, hfac, hU.1]
      rw [foldl_mul_range_eq_prod (fun i => U.get i i) n]
    · symm
      exact lu_minor (fun i j => M.get i j) (fun i j => L.get i j) (fun i j => U.get i j) n
        (fun i j hij hj => eU i j (by omega) hij hj)
        (fun i j hij hj => eL i j (by omega) hij hj)
        (fun i j hji hi => zU i j (Or.inl hji))
  · intro p hp st hinv
    simp only [List.length_range] at hp
    simp only [List.getElem_range]
    have hpiv : p + 1 < n → (M.detUpper p st.1 st.2).get p p ≠ 0 := by
      intro hlt
      have hm := hminor (p + 1) (by omega) hlt
      rw [MatrixN_DetInv_minor_succ hn hp hinv] at hm
      exact (Finset.prod_ne_zero_iff.mp hm) p (Finset.mem_range.mpr (by omega))
    obtain ⟨L', hrun, hinv'⟩ := MatrixN_DetInv_step hn hp hinv hpiv
    refine ⟨(M.detUpper p st.1 st.2, L'), ?_, hinv'⟩
    simp only [hrun]

end DeterminantSteps

section LUMath2

variable {K : Type}

/-- With `L` unit lower triangular and `U` upper triangular, the Doolittle recurrences say
that `L * U` reconstructs `A`. -/
theorem lu_prod [CommRing K] (A L U : Nat → Nat → K) (m : Nat)
    (eU : ∀ i j, i ≤ j → j < m → U i j = A i j - ∑ k in Finset.range i, L i k * U k j)
    (eL : ∀ i j, i < j → j < m → L j i * U i i = A j i - ∑ k in Finset.range i, L j k * U k i)
    (zU : ∀ i j, j < i → i < m → U i j = 0)
    (zL : ∀ i j, j < i → i < m → L j i = 0)
    (hL1 : ∀ i, i < m → L i i = 1) :
    ∀ i j, i < m → j < m → ∑ k in Finset.range m, L i k * U k j = A i j := by
  intro i j hi hj
  rcases Nat.lt_or_ge j i with hji | hij
  · rw [sum_range_cut (fun k => L i k * U k j) hj (fun k h1 h2 => by
      simp only []
      rw [zU k j h1 h2, mul_zero])]
    rw [eL j i hji hi]
    ring
  · rw [sum_range_cut (fun k => L i k * U k j) hi (fun k h1 h2 => by
      simp only []
      rw [zL k i h1 h2, zero_mul])]
    rw [hL1 i hi, one_mul, eU i j hij hj]
    ring

/-- The forward substitution of `Inverse()` computes a right inverse of a unit lower
triangular `L`. -/
theorem lower_inverse_prod [Field K] (L X : Nat → Nat → K) (m : Nat)
    (eX : ∀ i j, j ≤ i → i < m →
      X i j = ((if i = j then 1 else 0) - ∑ k in Finset.range i, L i k * X k j) / L i i)
    (zX : ∀ i j, i < j → X i j = 0)
    (zL : ∀ i j, j < i → i < m → L j i = 0)
    (hL1 : ∀ i, i < m → L i i = 1) :
    ∀ i j, i < m → j < m →
      ∑ k in Finset.range m, L i k * X k j = if i = j then 1 else 0 := by
  intro i j hi hj
  rw [sum_range_cut (fun k => L i k * X k j) hi (fun k h1 h2 => by
    simp only []
    rw [zL k i h1 h2, zero_mul])]
  rcases Nat.lt_or_ge i j with hij | hji
  · rw [zX i j hij, mul_zero, add_zero, if_neg (by omega)]
    apply Finset.sum_eq_zero
    intro k hk
    have hk' : k < i := Finset.mem_range.mp hk
    rw [zX k j (by omega), mul_zero]
  · rw [eX i j hji hi, hL1 i hi]
    ring

/-- The back substitution of `Inverse()` computes a right inverse of an upper triangular `U`
with non-zero diagonal. -/
theorem upper_inverse_prod [Field K] (U Y : Nat → Nat → K) (m : Nat)
    (eY : ∀ i j, i ≤ j → j < m →
      Y i j = ((if i = j then 1 else 0)
        - ∑ k in Finset.range (m - (i + 1)), U i (i + 1 + k) * Y (i + 1 + k) j) / U i i)
    (zY : ∀ i j, j < i → Y i j = 0)
    (zU : ∀ i j, j < i → i < m → U i j = 0)
    (hpiv : ∀ i, i < m → U i i ≠ 0) :
    ∀ i j, i < m → j < m →
      ∑ k in Finset.range m, U i k * Y k j = if i = j then 1 else 0 := by
  intro i j hi hj
  rw [sum_range_cut_low (fun k => U i k * Y k j) hi (fun k h1 => by
    simp only []
    rw [zU i k h1 hi, zero_mul])]
  rcases Nat.lt_or_ge j i with hji | hij
  · rw [zY i j hji, mul_zero, zero_add, if_neg (by omega)]
    apply Finset.sum_eq_zero
    intro k hk
    rw [zY (i + 1 + k) j (by omega), mul_zero]
  · rw [eY i j hij hj, mul_div_cancel₀ _ (hpiv i hi)]
    ring

end LUMath2

section InverseLoops

variable {T : Type}

/-- The `upper triangular` loop of `Inverse()` at row `p` writes the whole row `p`. -/
theorem MatrixN_invUpper_spec [Field T] {n p : Nat} (self upper lower : MatrixN T)
    (hn : self.size = n) (hp : p < n) (hU : upper.Square n) :
    (self.invUpper p upper lower).Square n ∧
    (∀ a b, a ≠ p → (self.invUpper p upper lower).get a b = upper.get a b) ∧
    (∀ j, j < n → (self.invUpper p upper lower).get p j
      = self.get p j - ∑ k in Finset.range p, lower.get p k * upper.get k j) := by
  simp only [MatrixN.invUpper, hn]
  have key := foldl_inv
    (fun q (R : MatrixN T) => R.Square n ∧
      (∀ a b, a ≠ p → R.get a b = upper.get a b) ∧
      (∀ j, j < q → R.get p j
        = self.get p j - ∑ k in Finset.range p, lower.get p k * upper.get k j))
    (fun upper j =>
      let sum := rowColSum lower upper p j p
      upper.set p j (self.get p j - sum))
    (List.range n) upper ⟨hU, fun a b _ => rfl, fun j h => absurd h (Nat.not_lt_zero _)⟩ ?_
  · simp only [List.length_range] at key
    exact key
  · intro q hq R ⟨hR, hsame, hdone⟩
    simp only [List.length_range] at hq
    simp only [List.getElem_range]
    refine ⟨(MatrixN_Square_set hR _ _ _), fun a b hab => ?_, fun j hj => ?_⟩
    · rw [MatrixN_get_set hR hp hq, if_neg (by omega)]
      exact hsame a b hab
    · rw [MatrixN_get_set hR hp hq]
      by_cases hjq : j = q
      · rw [if_pos ⟨rfl, hjq⟩, rowColSum_eq_sum]
        congr 1
        · rw [hjq]
        · apply Finset.sum_congr rfl
          intro k hk
          have hk' : k < p := Finset.mem_range.mp hk
          rw [hsame k q (by omega), hjq]
      · rw [if_neg (by omega)]
        exact hdone j (by omega)

/-- The `lower triangular` loop of `Inverse()` at column `p` falls through when the pivot
`upper[p][p]` is not zero, and then it has written the whole column `p`. -/
theorem MatrixN_invLower_spec [Field T] [DecidableEq T] {n p : Nat}
    (self upper lower : MatrixN T) (hn : self.size = n) (hp : p < n) (hL : lower.Square n)
    (hpiv : upper.get p p ≠ 0) :
    ∃ L', self.invLower p upper lower = Loop.next L' ∧ L'.Square n ∧
      (∀ a b, b ≠ p → L'.get a b = lower.get a b) ∧
      L'.get p p = 1 ∧
      (∀ j, j < n → j ≠ p → L'.get j p
        = (self.get j p - ∑ k in Finset.range p, lower.get j k * upper.get k p)
            / upper.get p p) := by
  simp only [MatrixN.invLower, hn]
  have key := forLoop_inv
    (fun q (R : MatrixN T) => R.Square n ∧
      (∀ a b, b ≠ p → R.get a b = lower.get a b) ∧
      (p < q → R.get p p = 1) ∧
      (∀ j, j < q → j ≠ p → R.get j p
        = (self.get j p - ∑ k in Finset.range p, lower.get j k * upper.get k p)
            / upper.get p p))
    (fun lower j =>
      if p = j then
        (Loop.next (lower.set p j 1) : Loop T (MatrixN T))
      else
        let sum := rowColSum lower upper j p p
        match checkedDiv (self.get j p - sum) (upper.get p p) with
        | some q => Loop.next (lower.set j p q)
        | none => Loop.divByZero)
    (List.range n) lower
    ⟨hL, fun a b _ => rfl, fun h => absurd h (Nat.not_lt_zero _),
      fun j h => absurd h (Nat.not_lt_zero _)⟩ ?_
  · simp only [List.length_range] at key
    obtain ⟨L', h0, h1, h2, h3, h4⟩ := key
    exact ⟨L', h0, h1, h2, h3 hp, h4⟩
  · intro q hq R ⟨hR, hsame, hdiag, hdone⟩
    simp only [List.length_range] at hq
    simp only [List.getElem_range]
    by_cases hpq : p = q
    · subst hpq
      simp only [if_true]
      refine ⟨_, rfl, (MatrixN_Square_set hR _ _ _), fun a b hab => ?_, fun _ => ?_, fun j hj1 hj2 => ?_⟩
      · rw [MatrixN_get_set hR hp hp, if_neg (by omega)]
        exact hsame a b hab
      · rw [MatrixN_get_set hR hp hp, if_pos ⟨rfl, rfl⟩]
      · rw [MatrixN_get_set hR hp hp, if_neg (by omega)]
        exact hdone j (by omega) hj2
    · simp only [if_neg hpq, if_neg hpiv, checkedDiv]
      refine ⟨_, rfl, (MatrixN_Square_set hR _ _ _), fun a b hab => ?_, fun h => ?_, fun j hj1 hj2 => ?_⟩
      · rw [MatrixN_get_set hR hq hp, if_neg (by omega)]
        exact hsame a b hab
      · rw [MatrixN_get_set hR hq hp, if_neg (by omega)]
        exact hdiag (by omega)
      · rw [MatrixN_get_set hR hq hp]
        by_cases hj : j = q
        · rw [if_pos ⟨hj, rfl⟩, rowColSum_eq_sum]
          congr 2
          · rw [hj]
          · apply Finset.sum_congr rfl
            intro k hk
            have hk' : k < p := Finset.mem_range.mp hk
            rw [hsame q k (by omega), hj]
        · rw [if_neg (by omega)]
          exact hdone j (by omega) hj2

/-- After the `upper triangular` loop of `Inverse()` at row `p`, the leading principal minor
of order `p + 1` is the product of the pivots `upper[0][0]` to `upper[p][p]`. -/
theorem MatrixN_FactorInv_minor_succ [Field T] {n p : Nat} {self upper lower : MatrixN T}
    (hn : self.size = n) (hp : p < n) (hinv : self.FactorInv n p upper lower) :
    self.leadingMinor (p + 1)
      = ∏ i in Finset.range (p + 1), (self.invUpper p upper lower).get i i := by
  obtain ⟨hU, hL, eU, eL, hL1, hpiv⟩ := hinv
  obtain ⟨hU', hsame, hrow⟩ := MatrixN_invUpper_spec self upper lower hn hp hU
  have eU' : ∀ i j, i < p + 1 → j < p + 1 → (self.invUpper p upper lower).get i j
      = self.get i j
        - ∑ k in Finset.range i, lower.get i k * (self.invUpper p upper lower).get k j := by
    intro i j hi hj
    have hsum : ∑ k in Finset.range i, lower.get i k * (self.invUpper p upper lower).get k j
        = ∑ k in Finset.range i, lower.get i k * upper.get k j := by
      apply Finset.sum_congr rfl
      intro k hk
      have hk' : k < i := Finset.mem_range.mp hk
      rw [hsame k j (by omega)]
    rw [hsum]
    rcases Nat.lt_succ_iff_lt_or_eq.mp hi with h | h
    · rw [hsame i j (by omega)]
      exact eU i j h (by omega)
    · subst h
      exact hrow j (by omega)
  have eL' : ∀ i j, i < j → j < p + 1 →
      lower.get j i * (self.invUpper p upper lower).get i i
        = self.get j i
          - ∑ k in Finset.range i, lower.get j k * (self.invUpper p upper lower).get k i := by
    intro i j hij hj
    have hi : i < p := by omega
    have hsum : ∑ k in Finset.range i, lower.get j k * (self.invUpper p upper lower).get k i
        = ∑ k in Finset.range i, lower.get j k * upper.get k i := by
      apply Finset.sum_congr rfl
      intro k hk
      have hk' : k < i := Finset.mem_range.mp hk
      rw [hsame k i (by omega)]
    rw [hsum, hsame i i (by omega), eL i j hi (by omega) (by omega)]
    exact div_mul_cancel₀ _ (hpiv i hi)
  have zU' := lu_upper_zero (fun i j => self.get i j) (fun i j => lower.get i j)
    (fun i j => (self.invUpper p upper lower).get i j) (p + 1) eU' eL'
  exact lu_minor (fun i j => self.get i j) (fun i j => lower.get i j)
    (fun i j => (self.invUpper p upper lower).get i j) (p + 1)
    (fun i j hij hj => eU' i j (by omega) hj) eL' zU'

/-- One iteration of the loop `find LU matrices` of `Inverse()` keeps the invariant, provided
the new pivot is not zero. -/
theorem MatrixN_FactorInv_step [Field T] [DecidableEq T] {n p : Nat}
    {self upper lower : MatrixN T} (hn : self.size = n) (hp : p < n)
    (hinv : self.FactorInv n p upper lower)
    (hpivot : (self.invUpper p upper lower).get p p ≠ 0) :
    ∃ L', self.invLower p (self.invUpper p upper lower) lower = Loop.next L' ∧
      self.FactorInv n (p + 1) (self.invUpper p upper lower) L' := by
  obtain ⟨hU, hL, eU, eL, hL1, hpiv⟩ := hinv
  obtain ⟨hU', hsame, hrow⟩ := MatrixN_invUpper_spec self upper lower hn hp hU
  obtain ⟨L', hrun, hL', hsameL, hdiag, hcol⟩ :=
    MatrixN_invLower_spec self (self.invUpper p upper lower) lower hn hp hL hpivot
  refine ⟨L', hrun, hU', hL', ?_, ?_, ?_, ?_⟩
  · intro i j hi hj
    have hsum : ∑ k in Finset.range i, L'.get i k * (self.invUpper p upper lower).get k j
        = ∑ k in Finset.range i, lower.get i k * upper.get k j := by
      apply Finset.sum_congr rfl
      intro k hk
      have hk' : k < i := Finset.mem_range.mp hk
      rw [hsame k j (by omega), hsameL i k (by omega)]
    rw [hsum]
    rcases Nat.lt_succ_iff_lt_or_eq.mp hi with h | h
    · rw [hsame i j (by omega)]
      exact eU i j h hj
    · subst h
      exact hrow j hj
  · intro i j hi hj hne
    rcases Nat.lt_succ_iff_lt_or_eq.mp hi with h | h
    · have hsum : ∑ k in Finset.range i, L'.get j k * (self.invUpper p upper lower).get k i
          = ∑ k in Finset.range i, lower.get j k * upper.get k i := by
        apply Finset.sum_congr rfl
        intro k hk
        have hk' : k < i := Finset.mem_range.mp hk
        rw [hsame k i (by omega), hsameL j k (by omega)]
      rw [hsum, hsameL j i (by omega), hsame i i (by omega)]
      exact eL i j h hj hne
    · subst h
      have hsum : ∑ k in Finset.range i, L'.get j k * (self.invUpper i upper lower).get k i
          = ∑ k in Finset.range i, lower.get j k * (self.invUpper i upper lower).get k i := by
        apply Finset.sum_congr rfl
        intro k hk
        have hk' : k < i := Finset.mem_range.mp hk
        rw [hsameL j k (by omega)]
      rw [hsum]
      exact hcol j hj hne
  · intro i hi
    rcases Nat.lt_succ_iff_lt_or_eq.mp hi with h | h
    · rw [hsameL i i (by omega)]
      exact hL1 i h
    · subst h
      exact hdiag
  · intro i hi
    rcases Nat.lt_succ_iff_lt_or_eq.mp hi with h | h
    · rw [hsame i i (by omega)]
      exact hpiv i h
    · subst h
      exact hpivot

/-- The loop `find LU matrices` of `Inverse()` on an `n x n` matrix whose leading principal
minors are not zero runs to its end and leaves the invariant at `p = n`. -/
theorem MatrixN_invFactor_of_minors [Field T] [DecidableEq T] (n : Nat) (M : MatrixN T)
    (hM : M.Square n) (hminor : ∀ k, 1 ≤ k → k ≤ n → M.leadingMinor k ≠ 0) :
    ∃ upper lower, M.invFactor = Loop.next (upper, lower) ∧ M.FactorInv n n upper lower := by
  have hn : M.size = n := hM.1
  have key := forLoop_inv
    (fun p (st : MatrixN T × MatrixN T) => M.FactorInv n p st.1 st.2)
    (fun st i =>
      let upper := M.invUpper i st.1 st.2
      match M.invLower i upper st.2 with
      | Loop.next lower => (Loop.next (upper, lower) : Loop T (MatrixN T × MatrixN T))
      | Loop.ret v => Loop.ret v
      | Loop.divByZero => Loop.divByZero)
    (List.range n) (MatrixN.new n, MatrixN.new n)
    ⟨MatrixN_Square_new n, MatrixN_Square_new n, fun i j hi => absurd hi (Nat.not_lt_zero _),
      fun i j hi => absurd hi (Nat.not_lt_zero _),
      fun i hi => absurd hi (Nat.not_lt_zero _), fun i hi => absurd hi (Nat.not_lt_zero _)⟩ ?_
  · simp only [List.length_range] at key
    obtain ⟨⟨U, L⟩, hrun, hinv⟩ := key
    refine ⟨U, L, ?_, hinv⟩
    simp only [MatrixN.invFactor, hn]
    exact hrun
  · intro p hp st hinv
    simp only [List.length_range] at hp
    simp only [List.getElem_range]
    have hpiv : (M.invUpper p st.1 st.2).get p p ≠ 0 := by
      have hm := hminor (p + 1) (by omega) (by omega)
      rw [MatrixN_FactorInv_minor_succ hn hp hinv] at hm
      exact (Finset.prod_ne_zero_iff.mp hm) p (Finset.mem_range.mpr (by omega))
    obtain ⟨L', hrun, hinv'⟩ := MatrixN_FactorInv_step hn hp hinv hpiv
    refine ⟨(M.invUpper p st.1 st.2, L'), ?_, hinv'⟩
    simp only [hrun]

end InverseLoops

section TriangularInverses

variable {T : Type}

/-- The forward substitution loop of `Inverse()` on a `lower` with non-zero diagonal runs to
its end; row `i` of `inverseLower` holds its recurrence up to the diagonal and is zero
beyond it. -/
theorem MatrixN_inverseLower_spec [Field T] [DecidableEq T] (n : Nat) (lower : MatrixN T)
    (hdiag : ∀ i, i < n → lower.get i i ≠ 0) :
    ∃ X, MatrixN.inverseLower n lower = Loop.next X ∧ X.Square n ∧
      (∀ i j, j ≤ i → i < n → X.get i j
        = ((if i = j then 1 else 0) - ∑ k in Finset.range i, lower.get i k * X.get k j)
            / lower.get i i) ∧
      (∀ i j, i < j → X.get i j = 0) := by
  simp only [MatrixN.inverseLower]
  have key := forLoop_inv
    (fun p (X : MatrixN T) => X.Square n ∧
      (∀ i j, j ≤ i → i < p → X.get i j
        = ((if i = j then 1 else 0) - ∑ k in Finset.range i, lower.get i k * X.get k j)
            / lower.get i i) ∧
      (∀ a b, a < b ∨ p ≤ a → X.get a b = 0))
    (fun inverseLower i =>
      forLoop (fun inverseLower j =>
        let sum := rowColSum lower inverseLower i j i
        let b : T := if i = j then 1 else 0
        match checkedDiv (b - sum) (lower.get i i) with
        | some q => (Loop.next (inverseLower.set i j q) : Loop T (MatrixN T))
        | none => Loop.divByZero) (List.range (i + 1)) inverseLower)
    (List.range n) (MatrixN.new n)
    ⟨MatrixN_Square_new n, fun i j _ hi => absurd hi (Nat.not_lt_zero _),
      fun a b _ => MatrixN_get_new n a b⟩ ?_
  · simp only [List.length_range] at key
    obtain ⟨X, h0, h1, h2, h3⟩ := key
    exact ⟨X, h0, h1, h2, fun i j hij => h3 i j (Or.inl hij)⟩
  · intro p hp R0 ⟨hR0, eX, zX⟩
    simp only [List.length_range] at hp
    simp only [List.getElem_range]
    have inner := forLoop_inv
      (fun q (R : MatrixN T) => R.Square n ∧
        (∀ a b, a ≠ p ∨ q ≤ b → R.get a b = R0.get a b) ∧
        (∀ j, j < q → R.get p j
          = ((if p = j then 1 else 0) - ∑ k in Finset.range p, lower.get p k * R0.get k j)
              / lower.get p p))
      (fun inverseLower j =>
        let sum := rowColSum lower inverseLower p j p
        let b : T := if p = j then 1 else 0
        match checkedDiv (b - sum) (lower.get p p) with
        | some q => (Loop.next (inverseLower.set p j q) : Loop T (MatrixN T))
        | none => Loop.divByZero)
      (List.range (p + 1)) R0
      ⟨hR0, fun a b _ => rfl, fun j h => absurd h (Nat.not_lt_zero _)⟩ ?_
    · simp only [List.length_range] at inner
      obtain ⟨X', hrun, hX', hsame, hrow⟩ := inner
      refine ⟨X', hrun, hX', fun i j hji hi => ?_, fun a b hab => ?_⟩
      · have hsum : ∑ k in Finset.range i, lower.get i k * X'.get k j
            = ∑ k in Finset.range i, lower.get i k * R0.get k j := by
          apply Finset.sum_congr rfl
          intro k hk
          have hk' : k < i := Finset.mem_range.mp hk
          rw [hsame k j (Or.inl (by omega))]
        rw [hsum]
        rcases Nat.lt_succ_iff_lt_or_eq.mp hi with h | h
        · rw [hsame i j (Or.inl (by omega))]
          exact eX i j hji h
        · subst h
          exact hrow j (by omega)
      · by_cases hap : a = p
        · subst hap
          rw [hsame a b (Or.inr (by omega))]
          exact zX a b (Or.inr (Nat.le_refl _))
        · rw [hsame a b (Or.inl hap)]
          exact zX a b (by omega)
    · intro q hq R ⟨hR, hsame, hdone⟩
      simp only [List.length_range] at hq
      simp only [List.getElem_range]
      have hqn : q < n := by omega
      simp only [checkedDiv, if_neg (hdiag p hp)]
      refine ⟨_, rfl, (MatrixN_Square_set hR _ _ _), fun a b hab => ?_, fun j hj => ?_⟩
      · rw [MatrixN_get_set hR hp hqn, if_neg (by omega)]
        exact hsame a b (by omega)
      · rw [MatrixN_get_set hR hp hqn]
        by_cases hjq : j = q
        · rw [if_pos ⟨rfl, hjq⟩, rowColSum_eq_sum]
          have hsum : ∑ k in Finset.range p, lower.get p k * R.get k q
              = ∑ k in Finset.range p, lower.get p k * R0.get k j := by
            apply Finset.sum_congr rfl
            intro k hk
            have hk' : k < p := Finset.mem_range.mp hk
            rw [hsame k q (Or.inl (by omega)), hjq]
          rw [hsum, hjq]
        · rw [if_neg (by omega)]
          exact hdone j (by omega)

/-- The back substitution loop of `Inverse()` on an `upper` with non-zero diagonal runs to its
end; row `i` of `inverseUpper` holds its recurrence from the diagonal on and is zero before
it. -/
theorem MatrixN_inverseUpper_spec [Field T] [DecidableEq T] (n : Nat) (upper : MatrixN T)
    (hpiv : ∀ i, i < n → upper.get i i ≠ 0) :
    ∃ Y, MatrixN.inverseUpper n upper = Loop.next Y ∧ Y.Square n ∧
      (∀ i j, i ≤ j → j < n → Y.get i j
        = ((if i = j then 1 else 0)
            - ∑ k in Finset.range (n - (i + 1)), upper.get i (i + 1 + k) * Y.get (i + 1 + k) j)
            / upper.get i i) ∧
      (∀ i j, j < i → Y.get i j = 0) := by
  simp only [MatrixN.inverseUpper]
  have key := forLoop_inv
    (fun p (Y : MatrixN T) => Y.Square n ∧
      (∀ i j, n ≤ i + p → i ≤ j → j < n → Y.get i j
        = ((if i = j then 1 else 0)
            - ∑ k in Finset.range (n - (i + 1)), upper.get i (i + 1 + k) * Y.get (i + 1 + k) j)
            / upper.get i i) ∧
      (∀ a b, b < a ∨ a + p < n → Y.get a b = 0))
    (fun inverseUpper i =>
      forLoop (fun inverseUpper j =>
        let sum := (List.range' (i + 1) (n - (i + 1))).reverse.foldl
          (fun sum k => sum + upper.get i k * inverseUpper.get k j) 0
        let b : T := if i = j then 1 else 0
        match checkedDiv (b - sum) (upper.get i i) with
        | some q => (Loop.next (inverseUpper.set i j q) : Loop T (MatrixN T))
        | none => Loop.divByZero) (List.range' i (n - i)).reverse inverseUpper)
    (List.range n).reverse (MatrixN.new n)
    ⟨MatrixN_Square_new n, fun i j h1 h2 h3 => by omega,
      fun a b _ => MatrixN_get_new n a b⟩ ?_
  · simp only [List.length_reverse, List.length_range] at key
    obtain ⟨Y, h0, h1, h2, h3⟩ := key
    exact ⟨Y, h0, h1, fun i j hij hj => h2 i j (by omega) hij hj,
      fun i j hji => h3 i j (Or.inl hji)⟩
  · intro p hp R0 ⟨hR0, eY, zY⟩
    have hidx : (List.range n).reverse[p] = n - 1 - p := by
      simp [List.getElem_reverse]
    simp only [List.length_reverse, List.length_range] at hp
    rw [hidx]
    have hi : n - 1 - p < n := by omega
    generalize hidef : n - 1 - p = i at hi
    have inner := forLoop_inv
      (fun q (R : MatrixN T) => R.Square n ∧
        (∀ a b, a ≠ i ∨ b + q < n → R.get a b = R0.get a b) ∧
        (∀ j, n ≤ j + q → j < n → R.get i j
          = ((if i = j then 1 else 0)
              - ∑ k in Finset.range (n - (i + 1)),
                  upper.get i (i + 1 + k) * R0.get (i + 1 + k) j)
              / upper.get i i))
      (fun inverseUpper j =>
        let sum := (List.range' (i + 1) (n - (i + 1))).reverse.foldl
          (fun sum k => sum + upper.get i k * inverseUpper.get k j) 0
        let b : T := if i = j then 1 else 0
        match checkedDiv (b - sum) (upper.get i i) with
        | some q => (Loop.next (inverseUpper.set i j q) : Loop T (MatrixN T))
        | none => Loop.divByZero)
      (List.range' i (n - i)).reverse R0
      ⟨hR0, fun a b _ => rfl, fun j h1 h2 => by omega⟩ ?_
    · simp only [List.length_reverse, List.length_range'] at inner
      obtain ⟨Y', hrun, hY', hsame, hrow⟩ := inner
      refine ⟨Y', hrun, hY', fun a j ha haj hj => ?_, fun a b hab => ?_⟩
      · have hsum : ∑ k in Finset.range (n - (a + 1)),
              upper.get a (a + 1 + k) * Y'.get (a + 1 + k) j
            = ∑ k in Finset.range (n - (a + 1)),
              upper.get a (a + 1 + k) * R0.get (a + 1 + k) j := by
          apply Finset.sum_congr rfl
          intro k hk
          rw [hsame (a + 1 + k) j (Or.inl (by omega))]
        rw [hsum]
        by_cases hai : a = i
        · subst hai
          exact hrow j (by omega) hj
        · rw [hsame a j (Or.inl hai)]
          exact eY a j (by omega) haj hj
      · by_cases hai : a = i
        · subst hai
          rw [hsame a b (Or.inr (by omega))]
          exact zY a b (Or.inr (by omega))
        · rw [hsame a b (Or.inl hai)]
          exact zY a b (by omega)
    · intro q hq R ⟨hR, hsame, hdone⟩
      have hjdx : (List.range' i (n - i)).reverse[q] = n - 1 - q := by
        simp only [List.getElem_reverse, List.getElem_range', List.length_range', one_mul]
        simp only [List.length_reverse, List.length_range'] at hq
        omega
      simp only [List.length_reverse, List.length_range'] at hq
      rw [hjdx]
      have hj : n - 1 - q < n := by omega
      have hij : i ≤ n - 1 - q := by omega
      generalize hjdef : n - 1 - q = j0 at hj hij
      simp only [checkedDiv, if_neg (hpiv i hi)]
      refine ⟨_, rfl, (MatrixN_Square_set hR _ _ _), fun a b hab => ?_, fun j hj1 hj2 => ?_⟩
      · rw [MatrixN_get_set hR hi hj, if_neg (by omega)]
        exact hsame a b (by omega)
      · rw [MatrixN_get_set hR hi hj]
        by_cases hjq : j = j0
        · rw [if_pos ⟨rfl, hjq⟩,
            foldl_range'_reverse_eq_sum (fun k => upper.get i k * R.get k j0)]
          have hsum : ∑ k in Finset.range (n - (i + 1)),
                upper.get i (i + 1 + k) * R.get (i + 1 + k) j0
              = ∑ k in Finset.range (n - (i + 1)),
                upper.get i (i + 1 + k) * R0.get (i + 1 + k) j := by
            apply Finset.sum_congr rfl
            intro k hk
            rw [hsame (i + 1 + k) j0 (Or.inl (by omega)), hjq]
          rw [hsum, hjq]
        · rw [if_neg (by omega)]
          exact hdone j (by omega) hj2

end TriangularInverses

section IdentityBlocks
variable {T : Type}
/-- Every leading block of `MakeIdentity(n)` is an identity matrix. -/
theorem MatrixN_toMatrix_MakeIdentity [Zero T] [One T] {n k : Nat} (hk : k ≤ n) :
    (MatrixN.MakeIdentity n : MatrixN T).toMatrix k = 1 := by
  ext i j
  simp only [MatrixN.toMatrix, Matrix.of_apply]
  rw [(MatrixN_MakeIdentity_spec n).2 i j (by omega) (by omega), Matrix.one_apply]
  simp [Fin.ext_iff]

end IdentityBlocks

section InverseClaims

variable {T : Type}

/-- `operator*` on `n x n` operands is the matrix product of the entries. -/
theorem MatrixN_toMatrix_mul [CommRing T] {n : Nat} (A B : MatrixN T) (hA : A.size = n) :
    (A.mul B).toMatrix n = A.toMatrix n * B.toMatrix n := by
  ext i j
  simp only [MatrixN.toMatrix, Matrix.of_apply, Matrix.mul_apply]
  rw [(MatrixN_mul_spec A B hA).2 i j i.2 j.2,
    Fin.sum_univ_eq_sum_range (fun k => A.get i k * B.get k j) n]

/-- Two `n x n` matrices with the same entries are equal. -/
theorem MatrixN_eq_of_toMatrix [Zero T] {n : Nat} {a b : MatrixN T} (ha : a.Square n)
    (hb : b.Square n) (h : a.toMatrix n = b.toMatrix n) : a = b := by
  apply MatrixN_ext_of_get ha hb
  intro i j hi hj
  have := congrFun (congrFun h ⟨i, hi⟩) ⟨j, hj⟩
  simpa [MatrixN.toMatrix] using this

/-- A matrix over `Fin n` given by its entries as sums over `k < n`. -/
theorem matrix_mul_eq_of_sums [CommRing T] {n : Nat} (A B C : MatrixN T)
    (h : ∀ i j, i < n → j < n → ∑ k in Finset.range n, A.get i k * B.get k j = C.get i j) :
    A.toMatrix n * B.toMatrix n = C.toMatrix n := by
  ext i j
  simp only [MatrixN.toMatrix, Matrix.of_apply, Matrix.mul_apply]
  rw [← h i j i.2 j.2, Fin.sum_univ_eq_sum_range (fun k => A.get i k * B.get k j) n]

theorem matrix_mul_eq_one_of_sums [CommRing T] {n : Nat} (A B : MatrixN T)
    (h : ∀ i j, i < n → j < n →
      ∑ k in Finset.range n, A.get i k * B.get k j = if i = j then 1 else 0) :
    A.toMatrix n * B.toMatrix n = 1 := by
  ext i j
  simp only [MatrixN.toMatrix, Matrix.of_apply, Matrix.mul_apply, Matrix.one_apply]
  rw [Fin.sum_univ_eq_sum_range (fun k => A.get i k * B.get k j) n, h i j i.2 j.2]
  simp [Fin.ext_iff]

/-- `Inverse()` on an `n x n` matrix over a field whose leading principal minors are all
non-zero: no division by zero occurs, the factors are a unit lower triangular `lower` and an
upper triangular `upper` with non-zero pivots and `lower * upper` the input, and the matrix
returned is `inverseUpper * inverseLower`, a two-sided inverse. -/
theorem MatrixN_Inverse_spec [Field T] [DecidableEq T] (n : Nat) (M : MatrixN T)
    (hM : M.Square n) (hminor : ∀ k, 1 ≤ k → k ≤ n → M.leadingMinor k ≠ 0) :
    ∃ upper lower inverseLower inverseUpper,
      M.invFactor = Loop.next (upper, lower) ∧
      MatrixN.inverseLower n lower = Loop.next inverseLower ∧
      MatrixN.inverseUpper n upper = Loop.next inverseUpper ∧
      M.Inverse = some (inverseUpper.mul inverseLower) ∧
      lower.mul upper = M ∧
      (∀ i, i < n → lower.get i i = 1) ∧
      (∀ i j, i < j → j < n → lower.get i j = 0) ∧
      (∀ i j, j < i → i < n → upper.get i j = 0) ∧
      (∀ i, i < n → upper.get i i ≠ 0) ∧
      M.mul (inverseUpper.mul inverseLower) = MatrixN.MakeIdentity n ∧
      (inverseUpper.mul inverseLower).mul M = MatrixN.MakeIdentity n := by
  have hn : M.size = n := hM.1
  obtain ⟨U, L, hfac, hU, hL, eU, eL, hL1, hpiv⟩ := MatrixN_invFactor_of_minors n M hM hminor
  have eLmul : ∀ i j, i < j → j < n →
      L.get j i * U.get i i = M.get j i - ∑ k in Finset.range i, L.get j k * U.get k i := by
    intro i j hij hj
    rw [eL i j (by omega) hj (by omega)]
    exact div_mul_cancel₀ _ (hpiv i (by omega))
  have zU := lu_upper_zero (fun i j => M.get i j) (fun i j => L.get i j)
    (fun i j => U.get i j) n (fun i j hi hj => eU i j hi hj) eLmul
  have zL := lu_lower_zero (fun i j => M.get i j) (fun i j => L.get i j)
    (fun i j => U.get i j) n (fun i j hij hj => eU i j (by omega) hj)
    (fun i j hji hi => eL i j hi (by omega) (by omega)) hL1
  have hLU := lu_prod (fun i j => M.get i j) (fun i j => L.get i j)
    (fun i j => U.get i j) n (fun i j hij hj => eU i j (by omega) hj) eLmul zU zL hL1
  have hLdiag : ∀ i, i < n → L.get i i ≠ 0 := fun i hi => by
    rw [hL1 i hi]; exact one_ne_zero
  obtain ⟨X, hX, hXsq, eX, zX⟩ := MatrixN_inverseLower_spec n L hLdiag
  obtain ⟨Y, hY, hYsq, eY, zY⟩ := MatrixN_inverseUpper_spec n U hpiv
  have hLX := lower_inverse_prod (fun i j => L.get i j) (fun i j => X.get i j) n eX zX zL hL1
  have hUY := upper_inverse_prod (fun i j => U.get i j) (fun i j => Y.get i j) n eY zY zU hpiv
  have mLU : L.toMatrix n * U.toMatrix n = M.toMatrix n := matrix_mul_eq_of_sums L U M hLU
  have mLX : L.toMatrix n * X.toMatrix n = 1 := matrix_mul_eq_one_of_sums L X hLX
  have mUY : U.toMatrix n * Y.toMatrix n = 1 := matrix_mul_eq_one_of_sums U Y hUY
  have mR : (Y.mul X).toMatrix n = Y.toMatrix n * X.toMatrix n :=
    MatrixN_toMatrix_mul Y X hYsq.1
  have hRsq : (Y.mul X).Square n := (MatrixN_mul_spec Y X hYsq.1).1
  have hright : M.toMatrix n * (Y.mul X).toMatrix n = 1 := by
    rw [mR, ← mLU]
    calc L.toMatrix n * U.toMatrix n * (Y.toMatrix n * X.toMatrix n)
        = L.toMatrix n * (U.toMatrix n * Y.toMatrix n) * X.toMatrix n := by
          simp only [Matrix.mul_assoc]
      _ = 1 := by rw [mUY, Matrix.mul_one, mLX]
  have hleft : (Y.mul X).toMatrix n * M.toMatrix n = 1 := Matrix.mul_eq_one_comm.mp hright
  have hI := @MatrixN_MakeIdentity_spec T _ _ n
  refine ⟨U, L, X, Y, hfac, hX, hY, ?_, ?_, hL1, fun i j hij hj => zL j i hij hj, zU, hpiv,
    ?_, ?_⟩
  · simp only [MatrixN.Inverse, hfac, hn, hX, hY]
  · apply MatrixN_eq_of_toMatrix (MatrixN_mul_spec L U hL.1).1 hM
    rw [MatrixN_toMatrix_mul L U hL.1, mLU]
  · apply MatrixN_eq_of_toMatrix (MatrixN_mul_spec M _ hn).1 hI.1
    rw [MatrixN_toMatrix_mul M _ hn, hright, MatrixN_toMatrix_MakeIdentity (Nat.le_refl n)]
  · apply MatrixN_eq_of_toMatrix (MatrixN_mul_spec _ M hRsq.1).1 hI.1
    rw [MatrixN_toMatrix_mul _ M hRsq.1, hleft, MatrixN_toMatrix_MakeIdentity (Nat.le_refl n)]

end InverseClaims

section DeterminantClaims

variable {T : Type}

theorem foldl_mul_eq_zero [MonoidWithZero T] (f : Nat → T) (l : List Nat) (init : T)
    (h : init = 0 ∨ ∃ i ∈ l, f i = 0) : l.foldl (fun det i => det * f i) init = 0 := by
  induction l generalizing init with
  | nil =>
    rcases h with h | ⟨i, hi, _⟩
    · simpa using h
    · simp at hi
  | cons a l ih =>
    simp only [List.foldl_cons]
    apply ih
    rcases h with h | ⟨i, hi, hz⟩
    · left; rw [h, zero_mul]
    · rcases List.mem_cons.mp hi with e | hmem
      · left; rw [← e, hz, mul_zero]
      · right; exact ⟨i, hmem, hz⟩

/-- C6. On an `n x n` matrix over a field whose leading principal minors of order 1 to
`n - 1` are not zero, `Determinant()` returns the Leibniz determinant: the factorisation runs
to its end without the early return, and the value is the product of the diagonal of
`upper`. -/
theorem MatrixN_Determinant_eq_det [Field T] [DecidableEq T] (n : Nat) (M : MatrixN T)
    (hn : 1 ≤ n) (hM : M.Square n) (hminor : ∀ k, 1 ≤ k → k < n → M.leadingMinor k ≠ 0) :
    M.Determinant = some (Matrix.det (M.toMatrix n)) ∧
      ∃ upper lower, M.detFactor = Loop.next (upper, lower) ∧
        Matrix.det (M.toMatrix n) = ∏ i in Finset.range n, upper.get i i := by
  obtain ⟨U, L, hfac, hdet, hprod⟩ := MatrixN_Determinant_of_minors n M hM hminor
  exact ⟨by rw [hdet, hprod], U, L, hfac, hprod.symm⟩

/-- Witness for C6: `[[1,2,3],[4,5,6],[7,8,10]]` over the rationals has leading minors 1 and
-3, and `Determinant()` returns -3. -/
theorem MatrixN_Determinant_eq_det_witness :
    MatrixN.Determinant (⟨[[1, 2, 3], [4, 5, 6], [7, 8, 10]]⟩ : MatrixN ℚ) = some (-3) ∧
    (MatrixN.Determinant (⟨[[1, 2, 3], [4, 5, 6], [7, 8, 10]]⟩ : MatrixN ℚ)
        = some (Matrix.det (MatrixN.toMatrix 3 ⟨[[1, 2, 3], [4, 5, 6], [7, 8, 10]]⟩)) ∧
      ∃ upper lower,
        MatrixN.detFactor (⟨[[1, 2, 3], [4, 5, 6], [7, 8, 10]]⟩ : MatrixN ℚ)
          = Loop.next (upper, lower) ∧
        Matrix.det (MatrixN.toMatrix 3 (⟨[[1, 2, 3], [4, 5, 6], [7, 8, 10]]⟩ : MatrixN ℚ))
          = ∏ i in Finset.range 3, upper.get i i) :=
  ⟨by
    norm_num [MatrixN.Determinant, MatrixN.detFactor, MatrixN.detUpper, MatrixN.detLower,
      forLoop, rowColSum, MatrixN.size, MatrixN.new, MatrixN.get, MatrixN.set, checkedDiv,
      List.range, List.range.loop, List.range'],
   MatrixN_Determinant_eq_det 3 _ (by decide)
    (by decide)
    (fun k h1 h2 => by
      interval_cases k
      · simp [MatrixN.leadingMinor, MatrixN.toMatrix, MatrixN.get]
      · simp [MatrixN.leadingMinor, MatrixN.toMatrix, MatrixN.get, Matrix.det_fin_two]
        norm_num)⟩

/-- C7. `Determinant()` never divides by zero: on every matrix it returns a value. When the
factorisation loop leaves through its `return`, the value is 0; when it runs to its end and
some pivot `upper[i][i]` is zero, the product returned is 0. -/
theorem MatrixN_Determinant_zero_pivot [Field T] [DecidableEq T] (M : MatrixN T) :
    (∃ d, M.Determinant = some d) ∧
    M.detFactor ≠ Loop.divByZero ∧
    (∀ v, M.detFactor = Loop.ret v → v = 0 ∧ M.Determinant = some 0) ∧
    (∀ upper lower, M.detFactor = Loop.next (upper, lower) →
      (∃ i, i < upper.size ∧ upper.get i i = 0) → M.Determinant = some 0) := by
  have hlow : ∀ i (upper lower : MatrixN T), M.detLower i upper lower ≠ Loop.divByZero := by
    intro i upper lower
    apply forLoop_ne_divByZero
    intro s j
    by_cases hij : i = j
    · simp [hij]
    · by_cases hz : upper.get i i = 0
      · simp [hij, hz]
      · simp [hij, hz, checkedDiv]
  have hlow0 : ∀ i (upper lower : MatrixN T) v, M.detLower i upper lower = Loop.ret v → v = 0 := by
    intro i upper lower v
    apply forLoop_ret (fun v => v = 0)
    intro s j v
    by_cases hij : i = j
    · simp [hij]
    · by_cases hz : upper.get i i = 0
      · simp only [if_neg hij, if_pos hz, Loop.ret.injEq]
        exact fun h => h.symm
      · simp [hij, hz, checkedDiv]
  have hnd : M.detFactor ≠ Loop.divByZero := by
    apply forLoop_ne_divByZero
    intro st i
    cases h : M.detLower i (M.detUpper i st.1 st.2) st.2 with
    | next s' => simp [h]
    | ret v => simp [h]
    | divByZero => exact absurd h (hlow _ _ _)
  have hret : ∀ v, M.detFactor = Loop.ret v → v = 0 := by
    intro v
    apply forLoop_ret (fun v => v = 0)
    intro st i v
    cases h : M.detLower i (M.detUpper i st.1 st.2) st.2 with
    | next s' => simp [h]
    | ret w =>
      simp only [h, Loop.ret.injEq]
      intro e
      subst e
      exact hlow0 _ _ _ _ h
    | divByZero => simp [h]
  refine ⟨?_, hnd, ?_, ?_⟩
  · cases h : M.detFactor with
    | next st =>
      refine ⟨(List.range st.1.size).foldl (fun det i => det * st.1.get i i) 1, ?_⟩
      simp only [MatrixN.Determinant, h]
    | ret v => exact ⟨v, by simp only [MatrixN.Determinant, h]⟩
    | divByZero => exact absurd h hnd
  · intro v hv
    have := hret v hv
    subst this
    exact ⟨rfl, by simp only [MatrixN.Determinant, hv]⟩
  · intro upper lower h ⟨i, hi, hz⟩
    simp only [MatrixN.Determinant, h]
    rw [foldl_mul_eq_zero (fun i => upper.get i i) _ 1 (Or.inr ⟨i, List.mem_range.mpr hi, hz⟩)]

/-- Witness for C7: on `[[0,1],[1,0]]` the first pivot is zero, the loop leaves through its
`return`, and `Determinant()` returns 0; on `[[1,2],[2,4]]` the loop runs to its end with the
last pivot zero, and `Determinant()` returns 0. -/
theorem MatrixN_Determinant_zero_pivot_witness :
    MatrixN.Determinant (⟨[[0, 1], [1, 0]]⟩ : MatrixN ℚ) = some 0 ∧
    MatrixN.Determinant (⟨[[1, 2], [2, 4]]⟩ : MatrixN ℚ) = some 0 :=
  ⟨((MatrixN_Determinant_zero_pivot (⟨[[0, 1], [1, 0]]⟩ : MatrixN ℚ)).2.2.1 0 (by
      simp [MatrixN.detFactor, MatrixN.detUpper, MatrixN.detLower,
        forLoop, rowColSum, MatrixN.size, MatrixN.new, MatrixN.get, MatrixN.set, checkedDiv,
        List.range, List.range.loop, List.range'])).2,
   (MatrixN_Determinant_zero_pivot (⟨[[1, 2], [2, 4]]⟩ : MatrixN ℚ)).2.2.2
      ⟨[[1, 2], [0, 0]]⟩ ⟨[[1, 0], [2, 1]]⟩ (by
      norm_num [MatrixN.detFactor, MatrixN.detUpper, MatrixN.detLower,
        forLoop, rowColSum, MatrixN.size, MatrixN.new, MatrixN.get, MatrixN.set, checkedDiv,
        List.range, List.range.loop, List.range', List.replicate])
      ⟨1, by decide, by simp [MatrixN.get]⟩⟩

end DeterminantClaims

section GenericClaims

variable {T : Type}

/-- C4 as stated fails. `[[0,1],[1,0]]` over the rationals is a 2x2 matrix with determinant
-1, yet its first pivot `upper[0][0]` is 0 and `Inverse()` divides by it: no matrix is
returned, so `M * M.Inverse()` is not the identity. -/
theorem MatrixN_mul_Inverse_counterexample :
    (⟨[[0, 1], [1, 0]]⟩ : MatrixN ℚ).Square 2 ∧
    Matrix.det (MatrixN.toMatrix 2 (⟨[[0, 1], [1, 0]]⟩ : MatrixN ℚ)) = -1 ∧
    (MatrixN.invUpper ⟨[[0, 1], [1, 0]]⟩ 0 (MatrixN.new 2) (MatrixN.new 2)
      : MatrixN ℚ).get 0 0 = 0 ∧
    MatrixN.Inverse (⟨[[0, 1], [1, 0]]⟩ : MatrixN ℚ) = none ∧
    ¬ ∃ R, MatrixN.Inverse (⟨[[0, 1], [1, 0]]⟩ : MatrixN ℚ) = some R ∧
        MatrixN.mul ⟨[[0, 1], [1, 0]]⟩ R = MatrixN.MakeIdentity 2 := by
  have hnone : MatrixN.Inverse (⟨[[0, 1], [1, 0]]⟩ : MatrixN ℚ) = none := by
    simp [MatrixN.Inverse, MatrixN.invFactor, MatrixN.invUpper, MatrixN.invLower, forLoop,
      rowColSum, MatrixN.size, MatrixN.new, MatrixN.get, MatrixN.set, checkedDiv, List.range,
      List.range.loop]
  refine ⟨(by decide), ?_, ?_, hnone, ?_⟩
  · simp [MatrixN.toMatrix, MatrixN.get, Matrix.det_fin_two]
  · simp [MatrixN.invUpper, rowColSum, MatrixN.size, MatrixN.new, MatrixN.get, MatrixN.set,
      List.range, List.range.loop]
  · rintro ⟨R, hR, _⟩
    rw [hnone] at hR
    exact Option.noConfusion hR

/-- C4, amended. For `n >= 1` and an `n x n` matrix over a field whose leading principal
minors of order 1 to `n` are all non-zero, `Inverse()` returns a matrix and
`M * M.Inverse()` is `MakeIdentity(n)`. -/
theorem MatrixN_mul_Inverse [Field T] [DecidableEq T] (n : Nat) (M : MatrixN T)
    (hn : 1 ≤ n) (hM : M.Square n) (hminor : ∀ k, 1 ≤ k → k ≤ n → M.leadingMinor k ≠ 0) :
    ∃ R, M.Inverse = some R ∧ M.mul R = MatrixN.MakeIdentity n := by
  obtain ⟨U, L, X, Y, _, _, _, hR, _, _, _, _, _, hright, _⟩ :=
    MatrixN_Inverse_spec n M hM hminor
  exact ⟨Y.mul X, hR, hright⟩

/-- Witness for C4: `[[2,1],[1,1]]` over the rationals has leading minors 2 and 1; its
`Inverse()` is `[[1,-1],[-1,2]]`. -/
theorem MatrixN_mul_Inverse_witness :
    MatrixN.Inverse (⟨[[2, 1], [1, 1]]⟩ : MatrixN ℚ) = some ⟨[[1, -1], [-1, 2]]⟩ ∧
    ∃ R, MatrixN.Inverse (⟨[[2, 1], [1, 1]]⟩ : MatrixN ℚ) = some R ∧
      MatrixN.mul ⟨[[2, 1], [1, 1]]⟩ R = MatrixN.MakeIdentity 2 :=
  ⟨by
    norm_num [MatrixN.Inverse, MatrixN.invFactor, MatrixN.invUpper, MatrixN.invLower,
      MatrixN.inverseLower, MatrixN.inverseUpper, MatrixN.mul, MatrixN.rowSize, forLoop,
      rowColSum, MatrixN.size, MatrixN.new, MatrixN.get, MatrixN.set, checkedDiv, List.range,
      List.range.loop, List.range', List.replicate],
   MatrixN_mul_Inverse 2 _ (by decide) (by decide)
    (fun k h1 h2 => by
      interval_cases k
      · simp [MatrixN.leadingMinor, MatrixN.toMatrix, MatrixN.get]
      · simp [MatrixN.leadingMinor, MatrixN.toMatrix, MatrixN.get, Matrix.det_fin_two]
        norm_num)⟩

/-- C5. For `n >= 1` and an `n x n` matrix over a field whose leading principal minors of
order 1 to `n` are all non-zero, the factors computed inside `Inverse()` satisfy
`lower * upper = M` with `lower` unit lower triangular, `upper` upper triangular and every
pivot non-zero, and the matrix returned, `inverseUpper * inverseLower`, is a two-sided
inverse of `M`. -/
theorem MatrixN_Inverse_lu [Field T] [DecidableEq T] (n : Nat) (M : MatrixN T)
    (hn : 1 ≤ n) (hM : M.Square n) (hminor : ∀ k, 1 ≤ k → k ≤ n → M.leadingMinor k ≠ 0) :
    ∃ upper lower inverseLower inverseUpper,
      M.invFactor = Loop.next (upper, lower) ∧
      MatrixN.inverseLower n lower = Loop.next inverseLower ∧
      MatrixN.inverseUpper n upper = Loop.next inverseUpper ∧
      M.Inverse = some (inverseUpper.mul inverseLower) ∧
      lower.mul upper = M ∧
      (∀ i, i < n → lower.get i i = 1) ∧
      (∀ i j, i < j → j < n → lower.get i j = 0) ∧
      (∀ i j, j < i → i < n → upper.get i j = 0) ∧
      (∀ i, i < n → upper.get i i ≠ 0) ∧
      M.mul (inverseUpper.mul inverseLower) = MatrixN.MakeIdentity n ∧
      (inverseUpper.mul inverseLower).mul M = MatrixN.MakeIdentity n :=
  MatrixN_Inverse_spec n M hM hminor

/-- Witness for C5: `[[1,2,3],[4,5,6],[7,8,10]]` over the rationals has leading minors 1, -3
and -3. -/
theorem MatrixN_Inverse_lu_witness :
    ∃ upper lower inverseLower inverseUpper,
      MatrixN.invFactor (⟨[[1, 2, 3], [4, 5, 6], [7, 8, 10]]⟩ : MatrixN ℚ)
        = Loop.next (upper, lower) ∧
      MatrixN.inverseLower 3 lower = Loop.next inverseLower ∧
      MatrixN.inverseUpper 3 upper = Loop.next inverseUpper ∧
      MatrixN.Inverse (⟨[[1, 2, 3], [4, 5, 6], [7, 8, 10]]⟩ : MatrixN ℚ)
        = some (inverseUpper.mul inverseLower) ∧
      lower.mul upper = ⟨[[1, 2, 3], [4, 5, 6], [7, 8, 10]]⟩ ∧
      (∀ i, i < 3 → lower.get i i = 1) ∧
      (∀ i j, i < j → j < 3 → lower.get i j = 0) ∧
      (∀ i j, j < i → i < 3 → upper.get i j = 0) ∧
      (∀ i, i < 3 → upper.get i i ≠ 0) ∧
      MatrixN.mul ⟨[[1, 2, 3], [4, 5, 6], [7, 8, 10]]⟩ (inverseUpper.mul inverseLower)
        = MatrixN.MakeIdentity 3 ∧
      (inverseUpper.mul inverseLower).mul ⟨[[1, 2, 3], [4, 5, 6], [7, 8, 10]]⟩
        = MatrixN.MakeIdentity 3 :=
  MatrixN_Inverse_lu 3 _ (by decide) (by decide)
    (fun k h1 h2 => by
      interval_cases k
      · simp [MatrixN.leadingMinor, MatrixN.toMatrix, MatrixN.get]
      · simp [MatrixN.leadingMinor, MatrixN.toMatrix, MatrixN.get, Matrix.det_fin_two]
        norm_num
      · simp [MatrixN.leadingMinor, MatrixN.toMatrix, MatrixN.get, Matrix.det_fin_three]
        norm_num)

end GenericClaims

section IdentityClaim

variable {T : Type}

/-- C8. `MakeIdentity(n).Determinant()` is 1 for every `n`, and the default-constructed
`Matrix2`, `Matrix3` and `Matrix4`, which are the identity matrices, have `Determinant` 1. -/
theorem Determinant_identity [Field T] [DecidableEq T] :
    (∀ n, (MatrixN.MakeIdentity n : MatrixN T).Determinant = some 1) ∧
    (Libdas.Matrix2.new : Libdas.Matrix2 T) = ⟨⟨1, 0⟩, ⟨0, 1⟩⟩ ∧
    Libdas.Matrix2.Determinant (Libdas.Matrix2.new : Libdas.Matrix2 T) = 1 ∧
    (Libdas.Matrix3.new : Libdas.Matrix3 T) = ⟨⟨1, 0, 0⟩, ⟨0, 1, 0⟩, ⟨0, 0, 1⟩⟩ ∧
    Libdas.Matrix3.Determinant (Libdas.Matrix3.new : Libdas.Matrix3 T) = 1 ∧
    (Libdas.Matrix4.new : Libdas.Matrix4 T)
      = ⟨⟨1, 0, 0, 0⟩, ⟨0, 1, 0, 0⟩, ⟨0, 0, 1, 0⟩, ⟨0, 0, 0, 1⟩⟩ ∧
    Libdas.Matrix4.Determinant (Libdas.Matrix4.new : Libdas.Matrix4 T) = 1 := by
  refine ⟨fun n => ?_, rfl, ?_, rfl, ?_, rfl, ?_⟩
  · obtain ⟨U, L, hfac, hdet, hprod⟩ :=
      MatrixN_Determinant_of_minors n (MatrixN.MakeIdentity n : MatrixN T)
        (MatrixN_MakeIdentity_spec n).1 (fun k h1 h2 => by
          rw [MatrixN.leadingMinor, MatrixN_toMatrix_MakeIdentity (by omega), Matrix.det_one]
          exact one_ne_zero)
    rw [hdet, hprod, MatrixN_toMatrix_MakeIdentity (Nat.le_refl n), Matrix.det_one]
  · simp [Libdas.Matrix2.Determinant, Libdas.Matrix2.new]
  · simp [Libdas.Matrix3.Determinant, Libdas.Matrix3.new]
  · simp [Libdas.Matrix4.Determinant, Libdas.Matrix3.Determinant, Libdas.Matrix4.new]

end IdentityClaim

end TRS

namespace Libdas

section QuaternionTheorems

variable {T : Type}

theorem shuffle_3021 (a b : M128 T) :
    _mm_shuffle_ps a b (_MM_SHUFFLE 3 0 2 1) = ⟨a.e1, a.e2, b.e0, b.e3⟩ := rfl

theorem shuffle_3102 (a b : M128 T) :
    _mm_shuffle_ps a b (_MM_SHUFFLE 3 1 0 2) = ⟨a.e2, a.e0, b.e1, b.e3⟩ := rfl

/-- `FastCross` computes the cross product in the three low lanes. -/
theorem FastCross_lanes [CommRing T] (a b : M128 T) :
    FastCross a b = ⟨a.e1 * b.e2 - a.e2 * b.e1, a.e2 * b.e0 - a.e0 * b.e2,
      a.e0 * b.e1 - a.e1 * b.e0, a.e3 * b.e3 - a.e3 * b.e3⟩ := by
  simp only [FastCross, shuffle_3021, shuffle_3102, _mm_mul_ps, _mm_sub_ps]

/-- `FastDot` adds the four lane products. -/
theorem FastDot_lanes [CommRing T] (a b : M128 T) :
    FastDot a b = a.e0 * b.e0 + a.e1 * b.e1 + (a.e2 * b.e2 + a.e3 * b.e3) := by
  simp only [FastDot, _mm_mul_ps, _mm_movehdup_ps, _mm_add_ps, _mm_movehl_ps, _mm_add_ss,
    _mm_cvtss_f32]

/-- C11. Over a commutative ring the dot product of `Vector3::Cross(v1, v2)` with `v1` and
with `v2` is 0. -/
theorem Cross_orthogonal [CommRing T] (v1 v2 : Vector3 T) :
    (Vector3.Cross v1 v2).dot v1 = 0 ∧ (Vector3.Cross v1 v2).dot v2 = 0 := by
  simp only [Vector3.Cross, Vector3.dot]
  constructor <;> ring

/-- C13. `Quaternion(0,0,0,1)` is a two-sided identity of `operator*`. -/
theorem Quaternion_mul_identity [CommRing T] (q : Quaternion T) :
    Quaternion.mul ⟨0, 0, 0, 1⟩ q = q ∧ Quaternion.mul q ⟨0, 0, 0, 1⟩ = q := by
  obtain ⟨x, y, z, w⟩ := q
  simp only [Quaternion.mul, FastCross_lanes, FastDot_lanes, _mm_set_ps1, _mm_set_ps,
    _mm_mul_ps, _mm_add_ps, _mm_storeu_ps, Quaternion.mk.injEq]
  refine ⟨⟨?_, ?_, ?_, ?_⟩, ⟨?_, ?_, ?_, ?_⟩⟩ <;> ring

/-- C14. `operator*` computed through the lane shuffles of `FastCross` and `FastDot` is the
scalar Hamilton product. -/
theorem Quaternion_mul_eq_hamiltonSpec [CommRing T] (p q : Quaternion T) :
    Quaternion.mul p q = Quaternion.hamiltonSpec p q := by
  simp only [Quaternion.mul, Quaternion.hamiltonSpec, FastCross_lanes, FastDot_lanes,
    _mm_set_ps1, _mm_set_ps, _mm_mul_ps, _mm_add_ps, _mm_storeu_ps, Quaternion.mk.injEq,
    true_and]
  ring

/-- C15 (the code against its 4x4 sibling). On the unit quaternion `(0, 3/5, 4/5, 0)` the
entry `row3.first` of `ExpandToMatrix3()` is `dxz - dyz = -24/25`, while the standard value
`2xz - 2yw`, which `ExpandToMatrix4()` has there, is 0. The other eight entries agree with
the 4x4 block for every quaternion. -/
theorem ExpandToMatrix3_row3_first :
    (Quaternion.ExpandToMatrix3 (⟨0, 3 / 5, 4 / 5, 0⟩ : Quaternion ℚ)).row3.first = -24 / 25 ∧
    (Quaternion.ExpandToMatrix4 (⟨0, 3 / 5, 4 / 5, 0⟩ : Quaternion ℚ)).row3.first = 0 ∧
    (2 * (0 : ℚ) * (4 / 5) - 2 * (3 / 5) * 0 = 0) ∧
    (∀ q : Quaternion ℚ,
      (q.ExpandToMatrix3).row1
        = ⟨(q.ExpandToMatrix4).row1.first, (q.ExpandToMatrix4).row1.second,
            (q.ExpandToMatrix4).row1.third⟩ ∧
      (q.ExpandToMatrix3).row2
        = ⟨(q.ExpandToMatrix4).row2.first, (q.ExpandToMatrix4).row2.second,
            (q.ExpandToMatrix4).row2.third⟩ ∧
      (q.ExpandToMatrix3).row3.second = (q.ExpandToMatrix4).row3.second ∧
      (q.ExpandToMatrix3).row3.third = (q.ExpandToMatrix4).row3.third ∧
      (q.ExpandToMatrix3).row3.first = 2 * q.x * q.z - 2 * q.y * q.z) := by
  refine ⟨?_, ?_, ?_, fun q => ⟨rfl, rfl, rfl, rfl, rfl⟩⟩ <;>
    norm_num [Quaternion.ExpandToMatrix3, Quaternion.ExpandToMatrix4]

end QuaternionTheorems

end Libdas

namespace Libdas

section QuaternionReal

theorem sqrt_four_mul_sq (a : ℝ) : Real.sqrt (4 * a ^ 2) = 2 * |a| := by
  have h : (4 : ℝ) * a ^ 2 = (2 * a) ^ 2 := by ring
  rw [h, Real.sqrt_sq_eq_abs, abs_mul]
  norm_num

theorem Quaternion_Magnitude_sq (q : Quaternion ℝ) :
    q.Magnitude Real.sqrt = Real.sqrt (q.x ^ 2 + q.y ^ 2 + q.z ^ 2 + q.w ^ 2) := by
  simp only [Quaternion.Magnitude, List.range, List.range.loop, List.foldl, List.getD_cons_zero,
    List.getD_cons_succ]
  congr 1
  ring

/-- C12. For a unit quaternion over the reals, `Magnitude()` is 1, `Inverse()` is
`Conjugate()` divided by it, and `q * q.Inverse()` is `(0,0,0,1)`. -/
theorem Quaternion_mul_Inverse (q : Quaternion ℝ)
    (hq : q.x ^ 2 + q.y ^ 2 + q.z ^ 2 + q.w ^ 2 = 1) :
    q.Magnitude Real.sqrt = 1 ∧
    q.Inverse Real.sqrt = q.Conjugate.div (q.Magnitude Real.sqrt) ∧
    q.mul (q.Inverse Real.sqrt) = ⟨0, 0, 0, 1⟩ := by
  have hm : q.Magnitude Real.sqrt = 1 := by
    rw [Quaternion_Magnitude_sq, hq, Real.sqrt_one]
  refine ⟨hm, rfl, ?_⟩
  obtain ⟨x, y, z, w⟩ := q
  simp only [Quaternion.Inverse, hm]
  simp only [Quaternion.mul, Quaternion.div, Quaternion.Conjugate, FastCross_lanes,
    FastDot_lanes, _mm_set_ps1, _mm_set_ps, _mm_mul_ps, _mm_add_ps, _mm_storeu_ps,
    Quaternion.mk.injEq]
  simp only [] at hq
  refine ⟨?_, ?_, ?_, ?_⟩
  · ring
  · ring
  · ring
  · linear_combination hq

/-- Witness for C12: the unit quaternion `(3/5, 0, 4/5, 0)`. -/
theorem Quaternion_mul_Inverse_witness :
    Quaternion.Magnitude Real.sqrt (⟨3 / 5, 0, 4 / 5, 0⟩ : Quaternion ℝ) = 1 ∧
    Quaternion.Inverse Real.sqrt (⟨3 / 5, 0, 4 / 5, 0⟩ : Quaternion ℝ)
      = (Quaternion.Conjugate ⟨3 / 5, 0, 4 / 5, 0⟩).div
          (Quaternion.Magnitude Real.sqrt ⟨3 / 5, 0, 4 / 5, 0⟩) ∧
    Quaternion.mul (⟨3 / 5, 0, 4 / 5, 0⟩ : Quaternion ℝ)
      (Quaternion.Inverse Real.sqrt ⟨3 / 5, 0, 4 / 5, 0⟩) = ⟨0, 0, 0, 1⟩ :=
  Quaternion_mul_Inverse ⟨3 / 5, 0, 4 / 5, 0⟩ (by norm_num)

end QuaternionReal

end Libdas

namespace Libdas

section MatrixToQuaternionProofs

/-- Dividing `4 * a * b` by `2 * |a| * 2` gives `b` up to the sign of `a`. -/
theorem div_abs_cases (a : ℝ) (ha : a ≠ 0) :
    (0 < a ∧ |a| = a) ∨ (a < 0 ∧ |a| = -a) := by
  rcases lt_or_gt_of_ne ha with h | h
  · exact Or.inr ⟨h, abs_of_neg h⟩
  · exact Or.inl ⟨h, abs_of_pos h⟩

/-- C16. For a unit quaternion `q` over the reals, `MatrixToQuaternion(q.ExpandToMatrix4())`
divides by no zero and returns `q` or `-q`. -/
theorem MatrixToQuaternion_ExpandToMatrix4 (q : Quaternion ℝ)
    (hq : q.x ^ 2 + q.y ^ 2 + q.z ^ 2 + q.w ^ 2 = 1) :
    ∃ r, Quaternion.MatrixToQuaternion Real.sqrt q.ExpandToMatrix4 = some r ∧
      (r = q ∨ r = ⟨-q.x, -q.y, -q.z, -q.w⟩) := by
  obtain ⟨x, y, z, w⟩ := q
  simp only [] at hq
  simp only [Quaternion.MatrixToQuaternion, Quaternion.ExpandToMatrix4]
  have e1 : (1 : ℝ) + (1 - 2 * y * y - 2 * z * z + (1 - 2 * x * x - 2 * z * z)
      + (1 - 2 * x * x - 2 * y * y)) = 4 * w ^ 2 := by linear_combination (-4) * hq
  have e2 : (1 : ℝ) + (1 - 2 * y * y - 2 * z * z) - (1 - 2 * x * x - 2 * z * z)
      - (1 - 2 * x * x - 2 * y * y) = 4 * x ^ 2 := by ring
  have e3 : (1 : ℝ) + (1 - 2 * x * x - 2 * z * z) - (1 - 2 * y * y - 2 * z * z)
      - (1 - 2 * x * x - 2 * y * y) = 4 * y ^ 2 := by ring
  have e4 : (1 : ℝ) + (1 - 2 * x * x - 2 * y * y) - (1 - 2 * y * y - 2 * z * z)
      - (1 - 2 * x * x - 2 * z * z) = 4 * z ^ 2 := by ring
  rw [e1, e2, e3, e4]
  simp only [sqrt_four_mul_sq]
  by_cases h1 : (1 - 2 * y * y - 2 * z * z + (1 - 2 * x * x - 2 * z * z)
      + (1 - 2 * x * x - 2 * y * y)) > 0
  · rw [if_pos h1]
    have hw : w ≠ 0 := by
      intro h0
      subst h0
      nlinarith [sq_nonneg x, sq_nonneg y, sq_nonneg z]
    have hd : (4 : ℝ) * (2 * |w| / 2) ≠ 0 := by
      have := abs_pos.mpr hw
      positivity
    simp only [TRS.checkedDiv, if_neg hd]
    refine ⟨_, rfl, ?_⟩
    rcases div_abs_cases w hw with ⟨hpos, habs⟩ | ⟨hneg, habs⟩
    · left
      rw [habs]
      simp only [Quaternion.mk.injEq]
      refine ⟨?_, ?_, ?_, ?_⟩ <;> field_simp <;> ring
    · right
      rw [habs]
      simp only [Quaternion.mk.injEq]
      refine ⟨?_, ?_, ?_, ?_⟩ <;> field_simp <;> ring
  · rw [if_neg h1]
    by_cases h2 : (1 - 2 * y * y - 2 * z * z) > (1 - 2 * x * x - 2 * z * z) ∧
        (1 - 2 * y * y - 2 * z * z) > (1 - 2 * x * x - 2 * y * y)
    · rw [if_pos h2]
      have hx : x ≠ 0 := by
        intro h0
        subst h0
        nlinarith [h2.1, sq_nonneg y]
      have hd : (2 : ℝ) * |x| * 2 ≠ 0 := by
        have := abs_pos.mpr hx
        positivity
      simp only [TRS.checkedDiv, if_neg hd]
      refine ⟨_, rfl, ?_⟩
      rcases div_abs_cases x hx with ⟨hpos, habs⟩ | ⟨hneg, habs⟩
      · left
        rw [habs]
        simp only [Quaternion.mk.injEq]
        refine ⟨?_, ?_, ?_, ?_⟩ <;> field_simp <;> ring
      · right
        rw [habs]
        simp only [Quaternion.mk.injEq]
        refine ⟨?_, ?_, ?_, ?_⟩ <;> field_simp <;> ring
    · rw [if_neg h2]
      by_cases h3 : (1 - 2 * x * x - 2 * z * z) > (1 - 2 * x * x - 2 * y * y)
      · rw [if_pos h3]
        have hy : y ≠ 0 := by
          intro h0
          subst h0
          nlinarith [sq_nonneg z]
        have hd : (2 : ℝ) * |y| * 2 ≠ 0 := by
          have := abs_pos.mpr hy
          positivity
        simp only [TRS.checkedDiv, if_neg hd]
        refine ⟨_, rfl, ?_⟩
        rcases div_abs_cases y hy with ⟨hpos, habs⟩ | ⟨hneg, habs⟩
        · left
          rw [habs]
          simp only [Quaternion.mk.injEq]
          refine ⟨?_, ?_, ?_, ?_⟩ <;> field_simp <;> ring
        · right
          rw [habs]
          simp only [Quaternion.mk.injEq]
          refine ⟨?_, ?_, ?_, ?_⟩ <;> field_simp <;> ring
      · rw [if_neg h3]
        have hz : z ≠ 0 := by
          intro h0
          subst h0
          have hy0 : y = 0 := by nlinarith [sq_nonneg y]
          subst hy0
          have hx0 : x = 0 := by
            by_contra hx
            have hxx : 0 < x * x := mul_self_pos.mpr hx
            apply h2
            constructor <;> nlinarith
          subst hx0
          apply h1
          nlinarith
        have hd : (2 : ℝ) * |z| * 2 ≠ 0 := by
          have := abs_pos.mpr hz
          positivity
        simp only [TRS.checkedDiv, if_neg hd]
        refine ⟨_, rfl, ?_⟩
        rcases div_abs_cases z hz with ⟨hpos, habs⟩ | ⟨hneg, habs⟩
        · left
          rw [habs]
          simp only [Quaternion.mk.injEq]
          refine ⟨?_, ?_, ?_, ?_⟩ <;> field_simp <;> ring
        · right
          rw [habs]
          simp only [Quaternion.mk.injEq]
          refine ⟨?_, ?_, ?_, ?_⟩ <;> field_simp <;> ring

/-- Witness for C16: the unit quaternion `(3/5, 0, 4/5, 0)`, whose matrix has a negative
trace. -/
theorem MatrixToQuaternion_ExpandToMatrix4_witness :
    ∃ r, Quaternion.MatrixToQuaternion Real.sqrt
        (Quaternion.ExpandToMatrix4 (⟨3 / 5, 0, 4 / 5, 0⟩ : Quaternion ℝ)) = some r ∧
      (r = ⟨3 / 5, 0, 4 / 5, 0⟩ ∨ r = ⟨-(3 / 5), -0, -(4 / 5), -0⟩) :=
  MatrixToQuaternion_ExpandToMatrix4 ⟨3 / 5, 0, 4 / 5, 0⟩ (by norm_num)

end MatrixToQuaternionProofs

end Libdas

namespace TRS

section VectorBasics

variable {T : Type}

theorem VectorN_size_set (v : VectorN T) (i : Nat) (x : T) : (v.set i x).size = v.size := by
  simp [VectorN.set, VectorN.size]

theorem VectorN_get_set [Zero T] (v : VectorN T) {i : Nat} (hi : i < v.size) (x : T) (a : Nat) :
    (v.set i x).get a = if a = i then x else v.get a := by
  simp only [VectorN.size] at hi
  simp only [VectorN.set, VectorN.get, List.getD_eq_getElem?_getD, List.getElem?_set]
  by_cases h : i = a
  · subst h
    simp [hi]
  · have h' : ¬ a = i := fun e => h e.symm
    simp [h, h']

theorem VectorN_size_new [Zero T] (n : Nat) : (VectorN.new n : VectorN T).size = n := by
  simp [VectorN.new, VectorN.size]

theorem VectorN_get_new [Zero T] (n a : Nat) : (VectorN.new n : VectorN T).get a = 0 := by
  simp only [VectorN.new, VectorN.get, List.getD_eq_getElem?_getD, List.getElem?_replicate]
  by_cases ha : a < n <;> simp [ha]

theorem VectorN_ext_of_get [Zero T] {a b : VectorN T} (hs : a.size = b.size)
    (h : ∀ i, i < a.size → a.get i = b.get i) : a = b := by
  obtain ⟨ea⟩ := a
  obtain ⟨eb⟩ := b
  simp only [VectorN.size, VectorN.get] at hs h
  congr 1
  apply List.ext_getElem hs
  intro i h1 h2
  have := h i h1
  simpa [List.getD_eq_getElem?_getD, h1, h2] using this

/-- A loop `result[i] = f i` over `i < n` on a vector of size `n` fills it with `f`. -/
theorem VectorN_fill_spec [Zero T] (f : Nat → T) (n : Nat) (r0 : VectorN T) (h0 : r0.size = n) :
    ((List.range n).foldl (fun result i => result.set i (f i)) r0).size = n ∧
    ∀ i, i < n → ((List.range n).foldl (fun result i => result.set i (f i)) r0).get i = f i := by
  have key := foldl_inv
    (fun p (R : VectorN T) => R.size = n ∧ ∀ i, i < p → R.get i = f i)
    (fun result i => result.set i (f i)) (List.range n) r0
    ⟨h0, fun i hi => absurd hi (Nat.not_lt_zero _)⟩ ?_
  · simp only [List.length_range] at key
    exact key
  · intro p hp R ⟨hR, hdone⟩
    simp only [List.length_range] at hp
    simp only [List.getElem_range]
    refine ⟨by rw [VectorN_size_set]; exact hR, fun i hi => ?_⟩
    rw [VectorN_get_set R (by omega)]
    by_cases h : i = p
    · rw [if_pos h, h]
    · rw [if_neg h]
      exact hdone i (by omega)

/-- C17. For generic vectors of any lengths, `a + b` and `a - b` have length
`min(a.size(), b.size())` and element `i` equal to `a[i] + b[i]`, respectively
`a[i] - b[i]`, below that length; `[1,2,3] + [4,5,6] = [5,7,9]`. -/
theorem VectorN_add_sub [Ring T] (a b : VectorN T) :
    (a.add b).size = min a.size b.size ∧
    (∀ i, i < min a.size b.size → (a.add b).get i = a.get i + b.get i) ∧
    (a.sub b).size = min a.size b.size ∧
    (∀ i, i < min a.size b.size → (a.sub b).get i = a.get i - b.get i) ∧
    VectorN.add (⟨[1, 2, 3]⟩ : VectorN T) ⟨[4, 5, 6]⟩ = ⟨[5, 7, 9]⟩ := by
  have hadd := VectorN_fill_spec (fun i => a.get i + b.get i) (min a.size b.size)
    (VectorN.new (min a.size b.size)) (VectorN_size_new _)
  have hsub := VectorN_fill_spec (fun i => a.get i - b.get i) (min a.size b.size)
    (VectorN.new (min a.size b.size)) (VectorN_size_new _)
  refine ⟨hadd.1, hadd.2, hsub.1, hsub.2, ?_⟩
  simp only [VectorN.add, VectorN.size, VectorN.new, VectorN.set, VectorN.get, List.range,
    List.range.loop, List.replicate, List.length_cons, List.length_nil, List.foldl,
    List.getD_cons_zero, List.getD_cons_succ, List.set_cons_zero, List.set_cons_succ,
    Nat.reduceAdd, min_self, VectorN.mk.injEq, List.cons.injEq, and_true]
  refine ⟨?_, ?_, ?_⟩ <;> norm_num

/-- Witness for C17 on vectors of different sizes over the integers:
`[1,2,3] + [4,5] = [5,7]` and `[1,2,3] - [4,5] = [-3,-3]`. -/
theorem VectorN_add_sub_witness :
    VectorN.add (⟨[1, 2, 3]⟩ : VectorN ℤ) ⟨[4, 5]⟩ = ⟨[5, 7]⟩ ∧
    VectorN.sub (⟨[1, 2, 3]⟩ : VectorN ℤ) ⟨[4, 5]⟩ = ⟨[-3, -3]⟩ ∧
    (VectorN.add (⟨[1, 2, 3]⟩ : VectorN ℤ) ⟨[4, 5]⟩).get 1
      = VectorN.get (⟨[1, 2, 3]⟩ : VectorN ℤ) 1 + VectorN.get (⟨[4, 5]⟩ : VectorN ℤ) 1 :=
  ⟨by decide, by decide,
    (VectorN_add_sub (⟨[1, 2, 3]⟩ : VectorN ℤ) ⟨[4, 5]⟩).2.1 1 (by decide)⟩

/-- C18. The dot product of two generic vectors of equal size is the sum of the products
`a[i] * b[i]`; for different sizes it is 0; `[1,2,3] * [4,5,6] = 32`. -/
theorem VectorN_dot [Ring T] (a b : VectorN T) :
    (a.size = b.size → a.dot b = ∑ i in Finset.range a.size, a.get i * b.get i) ∧
    (a.size ≠ b.size → a.dot b = 0) ∧
    VectorN.dot (⟨[1, 2, 3]⟩ : VectorN ℤ) ⟨[4, 5, 6]⟩ = 32 := by
  refine ⟨fun h => ?_, fun h => ?_, by decide⟩
  · simp only [VectorN.dot, if_pos h]
    exact foldl_range_eq_sum (fun i => a.get i * b.get i) a.size
  · simp only [VectorN.dot, if_neg h]

/-- Witness for C18 on vectors of different sizes: `[1,2,3] * [4,5] = 0`, and on equal
sizes the sum of products. -/
theorem VectorN_dot_witness :
    VectorN.dot (⟨[1, 2, 3]⟩ : VectorN ℤ) ⟨[4, 5]⟩ = 0 ∧
    VectorN.dot (⟨[1, 2, 3]⟩ : VectorN ℤ) ⟨[4, 5, 6]⟩
      = ∑ i in Finset.range (VectorN.size (⟨[1, 2, 3]⟩ : VectorN ℤ)),
          VectorN.get (⟨[1, 2, 3]⟩ : VectorN ℤ) i * VectorN.get (⟨[4, 5, 6]⟩ : VectorN ℤ) i :=
  ⟨(VectorN_dot (⟨[1, 2, 3]⟩ : VectorN ℤ) ⟨[4, 5]⟩).2.1 (by decide),
   (VectorN_dot (⟨[1, 2, 3]⟩ : VectorN ℤ) ⟨[4, 5, 6]⟩).1 (by decide)⟩

end VectorBasics

end TRS

namespace TRS

section VectorClaims

variable {T : Type}

theorem VectorN_get_map [Zero T] (v : VectorN T) (f : T → T) {i : Nat} (hi : i < v.size) :
    (⟨v.elems.map f⟩ : VectorN T).get i = f (v.get i) := by
  simp only [VectorN.size] at hi
  simp [VectorN.get, List.getD_eq_getElem?_getD, hi]

/-- The division loop of `Normalise()` with a non-zero `len` divides every element. -/
theorem VectorN_divide_loop [Field T] [DecidableEq T] (v : VectorN T) (len : T)
    (hlen : len ≠ 0) :
    forLoop (fun (v : VectorN T) i =>
        match checkedDiv (v.get i) len with
        | some q => (Loop.next (v.set i q) : Loop T (VectorN T))
        | none => Loop.divByZero) (List.range v.size) v
      = Loop.next ⟨v.elems.map (fun x => x / len)⟩ := by
  have key := forLoop_inv
    (fun p (R : VectorN T) => R.size = v.size ∧
      ∀ i, R.get i = if i < p then v.get i / len else v.get i)
    (fun (v : VectorN T) i =>
        match checkedDiv (v.get i) len with
        | some q => (Loop.next (v.set i q) : Loop T (VectorN T))
        | none => Loop.divByZero) (List.range v.size) v
    ⟨rfl, fun i => by simp⟩ ?_
  · simp only [List.length_range] at key
    obtain ⟨R, hrun, hsize, hget⟩ := key
    rw [hrun]
    congr 1
    apply VectorN_ext_of_get
    · rw [hsize]
      simp [VectorN.size]
    · intro i hi
      rw [hsize] at hi
      rw [hget i, if_pos hi, VectorN_get_map v _ hi]
  · intro p hp R ⟨hR, hget⟩
    simp only [List.length_range] at hp
    simp only [List.getElem_range, checkedDiv, if_neg hlen]
    refine ⟨_, rfl, by rw [VectorN_size_set]; exact hR, fun i => ?_⟩
    rw [VectorN_get_set R (by omega)]
    by_cases h : i = p
    · subst h
      rw [if_pos rfl, if_pos (Nat.lt_succ_self i), hget i, if_neg (Nat.lt_irrefl i)]
    · rw [if_neg h, hget i]
      by_cases h2 : i < p
      · rw [if_pos h2, if_pos (by omega)]
      · rw [if_neg h2, if_neg (by omega)]

theorem VectorN_Length_eq [Semiring T] (sqrtf : T → T) (v : VectorN T) :
    v.Length sqrtf = sqrtf (∑ i in Finset.range v.size, v.get i * v.get i) := by
  simp only [VectorN.Length]
  rw [foldl_range_eq_sum (fun i => v.get i * v.get i) v.size]

/-- C19. `Normalise()` leaves a vector whose `Length()` is 0 unchanged, executing no
division (one by `len = 0` would end the run), and divides every element of a vector whose
`Length()` is positive by it; over the reals `Length()` is never negative and is 0 exactly
when every element is zero. -/
theorem VectorN_Normalise [LinearOrderedField T] (sqrtf : T → T) (v : VectorN T) :
    (v.Length sqrtf = 0 → v.Normalise sqrtf = some v) ∧
    (0 < v.Length sqrtf →
      v.Normalise sqrtf = some ⟨v.elems.map (fun x => x / v.Length sqrtf)⟩) ∧
    (∀ u : VectorN ℝ, 0 ≤ u.Length Real.sqrt ∧
      (u.Length Real.sqrt = 0 ↔ ∀ x ∈ u.elems, x = 0)) := by
  refine ⟨fun h => ?_, fun h => ?_, fun u => ⟨?_, ?_⟩⟩
  · simp only [VectorN.Normalise, h, gt_iff_lt, lt_irrefl, if_false]
  · simp only [VectorN.Normalise, gt_iff_lt, if_pos h]
    rw [VectorN_divide_loop v _ (ne_of_gt h)]
  · rw [VectorN_Length_eq]
    exact Real.sqrt_nonneg _
  · rw [VectorN_Length_eq]
    have hnn : ∀ i ∈ Finset.range u.size, 0 ≤ u.get i * u.get i :=
      fun i _ => mul_self_nonneg _
    rw [Real.sqrt_eq_zero (Finset.sum_nonneg hnn), Finset.sum_eq_zero_iff_of_nonneg hnn]
    constructor
    · intro h x hx
      obtain ⟨i, hi, rfl⟩ := List.getElem_of_mem hx
      have := h i (Finset.mem_range.mpr hi)
      have hg : u.get i = u.elems[i] := by
        simp [VectorN.get, List.getD_eq_getElem?_getD, hi]
      rw [hg] at this
      exact mul_self_eq_zero.mp this
    · intro h i hi
      have hi' : i < u.elems.length := Finset.mem_range.mp hi
      have hg : u.get i = u.elems[i] := by
        simp [VectorN.get, List.getD_eq_getElem?_getD, hi']
      rw [hg, h _ (List.getElem_mem hi'), mul_zero]

/-- Witness for C19 over the reals: `[3,4]` has positive `Length()` and every element is
divided by it; `[0,0]` has `Length()` 0 and is left unchanged. -/
theorem VectorN_Normalise_witness :
    VectorN.Normalise Real.sqrt (⟨[3, 4]⟩ : VectorN ℝ)
      = some ⟨[3 / VectorN.Length Real.sqrt ⟨[3, 4]⟩, 4 / VectorN.Length Real.sqrt ⟨[3, 4]⟩]⟩ ∧
    VectorN.Normalise Real.sqrt (⟨[0, 0]⟩ : VectorN ℝ) = some ⟨[0, 0]⟩ :=
  ⟨(VectorN_Normalise Real.sqrt (⟨[3, 4]⟩ : VectorN ℝ)).2.1 (by
      rw [VectorN_Length_eq]
      apply Real.sqrt_pos.mpr
      simp [Finset.sum_range_succ, VectorN.get, VectorN.size]
      norm_num),
   (VectorN_Normalise Real.sqrt (⟨[0, 0]⟩ : VectorN ℝ)).1 (by
      rw [VectorN_Length_eq]
      simp [Finset.sum_range_succ, VectorN.get, VectorN.size])⟩

end VectorClaims

end TRS

namespace TRS

section MatrixVectorClaims

variable {T : Type}

/-- `operator*(const VectorN<T>&)` on a matrix of size `n`: the result has `n` elements and
element `i` is the sum of `self[i][j] * v1[j]` over `j < n`. -/
theorem MatrixN_mulVec_spec [Semiring T] {n : Nat} (A : MatrixN T) (v : VectorN T)
    (hA : A.size = n) :
    (A.mulVec v).size = n ∧
      ∀ i, i < n → (A.mulVec v).get i = ∑ j in Finset.range n, A.get i j * v.get j := by
  simp only [MatrixN.mulVec, hA]
  have key := foldl_inv
    (fun p (R : VectorN T) => R.size = n ∧
      (∀ i, i < p → R.get i = ∑ j in Finset.range n, A.get i j * v.get j) ∧
      (∀ i, p ≤ i → R.get i = 0))
    (fun result i =>
      (List.range n).foldl (fun result j =>
        result.set i (result.get i + A.get i j * v.get j)) result)
    (List.range n) (VectorN.new n)
    ⟨VectorN_size_new n, fun i hi => absurd hi (Nat.not_lt_zero _),
      fun i _ => VectorN_get_new n i⟩ ?_
  · simp only [List.length_range] at key
    exact ⟨key.1, key.2.1⟩
  · intro p hp R ⟨hR, hdone, hzero⟩
    simp only [List.length_range] at hp
    simp only [List.getElem_range]
    have inner := foldl_inv
      (fun q (S : VectorN T) => S.size = n ∧
        (∀ i, i ≠ p → S.get i = R.get i) ∧
        S.get p = ∑ j in Finset.range q, A.get p j * v.get j)
      (fun result j => result.set p (result.get p + A.get p j * v.get j))
      (List.range n) R ⟨hR, fun i _ => rfl, by
        rw [hzero p (Nat.le_refl p)]
        simp⟩ ?_
    · simp only [List.length_range] at inner
      obtain ⟨h1, h2, h3⟩ := inner
      refine ⟨h1, fun i hi => ?_, fun i hi => ?_⟩
      · rcases Nat.lt_succ_iff_lt_or_eq.mp hi with h | h
        · rw [h2 i (by omega)]
          exact hdone i h
        · subst h
          exact h3
      · rw [h2 i (by omega)]
        exact hzero i (by omega)
    · intro q hq S ⟨hS, hsame, hcell⟩
      simp only [List.length_range] at hq
      simp only [List.getElem_range]
      refine ⟨by rw [VectorN_size_set]; exact hS, fun i hi => ?_, ?_⟩
      · rw [VectorN_get_set S (by omega), if_neg hi]
        exact hsame i hi
      · rw [VectorN_get_set S (by omega), if_pos rfl, hcell, Finset.sum_range_succ]

/-- C20. For `n x n` matrices `A`, `B` and a vector `v` of length `n` over a commutative
ring, `(A * B)[i][j]` is the sum of `A[i][k] * B[k][j]` over `k < n`, `(A * v)[i]` is the sum
of `A[i][j] * v[j]` over `j < n`, and `MakeIdentity(n)` is a two-sided identity of the matrix
product and a left identity of the matrix-vector product. -/
theorem MatrixN_mul_mulVec [CommRing T] (n : Nat) (A B : MatrixN T) (v : VectorN T)
    (hn : 1 ≤ n) (hA : A.Square n) (hB : B.Square n) (hv : v.size = n) :
    (∀ i j, i < n → j < n →
      (A.mul B).get i j = ∑ k in Finset.range n, A.get i k * B.get k j) ∧
    (A.mul B).Square n ∧
    (∀ i, i < n → (A.mulVec v).get i = ∑ j in Finset.range n, A.get i j * v.get j) ∧
    (A.mulVec v).size = n ∧
    A.mul (MatrixN.MakeIdentity n) = A ∧
    (MatrixN.MakeIdentity n).mul A = A ∧
    (MatrixN.MakeIdentity n : MatrixN T).mulVec v = v := by
  have hI := @MatrixN_MakeIdentity_spec T _ _ n
  have hmul := MatrixN_mul_spec A B hA.1
  have hvec := MatrixN_mulVec_spec A v hA.1
  refine ⟨hmul.2, hmul.1, hvec.2, hvec.1, ?_, ?_, ?_⟩
  · apply MatrixN_eq_of_toMatrix (MatrixN_mul_spec A _ hA.1).1 hA
    rw [MatrixN_toMatrix_mul A _ hA.1, MatrixN_toMatrix_MakeIdentity (Nat.le_refl n),
      Matrix.mul_one]
  · apply MatrixN_eq_of_toMatrix (MatrixN_mul_spec _ A hI.1.1).1 hA
    rw [MatrixN_toMatrix_mul _ A hI.1.1, MatrixN_toMatrix_MakeIdentity (Nat.le_refl n),
      Matrix.one_mul]
  · have hIv := MatrixN_mulVec_spec (MatrixN.MakeIdentity n : MatrixN T) v hI.1.1
    apply VectorN_ext_of_get
    · rw [hIv.1, hv]
    · intro i hi
      rw [hIv.1] at hi
      rw [hIv.2 i hi]
      have : ∀ j ∈ Finset.range n,
          (MatrixN.MakeIdentity n : MatrixN T).get i j * v.get j
            = if i = j then v.get j else 0 := by
        intro j hj
        rw [hI.2 i j hi (Finset.mem_range.mp hj)]
        by_cases h : i = j <;> simp [h]
      rw [Finset.sum_congr rfl this, Finset.sum_ite_eq]
      simp [hi]

/-- Witness for C20 over the integers with `n = 2`: `A = [[1,2],[3,4]]`, `B = [[0,1],[1,0]]`
and `v = [5,6]`; `A * B = [[2,1],[4,3]]` and `A * v = [17,39]`. -/
theorem MatrixN_mul_mulVec_witness :
    MatrixN.mul (⟨[[1, 2], [3, 4]]⟩ : MatrixN ℤ) ⟨[[0, 1], [1, 0]]⟩ = ⟨[[2, 1], [4, 3]]⟩ ∧
    MatrixN.mulVec (⟨[[1, 2], [3, 4]]⟩ : MatrixN ℤ) ⟨[5, 6]⟩ = ⟨[17, 39]⟩ ∧
    MatrixN.mul (⟨[[1, 2], [3, 4]]⟩ : MatrixN ℤ) (MatrixN.MakeIdentity 2)
      = ⟨[[1, 2], [3, 4]]⟩ ∧
    MatrixN.mul (MatrixN.MakeIdentity 2) (⟨[[1, 2], [3, 4]]⟩ : MatrixN ℤ)
      = ⟨[[1, 2], [3, 4]]⟩ ∧
    MatrixN.mulVec (MatrixN.MakeIdentity 2 : MatrixN ℤ) ⟨[5, 6]⟩ = ⟨[5, 6]⟩ := by
  have h := MatrixN_mul_mulVec 2 (⟨[[1, 2], [3, 4]]⟩ : MatrixN ℤ) ⟨[[0, 1], [1, 0]]⟩
    ⟨[5, 6]⟩ (by decide) (by decide) (by decide) (by decide)
  exact ⟨by decide, by decide, h.2.2.2.2.1, h.2.2.2.2.2.1, h.2.2.2.2.2.2⟩

end MatrixVectorClaims

end TRS

namespace Libdas

section FixedArithmeticClaims

variable {T : Type}

/-- C22 (the code at a failing input). For `A = [[1,2],[3,4]]` and `B = [[10,20],[30,40]]`,
`Matrix2::operator+` returns `[[11,22],[33,42]]`: its entry `row2.second` is
`A.row1.second + B.row2.second = 2 + 40` and not `A.row2.second + B.row2.second = 4 + 40`.
This holds for all 2x2 matrices, while `Matrix3::operator+` and `Matrix4::operator+` are
entrywise sums. -/
theorem Matrix2_add_row2_second :
    Matrix2.add (⟨⟨1, 2⟩, ⟨3, 4⟩⟩ : Matrix2 ℤ) ⟨⟨10, 20⟩, ⟨30, 40⟩⟩ = ⟨⟨11, 22⟩, ⟨33, 42⟩⟩ ∧
    (Matrix2.add (⟨⟨1, 2⟩, ⟨3, 4⟩⟩ : Matrix2 ℤ) ⟨⟨10, 20⟩, ⟨30, 40⟩⟩).row2.second ≠ 4 + 40 ∧
    (∀ (R : Type) [Zero R] [One R] [Add R] (A B : Matrix2 R),
      Matrix2.add A B =
        ⟨⟨A.row1.first + B.row1.first, A.row1.second + B.row1.second⟩,
         ⟨A.row2.first + B.row2.first, A.row1.second + B.row2.second⟩⟩) ∧
    (∀ (R : Type) [Zero R] [One R] [Add R] (A B : Matrix3 R),
      Matrix3.add A B =
        ⟨⟨A.row1.first + B.row1.first, A.row1.second + B.row1.second,
          A.row1.third + B.row1.third⟩,
         ⟨A.row2.first + B.row2.first, A.row2.second + B.row2.second,
          A.row2.third + B.row2.third⟩,
         ⟨A.row3.first + B.row3.first, A.row3.second + B.row3.second,
          A.row3.third + B.row3.third⟩⟩) ∧
    (∀ (R : Type) [Zero R] [One R] [Add R] (A B : Matrix4 R),
      Matrix4.add A B =
        ⟨⟨A.row1.first + B.row1.first, A.row1.second + B.row1.second,
          A.row1.third + B.row1.third, A.row1.fourth + B.row1.fourth⟩,
         ⟨A.row2.first + B.row2.first, A.row2.second + B.row2.second,
          A.row2.third + B.row2.third, A.row2.fourth + B.row2.fourth⟩,
         ⟨A.row3.first + B.row3.first, A.row3.second + B.row3.second,
          A.row3.third + B.row3.third, A.row3.fourth + B.row3.fourth⟩,
         ⟨A.row4.first + B.row4.first, A.row4.second + B.row4.second,
          A.row4.third + B.row4.third, A.row4.fourth + B.row4.fourth⟩⟩) := by
  refine ⟨by decide, by decide, ?_, ?_, ?_⟩
  · intro R _ _ _ A B; rfl
  · intro R _ _ _ A B; rfl
  · intro R _ _ _ A B; rfl

/-- The 2x2 product is the sum over the inner index. -/
theorem Matrix2_mul_entry [CommRing T] (A B : Matrix2 T) (i j : Fin 2) :
    (Matrix2.mul A B).toMatrix i j = ∑ k : Fin 2, A.toMatrix i k * B.toMatrix k j := by
  fin_cases i <;> fin_cases j <;>
    simp [Matrix2.toMatrix, Matrix2.mul, Fin.sum_univ_succ]

/-- The 3x3 product is the sum over the inner index. -/
theorem Matrix3_mul_entry [CommRing T] (A B : Matrix3 T) (i j : Fin 3) :
    (Matrix3.mul A B).toMatrix i j = ∑ k : Fin 3, A.toMatrix i k * B.toMatrix k j := by
  fin_cases i <;> fin_cases j <;>
    simp [Matrix3.toMatrix, Matrix3.mul, Fin.sum_univ_succ] <;> ring

/-- The 4x4 product is the sum over the inner index. -/
theorem Matrix4_mul_entry [CommRing T] (A B : Matrix4 T) (i j : Fin 4) :
    (Matrix4.mul A B).toMatrix i j = ∑ k : Fin 4, A.toMatrix i k * B.toMatrix k j := by
  fin_cases i <;> fin_cases j <;>
    simp [Matrix4.toMatrix, Matrix4.mul, Fin.sum_univ_succ] <;> ring

/-- The default-constructed 2x2 matrix is neutral for the product on both sides. -/
theorem Matrix2_mul_new [CommRing T] (A : Matrix2 T) :
    Matrix2.mul A Matrix2.new = A ∧ Matrix2.mul Matrix2.new A = A := by
  obtain ⟨⟨a1, a2⟩, ⟨b1, b2⟩⟩ := A
  constructor <;> simp [Matrix2.mul, Matrix2.new]

/-- The default-constructed 3x3 matrix is neutral for the product on both sides. -/
theorem Matrix3_mul_new [CommRing T] (A : Matrix3 T) :
    Matrix3.mul A Matrix3.new = A ∧ Matrix3.mul Matrix3.new A = A := by
  obtain ⟨⟨a1, a2, a3⟩, ⟨b1, b2, b3⟩, ⟨c1, c2, c3⟩⟩ := A
  constructor <;> simp [Matrix3.mul, Matrix3.new]

/-- The default-constructed 4x4 matrix is neutral for the product on both sides. -/
theorem Matrix4_mul_new [CommRing T] (A : Matrix4 T) :
    Matrix4.mul A Matrix4.new = A ∧ Matrix4.mul Matrix4.new A = A := by
  obtain ⟨⟨a1, a2, a3, a4⟩, ⟨b1, b2, b3, b4⟩, ⟨c1, c2, c3, c4⟩, ⟨d1, d2, d3, d4⟩⟩ := A
  constructor <;> simp [Matrix4.mul, Matrix4.new]

/-- C23. For the arities 2, 3 and 4 over a commutative ring, entry `(i, j)` of `A * B` is the
sum over `k` of `A(i,k) * B(k,j)`, the dot product of row `i` of `A` with column `j` of `B`,
and the default-constructed (identity) matrix `I` satisfies `A * I = A` and `I * A = A`. -/
theorem fixed_mul_standard [CommRing T] :
    (∀ A B : Matrix2 T,
      (∀ i j : Fin 2,
        (Matrix2.mul A B).toMatrix i j = ∑ k : Fin 2, A.toMatrix i k * B.toMatrix k j) ∧
      Matrix2.mul A Matrix2.new = A ∧ Matrix2.mul Matrix2.new A = A) ∧
    (∀ A B : Matrix3 T,
      (∀ i j : Fin 3,
        (Matrix3.mul A B).toMatrix i j = ∑ k : Fin 3, A.toMatrix i k * B.toMatrix k j) ∧
      Matrix3.mul A Matrix3.new = A ∧ Matrix3.mul Matrix3.new A = A) ∧
    (∀ A B : Matrix4 T,
      (∀ i j : Fin 4,
        (Matrix4.mul A B).toMatrix i j = ∑ k : Fin 4, A.toMatrix i k * B.toMatrix k j) ∧
      Matrix4.mul A Matrix4.new = A ∧ Matrix4.mul Matrix4.new A = A) :=
  ⟨fun A B => ⟨Matrix2_mul_entry A B, Matrix2_mul_new A⟩,
   fun A B => ⟨Matrix3_mul_entry A B, Matrix3_mul_new A⟩,
   fun A B => ⟨Matrix4_mul_entry A B, Matrix4_mul_new A⟩⟩

/-- C24. For the arities 2 and 3 over a commutative ring, each field of `M * v` is the dot
product (`operator*` of two vectors) of the corresponding row of `M` with `v`, and the map
is linear: `M * (u + v) = M * u + M * v` and `M * (v * c) = (M * v) * c`. -/
theorem fixed_mulVec_linear [CommRing T] :
    (∀ (M : Matrix2 T) (u v : Vector2 T) (c : T),
      Matrix2.mulVec M v = ⟨Vector2.dot M.row1 v, Vector2.dot M.row2 v⟩ ∧
      Matrix2.mulVec M (Vector2.add u v)
        = Vector2.add (Matrix2.mulVec M u) (Matrix2.mulVec M v) ∧
      Matrix2.mulVec M (Vector2.mulScalar v c) = Vector2.mulScalar (Matrix2.mulVec M v) c) ∧
    (∀ (M : Matrix3 T) (u v : Vector3 T) (c : T),
      Matrix3.mulVec M v
        = ⟨Vector3.dot M.row1 v, Vector3.dot M.row2 v, Vector3.dot M.row3 v⟩ ∧
      Matrix3.mulVec M (Vector3.add u v)
        = Vector3.add (Matrix3.mulVec M u) (Matrix3.mulVec M v) ∧
      Matrix3.mulVec M (Vector3.mulScalar v c) = Vector3.mulScalar (Matrix3.mulVec M v) c) := by
  refine ⟨fun M u v c => ⟨?_, ?_, ?_⟩, fun M u v c => ⟨?_, ?_, ?_⟩⟩
  · simp only [Matrix2.mulVec, Vector2.dot, Vector2.mk.injEq]
    constructor <;> ring
  · simp only [Matrix2.mulVec, Vector2.add, Vector2.mk.injEq]
    constructor <;> ring
  · simp only [Matrix2.mulVec, Vector2.mulScalar, Vector2.mk.injEq]
    constructor <;> ring
  · simp only [Matrix3.mulVec, Vector3.dot]
  · simp only [Matrix3.mulVec, Vector3.add, Vector3.mk.injEq]
    refine ⟨?_, ?_, ?_⟩ <;> ring
  · simp only [Matrix3.mulVec, Vector3.mulScalar, Vector3.mk.injEq]
    refine ⟨?_, ?_, ?_⟩ <;> ring

/-- C25 (the code at a failing input). `Vector4::operator+` builds its result from three
values only, the sums of `first`, `second` and `third`; the fields `fourth` of the operands
are never read. So the result is the same for `(1,2,3,4) + (10,20,30,40)` and
`(1,2,3,5) + (10,20,30,40)`, whose four-field sums `(11,22,33,44)` and `(11,22,33,45)`
differ: whatever `Vector4` three values make, one of the two results is not the sum, and
when the missing field is zero-initialised the first result is `(11,22,33,0)`. -/
theorem Vector4_add_fourth :
    (∀ (R : Type) [Add R] (init3 : R → R → R → Vector4 R) (a b : Vector4 R) (x y : R),
      Vector4.add init3 a b
        = Vector4.add init3 ⟨a.first, a.second, a.third, x⟩ ⟨b.first, b.second, b.third, y⟩) ∧
    (∀ init3 : ℤ → ℤ → ℤ → Vector4 ℤ,
      Vector4.add init3 ⟨1, 2, 3, 4⟩ ⟨10, 20, 30, 40⟩ ≠ ⟨11, 22, 33, 44⟩ ∨
      Vector4.add init3 ⟨1, 2, 3, 5⟩ ⟨10, 20, 30, 40⟩ ≠ ⟨11, 22, 33, 45⟩) ∧
    Vector4.add (fun x y z => (⟨x, y, z, 0⟩ : Vector4 ℤ)) ⟨1, 2, 3, 4⟩ ⟨10, 20, 30, 40⟩
      = ⟨11, 22, 33, 0⟩ := by
  refine ⟨fun R _ init3 a b x y => rfl, fun init3 => ?_, by decide⟩
  by_cases h : Vector4.add init3 ⟨1, 2, 3, 4⟩ ⟨10, 20, 30, 40⟩ = ⟨11, 22, 33, 44⟩
  · right
    have h2 : Vector4.add init3 ⟨1, 2, 3, 5⟩ ⟨10, 20, 30, 40⟩
        = Vector4.add init3 ⟨1, 2, 3, 4⟩ ⟨10, 20, 30, 40⟩ := rfl
    rw [h2, h]
    decide
  · left
    exact h

/-- C26 (the code at a failing input). `Vector2::operator/` returns the scalar `_c`
converted to a vector, not the quotient `out`: the result does not depend on the vector.
So `(2,4) / 2` and `(4,8) / 2` give the same result, whatever the conversion is, and one of
them is not the fieldwise quotient `(1,2)`, `(2,4)`; `Vector3::operator/` and
`Vector4::operator/` return the fieldwise quotients. -/
theorem Vector2_div_returns_scalar :
    (∀ (R : Type) [Div R] (conv : R → Vector2 R) (v w : Vector2 R) (c : R),
      Vector2.div conv v c = Vector2.div conv w c) ∧
    (∀ conv : ℚ → Vector2 ℚ,
      Vector2.div conv ⟨2, 4⟩ 2 ≠ ⟨2 / 2, 4 / 2⟩ ∨
      Vector2.div conv ⟨4, 8⟩ 2 ≠ ⟨4 / 2, 8 / 2⟩) ∧
    (∀ (R : Type) [Div R] (v : Vector3 R) (c : R),
      Vector3.div v c = ⟨v.first / c, v.second / c, v.third / c⟩) ∧
    (∀ (R : Type) [Div R] (v : Vector4 R) (c : R),
      Vector4.div v c = ⟨v.first / c, v.second / c, v.third / c, v.fourth / c⟩) := by
  refine ⟨fun R _ conv v w c => rfl, fun conv => ?_, fun R _ v c => rfl, fun R _ v c => rfl⟩
  by_cases h : Vector2.div conv ⟨2, 4⟩ 2 = ⟨2 / 2, 4 / 2⟩
  · right
    have h2 : Vector2.div conv ⟨4, 8⟩ 2 = Vector2.div conv ⟨2, 4⟩ 2 := rfl
    rw [h2, h]
    norm_num
  · left
    exact h

/-- C27. `Vector4::Cross(a, b)` has as first three fields the fields of `Vector3::Cross` of
the first three fields of `a` and `b`, and 0 as fourth field, for every value of `a.fourth`
and `b.fourth`. -/
theorem Vector4_Cross_eq_Vector3_Cross [Zero T] [Sub T] [Mul T] (a b : Vector4 T) :
    Vector4.Cross a b =
      ⟨(Vector3.Cross ⟨a.first, a.second, a.third⟩ ⟨b.first, b.second, b.third⟩).first,
       (Vector3.Cross ⟨a.first, a.second, a.third⟩ ⟨b.first, b.second, b.third⟩).second,
       (Vector3.Cross ⟨a.first, a.second, a.third⟩ ⟨b.first, b.second, b.third⟩).third,
       0⟩ ∧
    ∀ x y : T,
      Vector4.Cross ⟨a.first, a.second, a.third, x⟩ ⟨b.first, b.second, b.third, y⟩
        = Vector4.Cross a b :=
  ⟨rfl, fun x y => rfl⟩

/-- C29 (the code at a failing input). For `A = [[1,2,3],[4,5,6],[7,8,9]]` and
`B = [[10,20,30],[40,50,60],[70,80,90]]`, `A += B` on `Matrix3` leaves
`[[11,22,33],[44,55,6],[77,88,99]]`: the entry `row2.third` keeps its old value 6 instead of
`6 + 60`, and so for all 3x3 matrices. `Matrix2::operator+=`, `Matrix4::operator+=` and the
three `operator-=` leave the entrywise sum and difference. -/
theorem Matrix3_addAssign_row2_third :
    Matrix3.addAssign (⟨⟨1, 2, 3⟩, ⟨4, 5, 6⟩, ⟨7, 8, 9⟩⟩ : Matrix3 ℤ)
        ⟨⟨10, 20, 30⟩, ⟨40, 50, 60⟩, ⟨70, 80, 90⟩⟩
      = ⟨⟨11, 22, 33⟩, ⟨44, 55, 6⟩, ⟨77, 88, 99⟩⟩ ∧
    (Matrix3.addAssign (⟨⟨1, 2, 3⟩, ⟨4, 5, 6⟩, ⟨7, 8, 9⟩⟩ : Matrix3 ℤ)
        ⟨⟨10, 20, 30⟩, ⟨40, 50, 60⟩, ⟨70, 80, 90⟩⟩).row2.third ≠ 6 + 60 ∧
    (∀ (R : Type) [Add R] (A B : Matrix3 R),
      Matrix3.addAssign A B =
        ⟨⟨A.row1.first + B.row1.first, A.row1.second + B.row1.second,
          A.row1.third + B.row1.third⟩,
         ⟨A.row2.first + B.row2.first, A.row2.second + B.row2.second, A.row2.third⟩,
         ⟨A.row3.first + B.row3.first, A.row3.second + B.row3.second,
          A.row3.third + B.row3.third⟩⟩) ∧
    (∀ (R : Type) [Add R] (A B : Matrix2 R),
      Matrix2.addAssign A B =
        ⟨⟨A.row1.first + B.row1.first, A.row1.second + B.row1.second⟩,
         ⟨A.row2.first + B.row2.first, A.row2.second + B.row2.second⟩⟩) ∧
    (∀ (R : Type) [Add R] (A B : Matrix4 R),
      Matrix4.addAssign A B =
        ⟨⟨A.row1.first + B.row1.first, A.row1.second + B.row1.second,
          A.row1.third + B.row1.third, A.row1.fourth + B.row1.fourth⟩,
         ⟨A.row2.first + B.row2.first, A.row2.second + B.row2.second,
          A.row2.third + B.row2.third, A.row2.fourth + B.row2.fourth⟩,
         ⟨A.row3.first + B.row3.first, A.row3.second + B.row3.second,
          A.row3.third + B.row3.third, A.row3.fourth + B.row3.fourth⟩,
         ⟨A.row4.first + B.row4.first, A.row4.second + B.row4.second,
          A.row4.third + B.row4.third, A.row4.fourth + B.row4.fourth⟩⟩) ∧
    (∀ (R : Type) [Sub R] (A B : Matrix2 R),
      Matrix2.subAssign A B =
        ⟨⟨A.row1.first - B.row1.first, A.row1.second - B.row1.second⟩,
         ⟨A.row2.first - B.row2.first, A.row2.second - B.row2.second⟩⟩) ∧
    (∀ (R : Type) [Sub R] (A B : Matrix3 R),
      Matrix3.subAssign A B =
        ⟨⟨A.row1.first - B.row1.first, A.row1.second - B.row1.second,
          A.row1.third - B.row1.third⟩,
         ⟨A.row2.first - B.row2.first, A.row2.second - B.row2.second,
          A.row2.third - B.row2.third⟩,
         ⟨A.row3.first - B.row3.first, A.row3.second - B.row3.second,
          A.row3.third - B.row3.third⟩⟩) ∧
    (∀ (R : Type) [Sub R] (A B : Matrix4 R),
      Matrix4.subAssign A B =
        ⟨⟨A.row1.first - B.row1.first, A.row1.second - B.row1.second,
          A.row1.third - B.row1.third, A.row1.fourth - B.row1.fourth⟩,
         ⟨A.row2.first - B.row2.first, A.row2.second - B.row2.second,
          A.row2.third - B.row2.third, A.row2.fourth - B.row2.fourth⟩,
         ⟨A.row3.first - B.row3.first, A.row3.second - B.row3.second,
          A.row3.third - B.row3.third, A.row3.fourth - B.row3.fourth⟩,
         ⟨A.row4.first - B.row4.first, A.row4.second - B.row4.second,
          A.row4.third - B.row4.third, A.row4.fourth - B.row4.fourth⟩⟩) := by
  refine ⟨by decide, by decide, ?_, ?_, ?_, ?_, ?_, ?_⟩ <;>
    (intro R _ A B; rfl)

/-- C30 (the code at a failing input). For `M = [[1,2],[3,4]]` and `c = 10`,
`Matrix2::operator+(const T&)` returns `[[13,14],[0,1]]` and not `[[11,12],[13,14]]`: the
second assignment overwrites `out.row1` with the sums of `row2`, and `out.row2` keeps the
row `(0, 1)` of the default-constructed matrix; so for all 2x2 matrices. `Matrix3` and
`Matrix4` add the constant to every entry. -/
theorem Matrix2_addConst_rows :
    Matrix2.addConst (⟨⟨1, 2⟩, ⟨3, 4⟩⟩ : Matrix2 ℤ) 10 = ⟨⟨13, 14⟩, ⟨0, 1⟩⟩ ∧
    Matrix2.addConst (⟨⟨1, 2⟩, ⟨3, 4⟩⟩ : Matrix2 ℤ) 10
      ≠ ⟨⟨1 + 10, 2 + 10⟩, ⟨3 + 10, 4 + 10⟩⟩ ∧
    (∀ (R : Type) [Zero R] [One R] [Add R] (M : Matrix2 R) (c : R),
      Matrix2.addConst M c = ⟨⟨M.row2.first + c, M.row2.second + c⟩, ⟨0, 1⟩⟩) ∧
    (∀ (R : Type) [Zero R] [One R] [Add R] (M : Matrix3 R) (c : R),
      Matrix3.addConst M c =
        ⟨⟨M.row1.first + c, M.row1.second + c, M.row1.third + c⟩,
         ⟨M.row2.first + c, M.row2.second + c, M.row2.third + c⟩,
         ⟨M.row3.first + c, M.row3.second + c, M.row3.third + c⟩⟩) ∧
    (∀ (R : Type) [Zero R] [One R] [Add R] (M : Matrix4 R) (c : R),
      Matrix4.addConst M c =
        ⟨⟨M.row1.first + c, M.row1.second + c, M.row1.third + c, M.row1.fourth + c⟩,
         ⟨M.row2.first + c, M.row2.second + c, M.row2.third + c, M.row2.fourth + c⟩,
         ⟨M.row3.first + c, M.row3.second + c, M.row3.third + c, M.row3.fourth + c⟩,
         ⟨M.row4.first + c, M.row4.second + c, M.row4.third + c, M.row4.fourth + c⟩⟩) := by
  refine ⟨by decide, by decide, ?_, ?_, ?_⟩ <;>
    (intro R _ _ _ M c; rfl)

end FixedArithmeticClaims

end Libdas

namespace TRS

section PointClaims

variable {T : Type}

/-- C28. For a numeric element type the default-constructed `Point4D` is `(0,0,0,1)`, and a
`Point3D` `(x,y,z)` promoted to `Point4D`, by the cast operator of `Point3D` or by the
constructor `Point4D(const Point3D&)`, is `(x,y,z,1)`; the two promotions agree. -/
theorem Point4D_promotion [Zero T] [One T] (pt : Point3D T) :
    (Point4D.new : Point4D T) = ⟨0, 0, 0, 1⟩ ∧
    Point3D.toPoint4D pt = ⟨pt.x, pt.y, pt.z, 1⟩ ∧
    Point4D.ofPoint3D pt = ⟨pt.x, pt.y, pt.z, 1⟩ ∧
    Point3D.toPoint4D pt = Point4D.ofPoint3D pt :=
  ⟨rfl, rfl, rfl, rfl⟩

end PointClaims

end TRS

namespace Libdas

section IteratorClaims

/-- A size whose square is a `size_t` value is below `2 ^ 32`. -/
theorem size_lt_of_sq_lt (n : Nat) (hfit : n * n < SIZE_RANGE) : n < 2 ^ 32 := by
  by_contra h
  have h1 : 2 ^ 32 ≤ n := Nat.le_of_not_lt h
  have h2 : 2 ^ 32 * 2 ^ 32 ≤ n * n := Nat.mul_le_mul h1 h1
  have h3 : SIZE_RANGE = 2 ^ 32 * 2 ^ 32 := by norm_num [SIZE_RANGE]
  omega

/-- With `r` and `c` below `n`, the index `r * n + c` advanced by `n` is a `size_t` value. -/
theorem index_add_lt (n r c : Nat) (hfit : n * n < SIZE_RANGE) (hr : r < n) (hc : c < n) :
    r * n + c + n < SIZE_RANGE := by
  have hn : n < 2 ^ 32 := size_lt_of_sq_lt n hfit
  have h1 : (r + 1) * n ≤ n * n := Nat.mul_le_mul_right n hr
  have h2 : n * n ≤ (2 ^ 32 - 1) * (2 ^ 32 - 1) :=
    Nat.mul_le_mul (by omega) (by omega)
  have h3 : (r + 1) * n = r * n + n := by ring
  have h4 : SIZE_RANGE = 2 ^ 64 := rfl
  have h5 : (2 ^ 32 - 1) * (2 ^ 32 - 1) + 2 ^ 32 < 2 ^ 64 := by norm_num
  omega

/-- One column-major `operator++` from row `r`, column `c` of an `n x n` matrix at `p`: the
cursor goes one row down; from the last row it goes to the top of the next column; from the
last cell it goes to `p + n * n`. -/
theorem MatrixIterator_inc_column (n r c : Nat) (p : Int) (hfit : n * n < SIZE_RANGE)
    (hr : r < n) (hc : c < n) :
    MatrixIterator.inc ⟨n, false, r * n + c, p + ((r * n + c : Nat) : Int)⟩ =
      if r + 1 < n then
        some ⟨n, false, (r + 1) * n + c, p + (((r + 1) * n + c : Nat) : Int)⟩
      else if c + 1 < n then some ⟨n, false, c + 1, p + ((c + 1 : Nat) : Int)⟩
      else some ⟨n, false, c + 1, p + ((n * n : Nat) : Int)⟩ := by
  have hn0 : n ≠ 0 := by omega
  have hnpos : 0 < n := by omega
  have hb : r * n + c + n < SIZE_RANGE := index_add_lt n r c hfit hr hc
  have hR : SIZE_RANGE = 2 ^ 64 := rfl
  have hadd : sizeAdd (r * n + c) n = r * n + c + n := Nat.mod_eq_of_lt hb
  have hdiv : (r * n + c + n) / n = r + 1 := by
    have h : r * n + c + n = c + (r + 1) * n := by ring
    rw [h, Nat.add_mul_div_right _ _ hnpos, Nat.div_eq_of_lt hc, Nat.zero_add]
  have hsub : sizeSub (r * n + c + n) n = r * n + c := by
    have h1 : n % SIZE_RANGE = n := Nat.mod_eq_of_lt (by omega)
    have h2 : r * n + c + n + (SIZE_RANGE - n) = r * n + c + SIZE_RANGE := by omega
    simp only [sizeSub, h1, h2, Nat.add_mod_right]
    exact Nat.mod_eq_of_lt (by omega)
  have hmod : (r * n + c) % n = c := by
    have h : r * n + c = c + r * n := by ring
    rw [h, Nat.add_mul_mod_self_right, Nat.mod_eq_of_lt hc]
  have hadd1 : sizeAdd c 1 = c + 1 := Nat.mod_eq_of_lt (by omega)
  have hmul : sizeMul n n = n * n := Nat.mod_eq_of_lt hfit
  simp only [MatrixIterator.inc, Bool.false_eq_true, if_false, hadd, hn0, hdiv, ge_iff_le]
  by_cases h1 : r + 1 < n
  · rw [if_neg (by omega), if_pos h1]
    congr 2
    · ring
    · push_cast; ring
  · rw [if_pos (by omega), if_neg h1]
    simp only [hsub, hmod, hadd1, hmul]
    by_cases h2 : c + 1 < n
    · rw [if_neg (by omega), if_pos h2]
      congr 2
      push_cast; ring
    · rw [if_pos (by omega), if_neg h2]
      congr 2
      push_cast; ring

/-- State of the column-major iterator after `k < n * n` steps. -/
theorem MatrixIterator_incTimes_column (n : Nat) (p : Int) (hfit : n * n < SIZE_RANGE) :
    ∀ k, k < n * n →
      MatrixIterator.incTimes k (MatrixIterator.new p n false) =
        some ⟨n, false, (k % n) * n + k / n, p + (((k % n) * n + k / n : Nat) : Int)⟩ := by
  intro k
  induction k with
  | zero =>
    intro _
    simp [MatrixIterator.incTimes, MatrixIterator.new]
  | succ k ih =>
    intro hk
    have hnpos : 0 < n := by
      rcases Nat.eq_zero_or_pos n with h | h
      · subst h; simp at hk
      · exact h
    have hr : k % n < n := Nat.mod_lt _ hnpos
    have hc : k / n < n := Nat.div_lt_of_lt_mul (by omega)
    have hdm : n * (k / n) + k % n = k := Nat.div_add_mod k n
    rw [MatrixIterator.incTimes, ih (by omega), Option.some_bind,
      MatrixIterator_inc_column n (k % n) (k / n) p hfit hr hc]
    by_cases h1 : k % n + 1 < n
    · have hk1 : k + 1 = n * (k / n) + (k % n + 1) := by omega
      have hm : (k + 1) % n = k % n + 1 := by
        rw [hk1, Nat.mul_add_mod, Nat.mod_eq_of_lt h1]
      have hd : (k + 1) / n = k / n := by
        rw [hk1, Nat.mul_add_div hnpos, Nat.div_eq_of_lt h1, Nat.add_zero]
      rw [if_pos h1, hm, hd]
    · have hk1 : k + 1 = n * (k / n + 1) := by
        have : k % n + 1 = n := by omega
        rw [Nat.mul_add, Nat.mul_one]
        omega
      have hm : (k + 1) % n = 0 := by rw [hk1, Nat.mul_mod_right]
      have hd : (k + 1) / n = k / n + 1 := by rw [hk1, Nat.mul_div_cancel_left _ hnpos]
      have h2 : k / n + 1 < n := by
        by_contra h
        have h3 : n ≤ k / n + 1 := Nat.le_of_not_lt h
        have h4 : n * n ≤ n * (k / n + 1) := Nat.mul_le_mul_left n h3
        omega
      rw [if_neg h1, if_pos h2, hm, hd, Nat.zero_mul, Nat.zero_add]

/-- State of the column-major iterator after `n * n` steps. -/
theorem MatrixIterator_incTimes_end (n : Nat) (p : Int) (hn : 1 ≤ n)
    (hfit : n * n < SIZE_RANGE) :
    MatrixIterator.incTimes (n * n) (MatrixIterator.new p n false) =
      some ⟨n, false, n, p + ((n * n : Nat) : Int)⟩ := by
  obtain ⟨m, rfl⟩ : ∃ m, n = m + 1 := ⟨n - 1, by omega⟩
  have hk : (m + 1) * (m + 1) = ((m + 1) * m + m) + 1 := by ring
  have hlt : (m + 1) * m + m < (m + 1) * (m + 1) := by omega
  have hm : ((m + 1) * m + m) % (m + 1) = m := by
    rw [Nat.mul_add_mod, Nat.mod_eq_of_lt (by omega)]
  have hd : ((m + 1) * m + m) / (m + 1) = m := by
    rw [Nat.mul_add_div (by omega), Nat.div_eq_of_lt (by omega), Nat.add_zero]
  have h := MatrixIterator_incTimes_column (m + 1) p hfit _ hlt
  rw [hm, hd] at h
  have hs := MatrixIterator_inc_column (m + 1) m m p hfit (by omega) (by omega)
  rw [if_neg (by omega), if_neg (by omega)] at hs
  conv_lhs => rw [hk]
  rw [MatrixIterator.incTimes, h, Option.some_bind, hs]

/-- The column-major offset `(k mod n) * n + (k div n)` stays inside the `n * n` cells. -/
theorem column_offset_lt (n k : Nat) (hk : k < n * n) : (k % n) * n + k / n < n * n := by
  have hnpos : 0 < n := by
    rcases Nat.eq_zero_or_pos n with h | h
    · subst h; simp at hk
    · exact h
  have hr : k % n < n := Nat.mod_lt _ hnpos
  have hc : k / n < n := Nat.div_lt_of_lt_mul (by omega)
  have h1 : (k % n + 1) * n ≤ n * n := Nat.mul_le_mul_right n hr
  have h2 : (k % n + 1) * n = k % n * n + n := by ring
  omega

/-- The column-major offset determines the step number. -/
theorem column_offset_inj (n k j : Nat) (hk : k < n * n) (hj : j < n * n)
    (h : (k % n) * n + k / n = (j % n) * n + j / n) : k = j := by
  have hnpos : 0 < n := by
    rcases Nat.eq_zero_or_pos n with h | h
    · subst h; simp at hk
    · exact h
  have hck : k / n < n := Nat.div_lt_of_lt_mul (by omega)
  have hcj : j / n < n := Nat.div_lt_of_lt_mul (by omega)
  have hdiv : ∀ r c, c < n → (r * n + c) / n = r := by
    intro r c hc
    have h : r * n + c = c + r * n := by ring
    rw [h, Nat.add_mul_div_right _ _ hnpos, Nat.div_eq_of_lt hc, Nat.zero_add]
  have hmod : ∀ r c, c < n → (r * n + c) % n = c := by
    intro r c hc
    have h : r * n + c = c + r * n := by ring
    rw [h, Nat.add_mul_mod_self_right, Nat.mod_eq_of_lt hc]
  have h1 : k % n = j % n := by
    have := congrArg (fun x => x / n) h
    simpa only [hdiv _ _ hck, hdiv _ _ hcj] using this
  have h2 : k / n = j / n := by
    have := congrArg (fun x => x % n) h
    simpa only [hmod _ _ hck, hmod _ _ hcj] using this
  rw [← Nat.div_add_mod k n, ← Nat.div_add_mod j n, h1, h2]

/-- C21. For a matrix size `n >= 1` whose `n * n` cells are counted by a `size_t`, the
column-major iterator created at address `p` with index 0 points after `k < n * n`
applications of `operator++` at `p + (k mod n) * n + (k div n)`, a cell of the matrix that
differs from the end cursor `p + n * n`; distinct `k` give distinct cells; after `n * n`
applications it points at `p + n * n` and equals the end cursor. `EndColumnMajor()` of
`Matrix2`, `Matrix3` and `Matrix4` is that cursor `p + n * n` for `n = 2, 3, 4`. -/
theorem MatrixIterator_column_major (n : Nat) (p : Int) (hn : 1 ≤ n)
    (hfit : n * n < SIZE_RANGE) :
    (∀ k, k < n * n →
      ∃ it, MatrixIterator.incTimes k (MatrixIterator.new p n false) = some it ∧
        it.m_data = p + (((k % n) * n + k / n : Nat) : Int) ∧
        (k % n) * n + k / n < n * n ∧
        MatrixIterator.eq it (MatrixIterator.new (p + ((n * n : Nat) : Int)) n false) = false ∧
        MatrixIterator.ne it (MatrixIterator.new (p + ((n * n : Nat) : Int)) n false) = true) ∧
    (∀ k j, k < n * n → j < n * n →
      (k % n) * n + k / n = (j % n) * n + j / n → k = j) ∧
    (∃ it, MatrixIterator.incTimes (n * n) (MatrixIterator.new p n false) = some it ∧
        it.m_data = p + ((n * n : Nat) : Int) ∧
        MatrixIterator.eq it (MatrixIterator.new (p + ((n * n : Nat) : Int)) n false) = true ∧
        MatrixIterator.ne it (MatrixIterator.new (p + ((n * n : Nat) : Int)) n false) = false) ∧
    (Matrix2.BeginColumnMajor p = MatrixIterator.new p 2 false ∧
      Matrix2.EndColumnMajor p = MatrixIterator.new (p + ((2 * 2 : Nat) : Int)) 2 false) ∧
    (Matrix3.BeginColumnMajor p = MatrixIterator.new p 3 false ∧
      Matrix3.EndColumnMajor p = MatrixIterator.new (p + ((3 * 3 : Nat) : Int)) 3 false) ∧
    (Matrix4.BeginColumnMajor p = MatrixIterator.new p 4 false ∧
      Matrix4.EndColumnMajor p = MatrixIterator.new (p + ((4 * 4 : Nat) : Int)) 4 false) := by
  refine ⟨fun k hk => ?_, fun k j hk hj h => column_offset_inj n k j hk hj h, ?_, ?_, ?_, ?_⟩
  · have hlt := column_offset_lt n k hk
    have hne : p + (((k % n) * n + k / n : Nat) : Int) ≠ p + ((n * n : Nat) : Int) := by
      intro h
      have h2 : (((k % n) * n + k / n : Nat) : Int) = ((n * n : Nat) : Int) := by linarith
      have h3 := Int.ofNat.inj h2
      omega
    refine ⟨_, MatrixIterator_incTimes_column n p hfit k hk, rfl, hlt, ?_, ?_⟩
    · simp only [MatrixIterator.eq, MatrixIterator.new, beq_eq_false_iff_ne, ne_eq]
      exact hne
    · simp only [MatrixIterator.ne, MatrixIterator.new, bne_iff_ne, ne_eq]
      exact hne
  · refine ⟨_, MatrixIterator_incTimes_end n p hn hfit, rfl, ?_, ?_⟩
    · simp [MatrixIterator.eq, MatrixIterator.new]
    · simp [MatrixIterator.ne, MatrixIterator.new]
  · constructor
    · rfl
    · simp only [Matrix2.EndColumnMajor, MatrixIterator.new, MatrixIterator.mk.injEq, true_and]
      norm_num
      ring
  · constructor
    · rfl
    · simp only [Matrix3.EndColumnMajor, MatrixIterator.new, MatrixIterator.mk.injEq, true_and]
      norm_num
      ring
  · constructor
    · rfl
    · simp only [Matrix4.EndColumnMajor, MatrixIterator.new, MatrixIterator.mk.injEq, true_and]
      norm_num
      ring

/-- Witness for C21 with `n = 2` and `p = 100`: the cursor visits 100, 102, 101, 103 and
then stands at the end cursor 104 of `Matrix2`. -/
theorem MatrixIterator_column_major_witness :
    MatrixIterator.incTimes 0 (Matrix2.BeginColumnMajor 100) = some ⟨2, false, 0, 100⟩ ∧
    MatrixIterator.incTimes 1 (Matrix2.BeginColumnMajor 100) = some ⟨2, false, 2, 102⟩ ∧
    MatrixIterator.incTimes 2 (Matrix2.BeginColumnMajor 100) = some ⟨2, false, 1, 101⟩ ∧
    MatrixIterator.incTimes 3 (Matrix2.BeginColumnMajor 100) = some ⟨2, false, 3, 103⟩ ∧
    MatrixIterator.incTimes 4 (Matrix2.BeginColumnMajor 100) = some ⟨2, false, 2, 104⟩ ∧
    Matrix2.EndColumnMajor 100 = MatrixIterator.new 104 2 false ∧
    (∃ it, MatrixIterator.incTimes (2 * 2) (MatrixIterator.new 100 2 false) = some it ∧
        it.m_data = 100 + ((2 * 2 : Nat) : Int) ∧
        MatrixIterator.eq it (MatrixIterator.new (100 + ((2 * 2 : Nat) : Int)) 2 false) = true ∧
        MatrixIterator.ne it (MatrixIterator.new (100 + ((2 * 2 : Nat) : Int)) 2 false)
          = false) :=
  ⟨by decide, by decide, by decide, by decide, by decide, by decide,
    (MatrixIterator_column_major 2 100 (by decide) (by norm_num [SIZE_RANGE])).2.2.1⟩

end IteratorClaims

end Libdas

namespace Libdas

section ComparisonClaims

variable {T : Type}

/-- `Vector2::operator==` decides equality of the two fields. -/
theorem Vector2_eq_decide [DecidableEq T] (u v : Vector2 T) : u.eq v = decide (u = v) := by
  obtain ⟨a1, a2⟩ := u
  obtain ⟨b1, b2⟩ := v
  rw [Bool.eq_iff_iff]
  simp [Vector2.eq]

/-- `Vector3::operator==` decides equality of the three fields and `operator!=` negates it. -/
theorem Vector3_eq_decide [DecidableEq T] (u v : Vector3 T) :
    u.eq v = decide (u = v) ∧ u.ne v = !(u.eq v) := by
  obtain ⟨a1, a2, a3⟩ := u
  obtain ⟨b1, b2, b3⟩ := v
  constructor
  · rw [Bool.eq_iff_iff]
    simp [Vector3.eq, and_assoc]
  · simp only [Vector3.eq, Vector3.ne, bne, Bool.not_and]

/-- `Vector4::operator==` decides equality of the four fields and `operator!=` negates it. -/
theorem Vector4_eq_decide [DecidableEq T] (u v : Vector4 T) :
    u.eq v = decide (u = v) ∧ u.ne v = !(u.eq v) := by
  obtain ⟨a1, a2, a3, a4⟩ := u
  obtain ⟨b1, b2, b3, b4⟩ := v
  constructor
  · rw [Bool.eq_iff_iff]
    simp [Vector4.eq, and_assoc]
  · simp only [Vector4.eq, Vector4.ne, bne, Bool.not_and]

/-- `Matrix2::operator==` decides equality of the matrices. -/
theorem Matrix2_eq_decide [DecidableEq T] (A B : Matrix2 T) : A.eq B = decide (A = B) := by
  obtain ⟨a1, a2⟩ := A
  obtain ⟨b1, b2⟩ := B
  rw [Bool.eq_iff_iff]
  simp [Matrix2.eq, Vector2_eq_decide]

/-- `Matrix3::operator==` decides equality and `operator!=` negates it. -/
theorem Matrix3_eq_decide [DecidableEq T] (A B : Matrix3 T) :
    A.eq B = decide (A = B) ∧ A.ne B = !(A.eq B) := by
  obtain ⟨a1, a2, a3⟩ := A
  obtain ⟨b1, b2, b3⟩ := B
  constructor
  · rw [Bool.eq_iff_iff]
    simp [Matrix3.eq, (Vector3_eq_decide _ _).1, and_assoc]
  · simp only [Matrix3.eq, Matrix3.ne, (Vector3_eq_decide _ _).2, Bool.not_and]

/-- `Matrix4::operator==` decides equality and `operator!=` negates it. -/
theorem Matrix4_eq_decide [DecidableEq T] (A B : Matrix4 T) :
    A.eq B = decide (A = B) ∧ A.ne B = !(A.eq B) := by
  obtain ⟨a1, a2, a3, a4⟩ := A
  obtain ⟨b1, b2, b3, b4⟩ := B
  constructor
  · rw [Bool.eq_iff_iff]
    simp [Matrix4.eq, (Vector4_eq_decide _ _).1, and_assoc]
  · simp only [Matrix4.eq, Matrix4.ne, (Vector4_eq_decide _ _).2, Bool.not_and]

/-- C31 (the code at a failing input). `Matrix2::operator!=` compares `row2` with
`_mat.row1`, so its value does not depend on `_mat.row2`: for `A = [[1,2],[3,4]]` it gives
the same answer against `A` itself and against `[[1,2],[9,9]]`, of which only the second
differs from `A`. With the negation of `Vector2::operator==` as the missing `Vector2`
operator, `A != A` is true, and `[[1,2],[1,2]] != [[1,2],[5,6]]` is false. `operator==` of
the three arities decides equality of all entries, and `operator!=` of `Matrix3` and
`Matrix4` is its negation. -/
theorem Matrix2_ne_second_row :
    (∀ (R : Type) (vne : Vector2 R → Vector2 R → Bool) (A B : Matrix2 R) (x : Vector2 R),
      Matrix2.ne vne A B = Matrix2.ne vne A ⟨B.row1, x⟩) ∧
    (∀ vne : Vector2 ℤ → Vector2 ℤ → Bool,
      Matrix2.ne vne ⟨⟨1, 2⟩, ⟨3, 4⟩⟩ ⟨⟨1, 2⟩, ⟨3, 4⟩⟩
          ≠ !(Matrix2.eq (⟨⟨1, 2⟩, ⟨3, 4⟩⟩ : Matrix2 ℤ) ⟨⟨1, 2⟩, ⟨3, 4⟩⟩) ∨
      Matrix2.ne vne ⟨⟨1, 2⟩, ⟨3, 4⟩⟩ ⟨⟨1, 2⟩, ⟨9, 9⟩⟩
          ≠ !(Matrix2.eq (⟨⟨1, 2⟩, ⟨3, 4⟩⟩ : Matrix2 ℤ) ⟨⟨1, 2⟩, ⟨9, 9⟩⟩)) ∧
    (Matrix2.eq (⟨⟨1, 2⟩, ⟨3, 4⟩⟩ : Matrix2 ℤ) ⟨⟨1, 2⟩, ⟨3, 4⟩⟩ = true ∧
      Matrix2.ne (fun u v => !(Vector2.eq u v)) (⟨⟨1, 2⟩, ⟨3, 4⟩⟩ : Matrix2 ℤ)
        ⟨⟨1, 2⟩, ⟨3, 4⟩⟩ = true) ∧
    (Matrix2.eq (⟨⟨1, 2⟩, ⟨1, 2⟩⟩ : Matrix2 ℤ) ⟨⟨1, 2⟩, ⟨5, 6⟩⟩ = false ∧
      Matrix2.ne (fun u v => !(Vector2.eq u v)) (⟨⟨1, 2⟩, ⟨1, 2⟩⟩ : Matrix2 ℤ)
        ⟨⟨1, 2⟩, ⟨5, 6⟩⟩ = false) ∧
    (∀ (R : Type) [DecidableEq R] (A B : Matrix2 R), Matrix2.eq A B = decide (A = B)) ∧
    (∀ (R : Type) [DecidableEq R] (A B : Matrix3 R),
      Matrix3.eq A B = decide (A = B) ∧ Matrix3.ne A B = !(Matrix3.eq A B)) ∧
    (∀ (R : Type) [DecidableEq R] (A B : Matrix4 R),
      Matrix4.eq A B = decide (A = B) ∧ Matrix4.ne A B = !(Matrix4.eq A B)) := by
  refine ⟨fun R vne A B x => rfl, fun vne => ?_, ⟨by decide, by decide⟩,
    ⟨by decide, by decide⟩, fun R _ A B => Matrix2_eq_decide A B,
    fun R _ A B => Matrix3_eq_decide A B, fun R _ A B => Matrix4_eq_decide A B⟩
  have h1 : Matrix2.eq (⟨⟨1, 2⟩, ⟨3, 4⟩⟩ : Matrix2 ℤ) ⟨⟨1, 2⟩, ⟨3, 4⟩⟩ = true := by decide
  have h2 : Matrix2.eq (⟨⟨1, 2⟩, ⟨3, 4⟩⟩ : Matrix2 ℤ) ⟨⟨1, 2⟩, ⟨9, 9⟩⟩ = false := by decide
  have h3 : Matrix2.ne vne ⟨⟨1, 2⟩, ⟨3, 4⟩⟩ ⟨⟨1, 2⟩, ⟨9, 9⟩⟩
      = Matrix2.ne vne ⟨⟨1, 2⟩, ⟨3, 4⟩⟩ ⟨⟨1, 2⟩, ⟨3, 4⟩⟩ := rfl
  rw [h1, h2, h3]
  cases Matrix2.ne vne ⟨⟨1, 2⟩, ⟨3, 4⟩⟩ ⟨⟨1, 2⟩, ⟨3, 4⟩⟩
  · right; decide
  · left; decide

/-- C34. `Matrix2::Inverse()` returns `[[2,3],[2,2]]` for every 2x2 matrix: the result is
read from the columns 2 and 3 of the two augmented rows, which start as `(1,0)` and `(0,1)`
and which the loop updates with fixed coefficients; in particular the result on `M` is the
result on the default-constructed matrix. -/
theorem Matrix2_Inverse_constant [Ring T] (M : Matrix2 T) :
    Matrix2.Inverse M = ⟨⟨2, 3⟩, ⟨2, 2⟩⟩ ∧
    Matrix2.Inverse M = Matrix2.Inverse (Matrix2.new : Matrix2 T) ∧
    Matrix2.Inverse (⟨⟨5, 7⟩, ⟨11, 13⟩⟩ : Matrix2 ℤ) = ⟨⟨2, 3⟩, ⟨2, 2⟩⟩ := by
  have h : ∀ N : Matrix2 T, Matrix2.Inverse N = ⟨⟨2, 3⟩, ⟨2, 2⟩⟩ := by
    intro N
    simp only [Matrix2.Inverse, Matrix2.InverseStep, List.range, List.range.loop, List.foldl,
      List.set, List.getD_cons_zero, List.getD_cons_succ, Matrix2.mk.injEq, Vector2.mk.injEq]
    refine ⟨⟨?_, ?_⟩, ⟨?_, ?_⟩⟩ <;> norm_num
  exact ⟨h M, by rw [h M, h Matrix2.new], by decide⟩

/-- C36 as stated fails when the operand is the object itself. For the object `A` at address
0 with value `[[2,0],[0,2]]`, the call `A *= A` leaves `[[4,0],[0,4]]` in `A`, which is the
value of the binary `A * A`; the operand of the call is that same object, and it no longer
holds `[[2,0],[0,2]]`. -/
theorem fixed_mulAssign_aliased_counterexample :
    Matrix2.mulAssignAt (fun _ => (⟨⟨2, 0⟩, ⟨0, 2⟩⟩ : Matrix2 ℤ)) 0 0 0
      = Matrix2.mul ⟨⟨2, 0⟩, ⟨0, 2⟩⟩ ⟨⟨2, 0⟩, ⟨0, 2⟩⟩ ∧
    Matrix2.mulAssignAt (fun _ => (⟨⟨2, 0⟩, ⟨0, 2⟩⟩ : Matrix2 ℤ)) 0 0 0 = ⟨⟨4, 0⟩, ⟨0, 4⟩⟩ ∧
    Matrix2.mulAssignAt (fun _ => (⟨⟨2, 0⟩, ⟨0, 2⟩⟩ : Matrix2 ℤ)) 0 0 0 ≠ ⟨⟨2, 0⟩, ⟨0, 2⟩⟩ ∧
    ¬ (Matrix2.mulAssignAt (fun _ => (⟨⟨2, 0⟩, ⟨0, 2⟩⟩ : Matrix2 ℤ)) 0 0 0
          = Matrix2.mul ⟨⟨2, 0⟩, ⟨0, 2⟩⟩ ⟨⟨2, 0⟩, ⟨0, 2⟩⟩ ∧
        Matrix2.mulAssignAt (fun _ => (⟨⟨2, 0⟩, ⟨0, 2⟩⟩ : Matrix2 ℤ)) 0 0 0
          = (fun _ => (⟨⟨2, 0⟩, ⟨0, 2⟩⟩ : Matrix2 ℤ)) 0) := by
  have h : Matrix2.mulAssignAt (fun _ => (⟨⟨2, 0⟩, ⟨0, 2⟩⟩ : Matrix2 ℤ)) 0 0 0
      = ⟨⟨4, 0⟩, ⟨0, 4⟩⟩ := by
    simp only [Matrix2.mulAssignAt, Function.update_same]
    decide
  refine ⟨?_, h, ?_, ?_⟩
  · rw [h]; decide
  · rw [h]; decide
  · rw [h]
    rintro ⟨_, h2⟩
    exact absurd h2 (by decide)

/-- C36, amended. For the arities 2, 3 and 4, objects `A` at address `a` and `B` at address
`b` in any store: after the in-place `A *= B` the object at `a` holds the value that the
binary `A * B` returns on the values before the call, also when `b = a`; when `B` is an
object other than `A` it is unchanged; and every object other than `A` is unchanged. -/
theorem fixed_mulAssign_store [Zero T] [One T] [Add T] [Mul T] :
    (∀ (s : Int → Matrix2 T) (a b : Int),
      Matrix2.mulAssignAt s a b a = Matrix2.mul (s a) (s b) ∧
      (b ≠ a → Matrix2.mulAssignAt s a b b = s b) ∧
      (∀ c, c ≠ a → Matrix2.mulAssignAt s a b c = s c)) ∧
    (∀ (s : Int → Matrix3 T) (a b : Int),
      Matrix3.mulAssignAt s a b a = Matrix3.mul (s a) (s b) ∧
      (b ≠ a → Matrix3.mulAssignAt s a b b = s b) ∧
      (∀ c, c ≠ a → Matrix3.mulAssignAt s a b c = s c)) ∧
    (∀ (s : Int → Matrix4 T) (a b : Int),
      Matrix4.mulAssignAt s a b a = Matrix4.mul (s a) (s b) ∧
      (b ≠ a → Matrix4.mulAssignAt s a b b = s b) ∧
      (∀ c, c ≠ a → Matrix4.mulAssignAt s a b c = s c)) := by
  refine ⟨fun s a b => ⟨?_, fun h => ?_, fun c h => ?_⟩,
    fun s a b => ⟨?_, fun h => ?_, fun c h => ?_⟩,
    fun s a b => ⟨?_, fun h => ?_, fun c h => ?_⟩⟩
  · simp only [Matrix2.mulAssignAt, Function.update_same]
    rfl
  · simp only [Matrix2.mulAssignAt, Function.update_noteq h]
  · simp only [Matrix2.mulAssignAt, Function.update_noteq h]
  · simp only [Matrix3.mulAssignAt, Function.update_same]
    rfl
  · simp only [Matrix3.mulAssignAt, Function.update_noteq h]
  · simp only [Matrix3.mulAssignAt, Function.update_noteq h]
  · simp only [Matrix4.mulAssignAt, Function.update_same]
    rfl
  · simp only [Matrix4.mulAssignAt, Function.update_noteq h]
  · simp only [Matrix4.mulAssignAt, Function.update_noteq h]

/-- Witness for C36 over the integers: `A = [[1,2],[3,4]]` at address 0 and
`B = [[0,1],[1,0]]` at address 1; after `A *= B` the object at 0 holds `[[2,1],[4,3]]` and
the object at 1 still holds `[[0,1],[1,0]]`. -/
theorem fixed_mulAssign_store_witness :
    (1 : Int) ≠ 0 ∧
    Matrix2.mulAssignAt
        (fun c => if c = 0 then (⟨⟨1, 2⟩, ⟨3, 4⟩⟩ : Matrix2 ℤ) else ⟨⟨0, 1⟩, ⟨1, 0⟩⟩) 0 1 0
      = ⟨⟨2, 1⟩, ⟨4, 3⟩⟩ ∧
    Matrix2.mulAssignAt
        (fun c => if c = 0 then (⟨⟨1, 2⟩, ⟨3, 4⟩⟩ : Matrix2 ℤ) else ⟨⟨0, 1⟩, ⟨1, 0⟩⟩) 0 1 1
      = ⟨⟨0, 1⟩, ⟨1, 0⟩⟩ := by
  have h := (@fixed_mulAssign_store ℤ _ _ _ _).1
    (fun c => if c = 0 then (⟨⟨1, 2⟩, ⟨3, 4⟩⟩ : Matrix2 ℤ) else ⟨⟨0, 1⟩, ⟨1, 0⟩⟩) 0 1
  refine ⟨by decide, ?_, ?_⟩
  · rw [h.1]
    decide
  · rw [h.2.1 (by decide)]
    decide

end ComparisonClaims

end Libdas

namespace TRS

section DeterminantNonsingular

/-- C35. The matrix `[[0,1],[1,0]]` over the rationals is square with determinant -1, so it
is non-singular; its first pivot `upper[0][0]` is 0 and `Determinant()` returns 0. -/
theorem MatrixN_Determinant_nonsingular_zero :
    (⟨[[0, 1], [1, 0]]⟩ : MatrixN ℚ).Square 2 ∧
    Matrix.det (MatrixN.toMatrix 2 (⟨[[0, 1], [1, 0]]⟩ : MatrixN ℚ)) = -1 ∧
    Matrix.det (MatrixN.toMatrix 2 (⟨[[0, 1], [1, 0]]⟩ : MatrixN ℚ)) ≠ 0 ∧
    (MatrixN.detUpper ⟨[[0, 1], [1, 0]]⟩ 0 (MatrixN.new 2) (MatrixN.new 2)
      : MatrixN ℚ).get 0 0 = 0 ∧
    MatrixN.Determinant (⟨[[0, 1], [1, 0]]⟩ : MatrixN ℚ) = some 0 := by
  have hdet : Matrix.det (MatrixN.toMatrix 2 (⟨[[0, 1], [1, 0]]⟩ : MatrixN ℚ)) = -1 := by
    simp [MatrixN.toMatrix, MatrixN.get, Matrix.det_fin_two]
  refine ⟨by decide, hdet, ?_, ?_, ?_⟩
  · rw [hdet]; norm_num
  · simp [MatrixN.detUpper, rowColSum, MatrixN.size, MatrixN.new, MatrixN.get, MatrixN.set,
      List.range, List.range.loop, List.range', List.replicate]
  · simp [MatrixN.Determinant, MatrixN.detFactor, MatrixN.detUpper, MatrixN.detLower,
      forLoop, rowColSum, MatrixN.size, MatrixN.new, MatrixN.get, MatrixN.set, checkedDiv,
      List.range, List.range.loop, List.range']

end DeterminantNonsingular

section PointComparisonClaims

variable {T : Type}

/-- C39 (the code at a failing input). For `a = (0,0,0,1)` and `b = (0,0,0,2)`, which differ
only in `w`, `a == b` is false and `a != b` is false too: `Point4D::operator!=` compares
`x`, `y` and `z` and not `w`, so it is the negation of `operator==` only for points with
equal `w`. `Point3D::operator!=` is the negation of `Point3D::operator==`. -/
theorem Point4D_ne_ignores_w :
    Point4D.eq (⟨0, 0, 0, 1⟩ : Point4D ℤ) ⟨0, 0, 0, 2⟩ = false ∧
    Point4D.ne (⟨0, 0, 0, 1⟩ : Point4D ℤ) ⟨0, 0, 0, 2⟩ = false ∧
    Point4D.ne (⟨0, 0, 0, 1⟩ : Point4D ℤ) ⟨0, 0, 0, 2⟩
      ≠ !(Point4D.eq (⟨0, 0, 0, 1⟩ : Point4D ℤ) ⟨0, 0, 0, 2⟩) ∧
    (∀ (R : Type) [DecidableEq R] (a b : Point4D R) (w1 w2 : R),
      Point4D.ne a b = Point4D.ne ⟨a.x, a.y, a.z, w1⟩ ⟨b.x, b.y, b.z, w2⟩) ∧
    (∀ (R : Type) [DecidableEq R] (a b : Point4D R),
      Point4D.eq a b = decide (a = b) ∧
      Point4D.ne a b = !(Point4D.eq ⟨a.x, a.y, a.z, b.w⟩ b)) ∧
    (∀ (R : Type) [DecidableEq R] (a b : Point3D R),
      Point3D.eq a b = decide (a = b) ∧ Point3D.ne a b = !(Point3D.eq a b)) := by
  refine ⟨by decide, by decide, by decide, fun R _ a b w1 w2 => rfl, fun R _ a b => ?_,
    fun R _ a b => ?_⟩
  · obtain ⟨a1, a2, a3, a4⟩ := a
    obtain ⟨b1, b2, b3, b4⟩ := b
    constructor
    · rw [Bool.eq_iff_iff]
      simp [Point4D.eq, and_assoc]
    · simp [Point4D.eq, Point4D.ne, bne, Bool.not_and]
  · obtain ⟨a1, a2, a3⟩ := a
    obtain ⟨b1, b2, b3⟩ := b
    constructor
    · rw [Bool.eq_iff_iff]
      simp [Point3D.eq, and_assoc]
    · simp only [Point3D.eq, Point3D.ne, bne, Bool.not_and]

end PointComparisonClaims

end TRS

namespace Libdas

section RealClaims

variable {T : Type}

/-- The square of `Magnitude()` over the reals is the sum of the squares of the fields. -/
theorem Quaternion_Magnitude_pow_two (q : Quaternion ℝ) :
    (q.Magnitude Real.sqrt) ^ 2 = q.x ^ 2 + q.y ^ 2 + q.z ^ 2 + q.w ^ 2 := by
  rw [Quaternion_Magnitude_sq, Real.sq_sqrt (by positivity)]

/-- The sum of the squares of the fields of `p * q` is the product of the two sums (the
four-square identity). -/
theorem Quaternion_mul_norm [CommRing T] (p q : Quaternion T) :
    (p.mul q).x ^ 2 + (p.mul q).y ^ 2 + (p.mul q).z ^ 2 + (p.mul q).w ^ 2
      = (p.x ^ 2 + p.y ^ 2 + p.z ^ 2 + p.w ^ 2) * (q.x ^ 2 + q.y ^ 2 + q.z ^ 2 + q.w ^ 2) := by
  simp only [Quaternion.mul, FastCross_lanes, FastDot_lanes, _mm_set_ps1, _mm_set_ps,
    _mm_mul_ps, _mm_add_ps, _mm_storeu_ps]
  ring

/-- C32. Over the reals the squared magnitude is multiplicative under `operator*`,
`|p * q|^2 = |p|^2 * |q|^2` for all quaternions, and the product of two quaternions of
magnitude 1 has magnitude 1. -/
theorem Quaternion_mul_Magnitude (p q : Quaternion ℝ) :
    ((p.mul q).Magnitude Real.sqrt) ^ 2
      = (p.Magnitude Real.sqrt) ^ 2 * (q.Magnitude Real.sqrt) ^ 2 ∧
    (p.Magnitude Real.sqrt = 1 → q.Magnitude Real.sqrt = 1 →
      (p.mul q).Magnitude Real.sqrt = 1) := by
  have hmul : ((p.mul q).Magnitude Real.sqrt) ^ 2
      = (p.Magnitude Real.sqrt) ^ 2 * (q.Magnitude Real.sqrt) ^ 2 := by
    rw [Quaternion_Magnitude_pow_two, Quaternion_Magnitude_pow_two,
      Quaternion_Magnitude_pow_two, Quaternion_mul_norm]
  refine ⟨hmul, fun hp hq => ?_⟩
  rw [hp, hq] at hmul
  have h0 : 0 ≤ (p.mul q).Magnitude Real.sqrt := by
    rw [Quaternion_Magnitude_sq]
    exact Real.sqrt_nonneg _
  nlinarith

/-- Witness for C32: `(0, 3/5, 4/5, 0)` and `(1, 0, 0, 0)` have magnitude 1 and so has their
product. -/
theorem Quaternion_mul_Magnitude_witness :
    Quaternion.Magnitude Real.sqrt (⟨0, 3 / 5, 4 / 5, 0⟩ : Quaternion ℝ) = 1 ∧
    Quaternion.Magnitude Real.sqrt (⟨1, 0, 0, 0⟩ : Quaternion ℝ) = 1 ∧
    (Quaternion.mul (⟨0, 3 / 5, 4 / 5, 0⟩ : Quaternion ℝ) ⟨1, 0, 0, 0⟩).Magnitude Real.sqrt
      = 1 := by
  have hp : Quaternion.Magnitude Real.sqrt (⟨0, 3 / 5, 4 / 5, 0⟩ : Quaternion ℝ) = 1 := by
    rw [Quaternion_Magnitude_sq]
    norm_num
  have hq : Quaternion.Magnitude Real.sqrt (⟨1, 0, 0, 0⟩ : Quaternion ℝ) = 1 := by
    rw [Quaternion_Magnitude_sq]
    norm_num
  exact ⟨hp, hq, (Quaternion_mul_Magnitude _ _).2 hp hq⟩

/-- C33. Over the reals, for a `Vector3` whose `Magnitude()` is not zero, `Normalise()`
divides by no zero, every field afterwards is its old value divided by the old magnitude,
and the magnitude afterwards is 1. -/
theorem Vector3_Normalise (v : Vector3 ℝ) (h : v.Magnitude Real.sqrt ≠ 0) :
    ∃ u, v.Normalise Real.sqrt = some u ∧
      u.first = v.first / v.Magnitude Real.sqrt ∧
      u.second = v.second / v.Magnitude Real.sqrt ∧
      u.third = v.third / v.Magnitude Real.sqrt ∧
      u.Magnitude Real.sqrt = 1 := by
  refine ⟨⟨v.first / v.Magnitude Real.sqrt, v.second / v.Magnitude Real.sqrt,
    v.third / v.Magnitude Real.sqrt⟩, ?_, rfl, rfl, rfl, ?_⟩
  · simp only [Vector3.Normalise, TRS.checkedDiv, if_neg h]
  · obtain ⟨a, b, c⟩ := v
    simp only [Vector3.Magnitude] at h ⊢
    have hs : 0 ≤ a * a + b * b + c * c :=
      add_nonneg (add_nonneg (mul_self_nonneg a) (mul_self_nonneg b)) (mul_self_nonneg c)
    have hm : Real.sqrt (a * a + b * b + c * c) * Real.sqrt (a * a + b * b + c * c)
        = a * a + b * b + c * c := Real.mul_self_sqrt hs
    have hne : a * a + b * b + c * c ≠ 0 := by
      intro h0
      rw [h0, Real.sqrt_zero] at h
      exact h rfl
    have h1 : a / Real.sqrt (a * a + b * b + c * c) * (a / Real.sqrt (a * a + b * b + c * c))
        + b / Real.sqrt (a * a + b * b + c * c) * (b / Real.sqrt (a * a + b * b + c * c))
        + c / Real.sqrt (a * a + b * b + c * c) * (c / Real.sqrt (a * a + b * b + c * c))
        = 1 := by
      rw [div_mul_div_comm, div_mul_div_comm, div_mul_div_comm, hm, ← add_div, ← add_div,
        div_self hne]
    rw [h1, Real.sqrt_one]

/-- Witness for C33: `(3, 4, 0)` has magnitude 5 and is normalised to a vector of
magnitude 1 with first field `3 / 5`. -/
theorem Vector3_Normalise_witness :
    Vector3.Magnitude Real.sqrt (⟨3, 4, 0⟩ : Vector3 ℝ) = 5 ∧
    ∃ u, Vector3.Normalise Real.sqrt (⟨3, 4, 0⟩ : Vector3 ℝ) = some u ∧
      u.first = 3 / 5 ∧ u.second = 4 / 5 ∧ u.third = 0 ∧ u.Magnitude Real.sqrt = 1 := by
  have hm : Vector3.Magnitude Real.sqrt (⟨3, 4, 0⟩ : Vector3 ℝ) = 5 := by
    simp only [Vector3.Magnitude]
    have h : (3 : ℝ) * 3 + 4 * 4 + 0 * 0 = 5 ^ 2 := by norm_num
    rw [h, Real.sqrt_sq (by norm_num)]
  obtain ⟨u, hu, h1, h2, h3, h4⟩ :=
    Vector3_Normalise (⟨3, 4, 0⟩ : Vector3 ℝ) (by rw [hm]; norm_num)
  rw [hm] at h1 h2 h3
  exact ⟨hm, u, hu, h1, h2, by rw [h3]; norm_num, h4⟩

/-- C38. For a quaternion `q` of magnitude 1 over the reals and a `Vector4` `v` with
`v.fourth = 0`, the sandwich `q * v`, computed as `q * (v.first, v.second, v.third, 0) *
q.Inverse()`, is the vector `q.ExpandToMatrix4() * v`. -/
theorem Quaternion_mulVec_eq_matrix (q : Quaternion ℝ) (v : Vector4 ℝ)
    (hq : q.Magnitude Real.sqrt = 1) (hv : v.fourth = 0) :
    q.mulVec Real.sqrt v = q.ExpandToMatrix4.mulVec v := by
  have hs : q.x ^ 2 + q.y ^ 2 + q.z ^ 2 + q.w ^ 2 = 1 := by
    rw [← Quaternion_Magnitude_pow_two, hq, one_pow]
  obtain ⟨x, y, z, w⟩ := q
  obtain ⟨a, b, c, d⟩ := v
  simp only at hv hs
  subst hv
  simp only [Quaternion.mulVec, Quaternion.Inverse, hq]
  simp only [Quaternion.mul, Quaternion.div, Quaternion.Conjugate, FastCross_lanes,
    FastDot_lanes, _mm_set_ps1, _mm_set_ps, _mm_mul_ps, _mm_add_ps, _mm_storeu_ps,
    Quaternion.ExpandToMatrix4, Matrix4.mulVec, Vector4.mk.injEq]
  refine ⟨?_, ?_, ?_, ?_⟩
  · linear_combination a * hs
  · linear_combination b * hs
  · linear_combination c * hs
  · ring

/-- Witness for C38: the quaternion `(0, 3/5, 4/5, 0)` of magnitude 1 and the vector
`(1, 2, 3, 0)`. -/
theorem Quaternion_mulVec_eq_matrix_witness :
    Quaternion.Magnitude Real.sqrt (⟨0, 3 / 5, 4 / 5, 0⟩ : Quaternion ℝ) = 1 ∧
    Quaternion.mulVec Real.sqrt (⟨0, 3 / 5, 4 / 5, 0⟩ : Quaternion ℝ) ⟨1, 2, 3, 0⟩
      = (Quaternion.ExpandToMatrix4 (⟨0, 3 / 5, 4 / 5, 0⟩ : Quaternion ℝ)).mulVec
          ⟨1, 2, 3, 0⟩ := by
  have hp : Quaternion.Magnitude Real.sqrt (⟨0, 3 / 5, 4 / 5, 0⟩ : Quaternion ℝ) = 1 := by
    rw [Quaternion_Magnitude_sq]
    norm_num
  exact ⟨hp, Quaternion_mulVec_eq_matrix _ _ hp rfl⟩

end RealClaims

end Libdas

namespace Libdas

section TraversalClaims

variable {T : Type}

/-- Reading a cell of an object at its own address. -/
theorem cellsAt_add (cells : List T) (p : Int) (d : T) (j : Nat) (hj : j < cells.length) :
    cellsAt cells p (p + (j : Int)) = some (cells.getD j d) := by
  have h1 : p ≤ p + (j : Int) := by omega
  have h2 : (p + (j : Int) - p).toNat = j := by
    rw [add_sub_cancel_left, Int.toNat_ofNat]
  simp only [cellsAt, if_pos h1, h2, List.getD_eq_getElem?_getD, List.getElem?_eq_getElem hj,
    Option.getD_some]

/-- One more pass of fuel does not change the values read by a loop that ended. -/
theorem traverse_succ (mem : Int → Option T) (last : MatrixIterator) :
    ∀ (fuel : Nat) (it : MatrixIterator) (l : List T),
      MatrixIterator.traverse mem fuel it last = some l →
      MatrixIterator.traverse mem (fuel + 1) it last = some l := by
  intro fuel
  induction fuel with
  | zero =>
    intro it l h
    simp only [MatrixIterator.traverse] at h
    exact Option.noConfusion h
  | succ fuel ih =>
    intro it l h
    rw [MatrixIterator.traverse] at h ⊢
    by_cases hne : it.ne last = true
    · rw [if_pos hne] at h ⊢
      cases hd : it.deref mem with
      | none => rw [hd] at h; exact Option.noConfusion h
      | some v =>
        cases hi : it.inc with
        | none => rw [hd, hi] at h; exact Option.noConfusion h
        | some next =>
          rw [hd, hi] at h
          simp only at h ⊢
          cases hr : MatrixIterator.traverse mem fuel next last with
          | none => rw [hr] at h; exact Option.noConfusion h
          | some vs =>
            rw [hr] at h
            rw [ih next vs hr]
            exact h
    · rw [if_neg hne] at h ⊢
      exact h

/-- Any larger fuel gives the values read by a loop that ended. -/
theorem traverse_add (mem : Int → Option T) (last : MatrixIterator) (fuel : Nat)
    (it : MatrixIterator) (l : List T)
    (h : MatrixIterator.traverse mem fuel it last = some l) (extra : Nat) :
    MatrixIterator.traverse mem (fuel + extra) it last = some l := by
  induction extra with
  | zero => exact h
  | succ e ih => exact traverse_succ mem last (fuel + e) it l ih

/-- The column-major loop from the state after `k` steps: it reads the cells at the offsets
`(j mod n) * n + (j div n)` for `j = k, ..., n * n - 1` and ends. -/
theorem traverse_column (n : Nat) (p : Int) (hn : 1 ≤ n) (hfit : n * n < SIZE_RANGE)
    (mem : Int → Option T) (cell : Nat → T)
    (hmem : ∀ j, j < n * n → mem (p + (j : Int)) = some (cell j)) :
    ∀ (m k : Nat), k + m = n * n → ∀ it,
      MatrixIterator.incTimes k (MatrixIterator.new p n false) = some it →
      MatrixIterator.traverse mem (m + 1) it
          (MatrixIterator.new (p + ((n * n : Nat) : Int)) n false)
        = some ((List.range' k m).map (fun j => cell ((j % n) * n + j / n))) := by
  intro m
  induction m with
  | zero =>
    intro k hk it hit
    have hk2 : k = n * n := by omega
    subst hk2
    rw [MatrixIterator_incTimes_end n p hn hfit] at hit
    have hit2 := Option.some.inj hit
    subst hit2
    simp [MatrixIterator.traverse, MatrixIterator.ne, MatrixIterator.new]
  | succ m ih =>
    intro k hk it hit
    have hklt : k < n * n := by omega
    rw [MatrixIterator_incTimes_column n p hfit k hklt] at hit
    have hit2 := Option.some.inj hit
    have hoff := column_offset_lt n k hklt
    have hne : it.ne (MatrixIterator.new (p + ((n * n : Nat) : Int)) n false) = true := by
      rw [← hit2]
      simp only [MatrixIterator.ne, MatrixIterator.new, bne_iff_ne, ne_eq]
      intro h
      have h2 : (((k % n) * n + k / n : Nat) : Int) = ((n * n : Nat) : Int) := by linarith
      have h3 := Int.ofNat.inj h2
      omega
    have hd : it.deref mem = some (cell ((k % n) * n + k / n)) := by
      rw [← hit2]
      exact hmem _ hoff
    have hstep : MatrixIterator.incTimes (k + 1) (MatrixIterator.new p n false) = it.inc := by
      rw [MatrixIterator.incTimes, MatrixIterator_incTimes_column n p hfit k hklt, hit2,
        Option.some_bind]
    have hex : ∃ next, MatrixIterator.incTimes (k + 1) (MatrixIterator.new p n false)
        = some next := by
      by_cases h1 : k + 1 < n * n
      · exact ⟨_, MatrixIterator_incTimes_column n p hfit (k + 1) h1⟩
      · have h2 : k + 1 = n * n := by omega
        rw [h2]
        exact ⟨_, MatrixIterator_incTimes_end n p hn hfit⟩
    obtain ⟨next, hnext⟩ := hex
    have hi : it.inc = some next := by rw [← hstep, hnext]
    rw [MatrixIterator.traverse, if_pos hne, hd, hi]
    simp only
    rw [ih (k + 1) (by omega) next hnext]
    rfl

/-- The row-major loop from the cursor `p + k` to the cursor `p + count`: it reads the
cells at the offsets `k, ..., count - 1` and ends. -/
theorem traverse_row (n count : Nat) (p : Int) (mem : Int → Option T) (cell : Nat → T)
    (hmem : ∀ j, j < count → mem (p + (j : Int)) = some (cell j)) :
    ∀ (m k : Nat), k + m = count → ∀ idx,
      MatrixIterator.traverse mem (m + 1) ⟨n, true, idx, p + (k : Int)⟩
          (MatrixIterator.new (p + (count : Int)) n true)
        = some ((List.range' k m).map cell) := by
  intro m
  induction m with
  | zero =>
    intro k hk idx
    have hk2 : k = count := by omega
    subst hk2
    simp [MatrixIterator.traverse, MatrixIterator.ne, MatrixIterator.new]
  | succ m ih =>
    intro k hk idx
    have hklt : k < count := by omega
    have hne : MatrixIterator.ne ⟨n, true, idx, p + (k : Int)⟩
        (MatrixIterator.new (p + (count : Int)) n true) = true := by
      simp only [MatrixIterator.ne, MatrixIterator.new, bne_iff_ne, ne_eq]
      omega
    have hd : MatrixIterator.deref mem ⟨n, true, idx, p + (k : Int)⟩ = some (cell k) :=
      hmem k hklt
    have hi : MatrixIterator.inc ⟨n, true, idx, p + (k : Int)⟩
        = some ⟨n, true, idx, p + ((k + 1 : Nat) : Int)⟩ := by
      simp only [MatrixIterator.inc, if_true, Option.some.injEq, MatrixIterator.mk.injEq,
        true_and]
      push_cast
      ring
    rw [MatrixIterator.traverse, if_pos hne, hd, hi]
    simp only
    rw [ih (k + 1) (by omega) idx]
    rfl

/-- The column-major loop over a `Matrix2` at `p`. -/
theorem Matrix2_traverse_column (M : Matrix2 T) (p : Int) (extra : Nat) :
    MatrixIterator.traverse (cellsAt M.cells p) (4 + 1 + extra)
        (Matrix2.BeginColumnMajor p) (Matrix2.EndColumnMajor p)
      = some [M.row1.first, M.row2.first, M.row1.second, M.row2.second] := by
  have hend : Matrix2.EndColumnMajor p
      = MatrixIterator.new (p + ((2 * 2 : Nat) : Int)) 2 false := by
    simp only [Matrix2.EndColumnMajor, MatrixIterator.new, MatrixIterator.mk.injEq, true_and]
    norm_num
    ring
  rw [hend]
  apply traverse_add
  exact traverse_column 2 p (by decide) (by norm_num [SIZE_RANGE]) _
    (fun j => M.cells.getD j M.row1.first)
    (fun j hj => cellsAt_add M.cells p M.row1.first j hj) 4 0 rfl _ rfl

/-- The row-major loop over a `Matrix2` at `p`. -/
theorem Matrix2_traverse_row (M : Matrix2 T) (p : Int) (extra : Nat) :
    MatrixIterator.traverse (cellsAt M.cells p) (4 + 1 + extra)
        (Matrix2.BeginRowMajor p) (Matrix2.EndRowMajor p)
      = some M.cells := by
  have hend : Matrix2.EndRowMajor p = MatrixIterator.new (p + ((4 : Nat) : Int)) 2 true := by
    simp only [Matrix2.EndRowMajor, MatrixIterator.new, MatrixIterator.mk.injEq, true_and]
    norm_num
    ring
  have hbegin : Matrix2.BeginRowMajor p = ⟨2, true, 0, p + ((0 : Nat) : Int)⟩ := by
    simp [Matrix2.BeginRowMajor, MatrixIterator.new]
  rw [hend, hbegin]
  apply traverse_add
  exact traverse_row 2 4 p _ (fun j => M.cells.getD j M.row1.first)
    (fun j hj => cellsAt_add M.cells p M.row1.first j hj) 4 0 rfl 0

/-- The column-major loop over a `Matrix3` at `p`. -/
theorem Matrix3_traverse_column (M : Matrix3 T) (p : Int) (extra : Nat) :
    MatrixIterator.traverse (cellsAt M.cells p) (9 + 1 + extra)
        (Matrix3.BeginColumnMajor p) (Matrix3.EndColumnMajor p)
      = some [M.row1.first, M.row2.first, M.row3.first,
              M.row1.second, M.row2.second, M.row3.second,
              M.row1.third, M.row2.third, M.row3.third] := by
  have hend : Matrix3.EndColumnMajor p
      = MatrixIterator.new (p + ((3 * 3 : Nat) : Int)) 3 false := by
    simp only [Matrix3.EndColumnMajor, MatrixIterator.new, MatrixIterator.mk.injEq, true_and]
    norm_num
    ring
  rw [hend]
  apply traverse_add
  exact traverse_column 3 p (by decide) (by norm_num [SIZE_RANGE]) _
    (fun j => M.cells.getD j M.row1.first)
    (fun j hj => cellsAt_add M.cells p M.row1.first j hj) 9 0 rfl _ rfl

/-- The row-major loop over a `Matrix3` at `p`. -/
theorem Matrix3_traverse_row (M : Matrix3 T) (p : Int) (extra : Nat) :
    MatrixIterator.traverse (cellsAt M.cells p) (9 + 1 + extra)
        (Matrix3.BeginRowMajor p) (Matrix3.EndRowMajor p)
      = some M.cells := by
  have hend : Matrix3.EndRowMajor p = MatrixIterator.new (p + ((9 : Nat) : Int)) 3 true := by
    simp only [Matrix3.EndRowMajor, MatrixIterator.new, MatrixIterator.mk.injEq, true_and]
    norm_num
    ring
  have hbegin : Matrix3.BeginRowMajor p = ⟨3, true, 0, p + ((0 : Nat) : Int)⟩ := by
    simp [Matrix3.BeginRowMajor, MatrixIterator.new]
  rw [hend, hbegin]
  apply traverse_add
  exact traverse_row 3 9 p _ (fun j => M.cells.getD j M.row1.first)
    (fun j hj => cellsAt_add M.cells p M.row1.first j hj) 9 0 rfl 0

/-- The column-major loop over a `Matrix4` at `p`. -/
theorem Matrix4_traverse_column (M : Matrix4 T) (p : Int) (extra : Nat) :
    MatrixIterator.traverse (cellsAt M.cells p) (16 + 1 + extra)
        (Matrix4.BeginColumnMajor p) (Matrix4.EndColumnMajor p)
      = some [M.row1.first, M.row2.first, M.row3.first, M.row4.first,
              M.row1.second, M.row2.second, M.row3.second, M.row4.second,
              M.row1.third, M.row2.third, M.row3.third, M.row4.third,
              M.row1.fourth, M.row2.fourth, M.row3.fourth, M.row4.fourth] := by
  have hend : Matrix4.EndColumnMajor p
      = MatrixIterator.new (p + ((4 * 4 : Nat) : Int)) 4 false := by
    simp only [Matrix4.EndColumnMajor, MatrixIterator.new, MatrixIterator.mk.injEq, true_and]
    norm_num
    ring
  rw [hend]
  apply traverse_add
  exact traverse_column 4 p (by decide) (by norm_num [SIZE_RANGE]) _
    (fun j => M.cells.getD j M.row1.first)
    (fun j hj => cellsAt_add M.cells p M.row1.first j hj) 16 0 rfl _ rfl

/-- The row-major loop over a `Matrix4` at `p`. -/
theorem Matrix4_traverse_row (M : Matrix4 T) (p : Int) (extra : Nat) :
    MatrixIterator.traverse (cellsAt M.cells p) (16 + 1 + extra)
        (Matrix4.BeginRowMajor p) (Matrix4.EndRowMajor p)
      = some M.cells := by
  have hend : Matrix4.EndRowMajor p = MatrixIterator.new (p + ((16 : Nat) : Int)) 4 true := by
    simp only [Matrix4.EndRowMajor, MatrixIterator.new, MatrixIterator.mk.injEq, true_and]
    norm_num
    ring
  have hbegin : Matrix4.BeginRowMajor p = ⟨4, true, 0, p + ((0 : Nat) : Int)⟩ := by
    simp [Matrix4.BeginRowMajor, MatrixIterator.new]
  rw [hend, hbegin]
  apply traverse_add
  exact traverse_row 4 16 p _ (fun j => M.cells.getD j M.row1.first)
    (fun j hj => cellsAt_add M.cells p M.row1.first j hj) 16 0 rfl 0

/-- The cells of a matrix in column-major order are a permutation of its cells. -/
theorem column_cells_perm (n : Nat) (cells : List T) (d : T)
    (h : List.Perm ((List.range' 0 (n * n)).map (fun j => (j % n) * n + j / n))
      (List.range' 0 (n * n))) (hlen : cells.length = n * n) :
    List.Perm ((List.range' 0 (n * n)).map (fun j => cells.getD ((j % n) * n + j / n) d))
      cells := by
  have h1 : (List.range' 0 (n * n)).map (fun j => cells.getD ((j % n) * n + j / n) d)
      = ((List.range' 0 (n * n)).map (fun j => (j % n) * n + j / n)).map
          (fun i => cells.getD i d) := by
    rw [List.map_map]
    rfl
  have h2 : (List.range' 0 (n * n)).map (fun i => cells.getD i d) = cells := by
    apply List.ext_getElem
    · simp [hlen]
    · intro i hi1 hi2
      simp only [List.getElem_map, List.getElem_range', List.getD_eq_getElem?_getD]
      simp [hi2]
  rw [h1]
  exact (h.map _).trans (by rw [h2])

/-- C37. For the arities 2, 3 and 4, a matrix `M` stored at `p` and its transpose stored at
`q`: the loop from `M.BeginColumnMajor()` to `M.EndColumnMajor()` ends after `N * N` reads
(with any fuel above `N * N`) and reads the cells of `M` column by column; the loop from
`BeginRowMajor()` to `EndRowMajor()` over `M.Transpose()` reads the same sequence; and that
sequence is a permutation of the sequence that the row-major loop reads over `M`. On
`[[1,2],[3,4]]` at address 100 the column-major loop reads `1, 3, 2, 4` in five passes of
fuel, and four passes do not reach the end. -/
theorem fixed_column_major_traversal (p q : Int) (extra : Nat) :
    (∀ M : Matrix2 T,
      MatrixIterator.traverse (cellsAt M.cells p) (2 * 2 + 1 + extra)
          (Matrix2.BeginColumnMajor p) (Matrix2.EndColumnMajor p)
        = some [M.row1.first, M.row2.first, M.row1.second, M.row2.second] ∧
      MatrixIterator.traverse (cellsAt M.Transpose.cells q) (2 * 2 + 1 + extra)
          (Matrix2.BeginRowMajor q) (Matrix2.EndRowMajor q)
        = MatrixIterator.traverse (cellsAt M.cells p) (2 * 2 + 1 + extra)
          (Matrix2.BeginColumnMajor p) (Matrix2.EndColumnMajor p) ∧
      MatrixIterator.traverse (cellsAt M.cells p) (2 * 2 + 1 + extra)
          (Matrix2.BeginRowMajor p) (Matrix2.EndRowMajor p)
        = some [M.row1.first, M.row1.second, M.row2.first, M.row2.second] ∧
      List.Perm [M.row1.first, M.row2.first, M.row1.second, M.row2.second]
        [M.row1.first, M.row1.second, M.row2.first, M.row2.second]) ∧
    (∀ M : Matrix3 T,
      MatrixIterator.traverse (cellsAt M.cells p) (3 * 3 + 1 + extra)
          (Matrix3.BeginColumnMajor p) (Matrix3.EndColumnMajor p)
        = some [M.row1.first, M.row2.first, M.row3.first,
                M.row1.second, M.row2.second, M.row3.second,
                M.row1.third, M.row2.third, M.row3.third] ∧
      MatrixIterator.traverse (cellsAt M.Transpose.cells q) (3 * 3 + 1 + extra)
          (Matrix3.BeginRowMajor q) (Matrix3.EndRowMajor q)
        = MatrixIterator.traverse (cellsAt M.cells p) (3 * 3 + 1 + extra)
          (Matrix3.BeginColumnMajor p) (Matrix3.EndColumnMajor p) ∧
      MatrixIterator.traverse (cellsAt M.cells p) (3 * 3 + 1 + extra)
          (Matrix3.BeginRowMajor p) (Matrix3.EndRowMajor p)
        = some [M.row1.first, M.row1.second, M.row1.third,
                M.row2.first, M.row2.second, M.row2.third,
                M.row3.first, M.row3.second, M.row3.third] ∧
      List.Perm [M.row1.first, M.row2.first, M.row3.first,
                 M.row1.second, M.row2.second, M.row3.second,
                 M.row1.third, M.row2.third, M.row3.third]
        [M.row1.first, M.row1.second, M.row1.third,
         M.row2.first, M.row2.second, M.row2.third,
         M.row3.first, M.row3.second, M.row3.third]) ∧
    (∀ M : Matrix4 T,
      MatrixIterator.traverse (cellsAt M.cells p) (4 * 4 + 1 + extra)
          (Matrix4.BeginColumnMajor p) (Matrix4.EndColumnMajor p)
        = some [M.row1.first, M.row2.first, M.row3.first, M.row4.first,
                M.row1.second, M.row2.second, M.row3.second, M.row4.second,
                M.row1.third, M.row2.third, M.row3.third, M.row4.third,
                M.row1.fourth, M.row2.fourth, M.row3.fourth, M.row4.fourth] ∧
      MatrixIterator.traverse (cellsAt M.Transpose.cells q) (4 * 4 + 1 + extra)
          (Matrix4.BeginRowMajor q) (Matrix4.EndRowMajor q)
        = MatrixIterator.traverse (cellsAt M.cells p) (4 * 4 + 1 + extra)
          (Matrix4.BeginColumnMajor p) (Matrix4.EndColumnMajor p) ∧
      MatrixIterator.traverse (cellsAt M.cells p) (4 * 4 + 1 + extra)
          (Matrix4.BeginRowMajor p) (Matrix4.EndRowMajor p)
        = some [M.row1.first, M.row1.second, M.row1.third, M.row1.fourth,
                M.row2.first, M.row2.second, M.row2.third, M.row2.fourth,
                M.row3.first, M.row3.second, M.row3.third, M.row3.fourth,
                M.row4.first, M.row4.second, M.row4.third, M.row4.fourth] ∧
      List.Perm [M.row1.first, M.row2.first, M.row3.first, M.row4.first,
                 M.row1.second, M.row2.second, M.row3.second, M.row4.second,
                 M.row1.third, M.row2.third, M.row3.third, M.row4.third,
                 M.row1.fourth, M.row2.fourth, M.row3.fourth, M.row4.fourth]
        [M.row1.first, M.row1.second, M.row1.third, M.row1.fourth,
         M.row2.first, M.row2.second, M.row2.third, M.row2.fourth,
         M.row3.first, M.row3.second, M.row3.third, M.row3.fourth,
         M.row4.first, M.row4.second, M.row4.third, M.row4.fourth]) ∧
    (MatrixIterator.traverse (cellsAt (Matrix2.cells (⟨⟨1, 2⟩, ⟨3, 4⟩⟩ : Matrix2 ℤ)) 100) 5
        (Matrix2.BeginColumnMajor 100) (Matrix2.EndColumnMajor 100) = some [1, 3, 2, 4] ∧
      MatrixIterator.traverse (cellsAt (Matrix2.cells (⟨⟨1, 2⟩, ⟨3, 4⟩⟩ : Matrix2 ℤ)) 100) 4
        (Matrix2.BeginColumnMajor 100) (Matrix2.EndColumnMajor 100) = none) := by
  refine ⟨fun M => ⟨Matrix2_traverse_column M p extra, ?_, Matrix2_traverse_row M p extra, ?_⟩,
    fun M => ⟨Matrix3_traverse_column M p extra, ?_, Matrix3_traverse_row M p extra, ?_⟩,
    fun M => ⟨Matrix4_traverse_column M p extra, ?_, Matrix4_traverse_row M p extra, ?_⟩,
    by decide, by decide⟩
  · rw [Matrix2_traverse_column M p extra]
    exact Matrix2_traverse_row M.Transpose q extra
  · exact column_cells_perm 2 M.cells M.row1.first (by decide) rfl
  · rw [Matrix3_traverse_column M p extra]
    exact Matrix3_traverse_row M.Transpose q extra
  · exact column_cells_perm 3 M.cells M.row1.first (by decide) rfl
  · rw [Matrix4_traverse_column M p extra]
    exact Matrix4_traverse_row M.Transpose q extra
  · exact column_cells_perm 4 M.cells M.row1.first (by decide) rfl

end TraversalClaims

end Libdas
